import Mathlib

/-! DungeonRunner: combat and wave-progression core of `game.js`.

A shallow embedding of the parts of `src/game.js` that the specification's
testable properties talk about, followed by theorems about them.

Conventions of the embedding

* JavaScript numbers are modelled as rationals (`ℚ`); counters that the
  program only initialises with integer literals and increments or doubles
  (`level`, `enemiesDefeated`, `enemiesRequiredForWave`) are naturals.
* Objects are identified by an `id` field: two entries of a list with the
  same `id` stand for the same JavaScript object.
* `Math.sqrt(dx*dx + dy*dy) <= r` is modelled by `0 ≤ r ∧ dx*dx + dy*dy ≤ r*r`
  and sorting by distance by sorting on the squared distance, which agree
  with the source over the reals.
* `Date.now()` is an explicit argument `now`.
* Calls into the rendering / notification sinks are recorded as a list of
  `Effect`s where a property talks about them.
-/

namespace DungeonRunner

/-! ## Data model -/

/-- What a follower trails: the commander or another follower (by identity). -/
inductive Target where
  | commander : Target
  | follower (id : Nat) : Target
  deriving DecidableEq, Repr

/-- The eleven special-attack styles of `STEAM_CLASSES`. -/
inductive AttackStyle where
  | SWORD_SWEEP | TIME_BURST | CHAIN_LIGHTNING | PRESSURE_BLAST | GEAR_THROW
  | SHRAPNEL_FIELD | AETHER_BEAM | EMBER_SPRAY | PISTON_PUNCH | TEMPORAL_MINE
  | CORROSION_CLOUD
  deriving DecidableEq, Repr

/-- The fields of `class Follower` (game.js 504-555) used by the combat core;
`attackStyle` is `steamClass.attackStyle`. -/
structure Follower where
  id : Nat
  x : ℚ
  y : ℚ
  target : Target
  attackRange : ℚ
  attackDamage : ℚ
  health : ℚ
  maxHealth : ℚ
  lastDamageTime : ℚ
  speed : ℚ := 2
  attackSpeed : ℚ := 1000
  lastAttackTime : ℚ := 0
  attackTarget : Option Nat := none
  specialAttackTimer : ℚ := 0
  specialAttackCooldown : ℚ := 5000
  attackStyle : AttackStyle := AttackStyle.CHAIN_LIGHTNING
  deriving DecidableEq

/-- Calls into the presentation sinks of `Game` that the embedded code makes. -/
inductive Effect where
  | damageNumber (amount x y size : ℚ) : Effect
  | collectionEffect (x y : ℚ) : Effect
  | notification (x y : ℚ) : Effect
  | flash (alpha : ℚ) (color : String) : Effect
  | waveStatus (alpha : ℚ) (text : String) : Effect
  | screenShake (intensity duration : ℚ) : Effect
  deriving DecidableEq

/-- `Follower.isDead` (game.js 1560-1562): `this.health <= 0`. -/
def Follower.isDead (f : Follower) : Bool := decide (f.health ≤ 0)

/-- `Follower.takeDamage` (game.js 670-686) with `this.game` present: the
updated follower, the value returned, and the damage-number request. The
follower's `size` is the constant 15 set by the constructor. -/
def Follower.takeDamage (f : Follower) (amount now : ℚ) : Follower × Bool × List Effect :=
  let h1 := f.health - amount
  let h2 := if h1 < 0 then 0 else h1
  ({ f with health := h2, lastDamageTime := now }, decide (h2 ≤ 0),
    [Effect.damageNumber amount f.x f.y 15])

/-- The fields of `class Commander` (game.js 199-220) used by the combat core;
`hasGame` says whether `this.game` is set. -/
structure Commander where
  x : ℚ
  y : ℚ
  size : ℚ
  health : ℚ
  maxHealth : ℚ
  lastDamageTime : ℚ
  hasGame : Bool
  speed : ℚ := 2
  directionX : ℚ := 0
  directionY : ℚ := 0
  regenRate : ℚ := 1 / 20
  regenDelay : ℚ := 3000
  attackSpeed : ℚ := 800
  lastAttackTime : ℚ := 0
  deriving DecidableEq

/-- `new Commander(x, y, game)` (game.js 200-220). -/
def Commander.new (x y : ℚ) (hasGame : Bool) : Commander :=
  { x := x, y := y, size := 20, health := 500, maxHealth := 500, lastDamageTime := 0,
    hasGame := hasGame }

/-- What the critical-health branch of `Commander.takeDamage` asks of the game
(game.js 274-283): red flash, the status text, and the extra screen shake. -/
def criticalWarning : List Effect :=
  [Effect.flash (1 / 2) "#FF0000", Effect.waveStatus 1 "CRITICAL DAMAGE!",
   Effect.screenShake 12 20]

/-- `Commander.takeDamage` (game.js 257-286): the updated commander and the
requests made to the game, in order. -/
def Commander.takeDamage (c : Commander) (amount now : ℚ) : Commander × List Effect :=
  let previousHealth := c.health
  let health := c.health - amount
  let shown := if c.hasGame then [Effect.damageNumber amount c.x c.y c.size] else []
  let warned :=
    if previousHealth > c.maxHealth * (1 / 4) ∧ health ≤ c.maxHealth * (1 / 4) ∧ health > 0 then
      if c.hasGame then criticalWarning else []
    else []
  ({ c with health := health, lastDamageTime := now }, shown ++ warned)

/-- A run of `takeDamage` calls, each with its amount and its clock reading,
nothing else touching the commander in between; the requests are collected. -/
def Commander.takeDamageSeq : Commander → List (ℚ × ℚ) → Commander × List Effect
  | c, [] => (c, [])
  | c, (amount, now) :: rest =>
    let r := c.takeDamage amount now
    let rs := Commander.takeDamageSeq r.1 rest
    (rs.1, r.2 ++ rs.2)

/-- How many times the critical warning was fired in a list of requests. -/
def criticalCount (es : List Effect) : Nat :=
  es.count (Effect.screenShake 12 20)

/-! ## Death pruning pass of `Game.update` (game.js 2972-3007) -/

/-- The part of the game state the pruning pass reads and writes. -/
structure PruneState where
  followers : List Follower
  score : ℚ
  effects : List Effect

/-- One iteration of the loop body at index `i`. -/
def pruneStep (i : Nat) (s : PruneState) : PruneState :=
  match s.followers[i]? with
  | none => s
  | some follower =>
    if follower.isDead then
      let spliced := s.followers.eraseIdx i
      let relinked :=
        if i < spliced.length then
          if i = 0 then
            match spliced[0]? with
            | some f0 => spliced.set 0 { f0 with target := Target.commander }
            | none => spliced
          else
            match spliced[i]?, spliced[i - 1]? with
            | some fi, some prev => spliced.set i { fi with target := Target.follower prev.id }
            | _, _ => spliced
        else spliced
      { followers := relinked
        score := max 0 (s.score - 50)
        effects := s.effects ++
          [Effect.collectionEffect follower.x follower.y,
           Effect.notification follower.x (follower.y - 30)] }
    else s

/-- The loop `for (let i = n - 1; i >= 0; i--)`, with `n` iterations left. -/
def pruneLoop : Nat → PruneState → PruneState
  | 0, s => s
  | i + 1, s => pruneLoop i (pruneStep i s)

/-- The whole pruning pass. -/
def pruneDeadFollowers (s : PruneState) : PruneState :=
  pruneLoop s.followers.length s

/-- Chain check along the list: the head targets `prev`, the rest is chained
behind the head. -/
def chainFrom : Target → List Follower → Bool
  | _, [] => true
  | prev, f :: fs => decide (f.target = prev) && chainFrom (Target.follower f.id) fs

/-- Indexed form of the chain, with the target of the first element left open:
element 0 targets `prev`, element `i > 0` targets element `i - 1`. -/
def ChainFromIdx (prev : Target) (fs : List Follower) : Prop :=
  ∀ i : Nat, i < fs.length →
    fs[i]?.map Follower.target =
      if i = 0 then some prev else fs[i - 1]?.map (fun p => Target.follower p.id)

/-- The chain invariant: `followers[0].target` is the commander and
`followers[i].target` is `followers[i-1]` for every `i > 0`. -/
def ChainInvariant (fs : List Follower) : Prop :=
  ChainFromIdx Target.commander fs

instance (prev : Target) (fs : List Follower) : Decidable (ChainFromIdx prev fs) := by
  unfold ChainFromIdx; infer_instance

instance (fs : List Follower) : Decidable (ChainInvariant fs) := by
  unfold ChainInvariant; infer_instance

/-- The list operation of one pruning iteration on a dead follower, with the
target given to a new head left as a parameter. -/
def relinkGen (prev : Target) (i : Nat) (fs : List Follower) : List Follower :=
  let spliced := fs.eraseIdx i
  if i < spliced.length then
    if i = 0 then
      match spliced[0]? with
      | some f0 => spliced.set 0 { f0 with target := prev }
      | none => spliced
    else
      match spliced[i]?, spliced[i - 1]? with
      | some fi, some p => spliced.set i { fi with target := Target.follower p.id }
      | _, _ => spliced
  else spliced

/-- A follower with its target blanked: what of a follower the pruning pass
never changes. -/
def Follower.sansTarget (f : Follower) : Follower :=
  { f with target := Target.commander }

/-- One iteration of the pruning loop that only splices, without relinking. -/
def spliceStep (i : Nat) (fs : List Follower) : List Follower :=
  match fs[i]? with
  | none => fs
  | some follower => if follower.isDead then fs.eraseIdx i else fs

/-- The pruning loop that only splices, with `n` iterations left. -/
def spliceLoop : Nat → List Follower → List Follower
  | 0, fs => fs
  | i + 1, fs => spliceLoop i (spliceStep i fs)

/-! ## Enemies -/

/-- The three species of `Enemy` (the `type` string). -/
inductive EnemyType where
  | cultist : EnemyType
  | deep_one : EnemyType
  | shoggoth : EnemyType
  deriving DecidableEq, Repr

/-- The corrosion record attached to an enemy (game.js 1157-1162). -/
structure Corrosion where
  damagePerTick : ℚ
  tickInterval : ℚ
  remainingDuration : ℚ
  lastTickTime : ℚ
  deriving DecidableEq

/-- The fields of `class Enemy` (game.js 1648-1695). The boss-only fields are
present on every enemy and only read when `isBoss` holds; `corrosion` is
`none` for an absent or `null` record. -/
structure Enemy where
  id : Nat
  x : ℚ
  y : ℚ
  type : EnemyType
  isBoss : Bool
  size : ℚ
  speed : ℚ
  maxHealth : ℚ
  health : ℚ
  damage : ℚ
  specialAttackTimer : ℚ
  specialAttackInterval : ℚ
  phase : Nat
  phaseTransitioning : Bool
  transitionTimer : ℚ
  transitionDuration : ℚ
  corrosion : Option Corrosion
  collected : Bool := false
  deriving DecidableEq

/-- `new Enemy(x, y, type, isBoss)` (game.js 1649-1695); `id` is the identity
of the new object. -/
def Enemy.new (id : Nat) (x y : ℚ) (type : EnemyType) (isBoss : Bool) : Enemy :=
  let size : ℚ := match type with
    | EnemyType.cultist => if isBoss then 30 else 15
    | EnemyType.deep_one => if isBoss then 40 else 20
    | EnemyType.shoggoth => if isBoss then 50 else 25
  let speed : ℚ := match type with
    | EnemyType.cultist => if isBoss then 3 / 2 else 1
    | EnemyType.deep_one => if isBoss then 2 else 3 / 2
    | EnemyType.shoggoth => if isBoss then 6 / 5 else 4 / 5
  let maxHealth : ℚ := match type with
    | EnemyType.cultist => if isBoss then 10 else 2
    | EnemyType.deep_one => if isBoss then 15 else 3
    | EnemyType.shoggoth => if isBoss then 25 else 5
  let damage : ℚ := match type with
    | EnemyType.cultist => if isBoss then 20 else 10
    | EnemyType.deep_one => if isBoss then 30 else 15
    | EnemyType.shoggoth => if isBoss then 40 else 20
  { id := id, x := x, y := y, type := type, isBoss := isBoss, size := size, speed := speed,
    maxHealth := maxHealth, health := maxHealth, damage := damage,
    specialAttackTimer := 0, specialAttackInterval := if isBoss then 3000 else 0,
    phase := if isBoss then 1 else 0, phaseTransitioning := false,
    transitionTimer := 0, transitionDuration := if isBoss then 1000 else 0,
    corrosion := none }

/-! ## Follower helpers (game.js 1177-1185) -/

/-- Square of `Follower.getDistance(enemy)`. -/
def Follower.distSq (f : Follower) (enemy : Enemy) : ℚ :=
  (enemy.x - f.x) * (enemy.x - f.x) + (enemy.y - f.y) * (enemy.y - f.y)

/-- `Follower.getDistance(enemy) <= range`. -/
def Follower.distLe (f : Follower) (enemy : Enemy) (range : ℚ) : Bool :=
  decide (0 ≤ range ∧ f.distSq enemy ≤ range * range)

/-- `Follower.isInRange` (game.js 1177-1179). -/
def Follower.isInRange (f : Follower) (enemy : Enemy) (range : ℚ) : Bool :=
  f.distLe enemy range

/-- Stable insertion into a list sorted by `key`, before the first element
whose key is not smaller. -/
def insertByKey (key : Enemy → ℚ) (a : Enemy) : List Enemy → List Enemy
  | [] => [a]
  | b :: l => if key a ≤ key b then a :: b :: l else b :: insertByKey key a l

/-- `Array.prototype.sort((a, b) => key(a) - key(b))`: a stable ascending sort. -/
def sortByKey (key : Enemy → ℚ) : List Enemy → List Enemy
  | [] => []
  | a :: l => insertByKey key a (sortByKey key l)

/-! ## Chain lightning (game.js 880-961) -/

/-- The local variables of `chainLightningAttack` after the primary strike,
plus the list of strikes made so far: each strike is the identity of the enemy
whose `health` is reduced and the amount subtracted. -/
structure ChainState where
  hitEnemies : List Nat
  lastX : ℚ
  lastY : ℚ
  remainingJumps : Nat
  strikes : List (Nat × ℚ)

/-- One iteration of the branch loop `for (i = 1; i < targets.length &&
remainingJumps > 0; i++)` on `targets[i] = enemy`. -/
def branchStep (damage : ℚ) (st : ChainState) (enemy : Enemy) : ChainState :=
  if st.remainingJumps > 0 then
    if enemy.id ∈ st.hitEnemies then st
    else
      { hitEnemies := st.hitEnemies ++ [enemy.id]
        lastX := enemy.x
        lastY := enemy.y
        remainingJumps := st.remainingJumps - 1
        strikes := st.strikes ++ [(enemy.id, damage * (4 / 5))] }
  else st

/-- The fallback of `chainLightningAttack` on enemies within `1.5 * attackRange`
that have not been hit, nearest to the last target first. -/
def secondaryStrikes (f : Follower) (enemies : List Enemy) (damage : ℚ) (st : ChainState) :
    List (Nat × ℚ) :=
  if st.remainingJumps > 0 then
    let secondaryRange := f.attackRange * (3 / 2)
    let candidates := enemies.filter
      (fun enemy => decide (enemy.id ∉ st.hitEnemies) && f.distLe enemy secondaryRange)
    let sorted := sortByKey
      (fun a => (a.x - st.lastX) ^ 2 + (a.y - st.lastY) ^ 2) candidates
    (sorted.take st.remainingJumps).map (fun enemy => (enemy.id, damage * (3 / 5)))
  else []

/-- The in-range targets of a cast: filtered by `isInRange`, sorted by
distance, cut to the jump budget 5. -/
def chainTargets (f : Follower) (enemies : List Enemy) : List Enemy :=
  (sortByKey f.distSq (enemies.filter (fun enemy => f.isInRange enemy f.attackRange))).take 5

/-- The health reductions `chainLightningAttack` performs, in order. -/
def chainLightningStrikes (f : Follower) (enemies : List Enemy) : List (Nat × ℚ) :=
  let damage := f.attackDamage * (6 / 5)
  match chainTargets f enemies with
  | [] => []
  | primaryTarget :: others =>
    let st0 : ChainState :=
      { hitEnemies := [primaryTarget.id]
        lastX := primaryTarget.x
        lastY := primaryTarget.y
        remainingJumps := 4
        strikes := [(primaryTarget.id, damage)] }
    let st1 := others.foldl (branchStep damage) st0
    st1.strikes ++ secondaryStrikes f enemies damage st1

/-- The effect of `enemy.health -= amount` on the object `strike.1`. -/
def applyStrike (enemies : List Enemy) (strike : Nat × ℚ) : List Enemy :=
  enemies.map (fun e => if e.id = strike.1 then { e with health := e.health - strike.2 } else e)

/-- `Follower.chainLightningAttack` as a function on the enemy list. -/
def Follower.chainLightningAttack (f : Follower) (enemies : List Enemy) : List Enemy :=
  (chainLightningStrikes f enemies).foldl applyStrike enemies

/-- The falloff table as the specification words it: 1.0 for the first jump,
0.8 for the second, 0.6 from the third on. -/
def specFalloff (n : Nat) : ℚ :=
  if n = 1 then 1 else if n = 2 then 4 / 5 else 3 / 5

/-- The factor the code applies to the strike at position `n` (from 0) of a
cast with `m` in-range targets: 1 for the primary target, 0.8 for the other
in-range targets, 0.6 for targets of the secondary range. -/
def codeFalloff (m n : Nat) : ℚ :=
  if n = 0 then 1 else if n < m then 4 / 5 else 3 / 5

/-- The health of the enemy with identity `id`, when it is in the list. -/
def healthOf (id : Nat) (enemies : List Enemy) : Option ℚ :=
  (enemies.find? (fun e => decide (e.id = id))).map Enemy.health

/-! ## Corrosion (game.js 1138-1174, 1741-1757) -/

/-- The loop body of `Follower.corrosionCloudAttack` on one enemy. -/
def corrodeEnemy (f : Follower) (now : ℚ) (enemy : Enemy) : Enemy :=
  let cloudRadius := f.attackRange * (7 / 10)
  if f.isInRange enemy cloudRadius then
    let damaged := { enemy with health := enemy.health - f.attackDamage * (1 / 2) }
    match damaged.corrosion with
    | none =>
      let fresh : Corrosion :=
        { damagePerTick := f.attackDamage * (1 / 5)
          tickInterval := 1000
          remainingDuration := 3000
          lastTickTime := now }
      { damaged with corrosion := some fresh }
    | some c => { damaged with corrosion := some { c with remainingDuration := 3000 } }
  else enemy

/-- `Follower.corrosionCloudAttack` (game.js 1138-1174) on a list of distinct
enemies. -/
def Follower.corrosionCloudAttack (f : Follower) (enemies : List Enemy) (now : ℚ) :
    List Enemy :=
  enemies.map (corrodeEnemy f now)

/-- The corrosion block of `Enemy.update` (game.js 1741-1757). -/
def Enemy.updateCorrosion (e : Enemy) (now : ℚ) : Enemy :=
  match e.corrosion with
  | none => e
  | some c =>
    let c1 := { c with remainingDuration := c.remainingDuration - 1667 / 100 }
    let ticked := decide (now - c1.lastTickTime ≥ c1.tickInterval)
    let health := if ticked then e.health - c1.damagePerTick else e.health
    let c2 := if ticked then { c1 with lastTickTime := now } else c1
    if c2.remainingDuration ≤ 0 then { e with health := health, corrosion := none }
    else { e with health := health, corrosion := some c2 }

/-! ## Boss phases (game.js 1714-1725, 1760-1814) -/

/-- The test `a / b <= t` on JavaScript numbers with finite `a`, `b`, `t`: for
`b = 0` the quotient is `-Infinity` (true) when `a < 0`, and `Infinity` or
`NaN` (false) otherwise. -/
def jsDivLe (a b t : ℚ) : Bool :=
  if b = 0 then decide (a < 0) else decide (a / b ≤ t)

/-- `Enemy.startPhaseTransition` (game.js 1760-1795). -/
def Enemy.startPhaseTransition (e : Enemy) (newPhase : Nat) : Enemy :=
  let e1 := { e with phaseTransitioning := true, transitionTimer := 0, phase := newPhase }
  match e1.type with
  | EnemyType.cultist =>
    if newPhase = 2 then { e1 with damage := e1.damage * (3 / 2), speed := e1.speed * (6 / 5) }
    else if newPhase = 3 then
      { e1 with damage := e1.damage * 2,
                specialAttackInterval := e1.specialAttackInterval * (7 / 10) }
    else e1
  | EnemyType.deep_one =>
    if newPhase = 2 then { e1 with speed := e1.speed * (3 / 2), size := e1.size * (6 / 5) }
    else if newPhase = 3 then { e1 with speed := e1.speed * 2, damage := e1.damage * (3 / 2) }
    else e1
  | EnemyType.shoggoth =>
    if newPhase = 2 then { e1 with size := e1.size * (13 / 10), damage := e1.damage * (13 / 10) }
    else if newPhase = 3 then
      { e1 with size := e1.size * (3 / 2),
                specialAttackInterval := e1.specialAttackInterval * (1 / 2) }
    else e1

/-- `Enemy.updatePhaseTransition` (game.js 1797-1814); `pulseScale progress`
stands for `1 + Math.sin(progress * Math.PI * 4) * 0.2`. -/
def Enemy.updatePhaseTransition (pulseScale : ℚ → ℚ) (e : Enemy) : Enemy :=
  let timer := e.transitionTimer + 1667 / 100
  if jsDivLe timer e.transitionDuration 1 then
    { e with transitionTimer := timer
             size := e.size * pulseScale (timer / e.transitionDuration) }
  else { e with transitionTimer := timer, phaseTransitioning := false }

/-- The phase block of `Enemy.update` (game.js 1714-1725): the updated enemy
and the argument of the `startPhaseTransition` call made, if any. -/
def Enemy.updatePhase (pulseScale : ℚ → ℚ) (e : Enemy) : Enemy × Option Nat :=
  if e.isBoss then
    if !e.phaseTransitioning then
      if e.phase = 1 ∧ jsDivLe e.health e.maxHealth (7 / 10) = true then
        (e.startPhaseTransition 2, some 2)
      else if e.phase = 2 ∧ jsDivLe e.health e.maxHealth (3 / 10) = true then
        (e.startPhaseTransition 3, some 3)
      else (e, none)
    else (e.updatePhaseTransition pulseScale, none)
  else (e, none)

/-- What happens to a boss between two looks at it: an `update` call, or any
other code, which may rewrite every field except the three that only the
constructor, `startPhaseTransition` and `updatePhaseTransition` assign. -/
inductive BossEvent where
  | update : BossEvent
  | mutate (changed : Enemy) : BossEvent

/-- One event applied to a boss; the transition started, if any. -/
def bossStep (pulseScale : ℚ → ℚ) (e : Enemy) : BossEvent → Enemy × Option Nat
  | BossEvent.update => e.updatePhase pulseScale
  | BossEvent.mutate changed =>
    ({ changed with phase := e.phase, phaseTransitioning := e.phaseTransitioning,
                    transitionTimer := e.transitionTimer }, none)

/-- A run of events: the final boss and the transitions started, in order. -/
def bossRun (pulseScale : ℚ → ℚ) : Enemy → List BossEvent → Enemy × List Nat
  | e, [] => (e, [])
  | e, ev :: rest =>
    let r := bossStep pulseScale e ev
    let rs := bossRun pulseScale r.1 rest
    (rs.1, r.2.toList ++ rs.2)

/-! ## Weighted class selection (game.js 413-502, 3712-3741, 3859-3882) -/

/-- An entry of the `STEAM_CLASSES` table. -/
structure SteamClass where
  name : String
  attackStyle : AttackStyle
  damage : ℚ
  range : ℚ
  speed : ℚ
  spawnRate : ℚ
  deriving DecidableEq

/-- The `STEAM_CLASSES` table as the source initialises it, in key order. -/
def STEAM_CLASSES : List SteamClass :=
  [ { name := "Warrior", attackStyle := AttackStyle.SWORD_SWEEP,
      damage := 5 / 2, range := 180, speed := 8 / 5, spawnRate := 100 },
    { name := "Ice Mage", attackStyle := AttackStyle.TIME_BURST,
      damage := 6 / 5, range := 120, speed := 9 / 5, spawnRate := 100 },
    { name := "Thunder Mage", attackStyle := AttackStyle.CHAIN_LIGHTNING,
      damage := 3 / 2, range := 150, speed := 3 / 2, spawnRate := 100 },
    { name := "Shroom Pixie", attackStyle := AttackStyle.PRESSURE_BLAST,
      damage := 2, range := 80, speed := 6 / 5, spawnRate := 100 },
    { name := "Ninja", attackStyle := AttackStyle.GEAR_THROW,
      damage := 9 / 5, range := 200, speed := 13 / 10, spawnRate := 100 },
    { name := "Holy Bard", attackStyle := AttackStyle.SHRAPNEL_FIELD,
      damage := 8 / 5, range := 100, speed := 7 / 5, spawnRate := 100 },
    { name := "Dark Mage", attackStyle := AttackStyle.AETHER_BEAM,
      damage := 11 / 5, range := 180, speed := 11 / 10, spawnRate := 100 },
    { name := "Shotgunner", attackStyle := AttackStyle.EMBER_SPRAY,
      damage := 17 / 10, range := 90, speed := 8 / 5, spawnRate := 100 },
    { name := "Sniper", attackStyle := AttackStyle.PISTON_PUNCH,
      damage := 19 / 10, range := 60, speed := 2, spawnRate := 100 },
    { name := "Goblin Trapper", attackStyle := AttackStyle.TEMPORAL_MINE,
      damage := 5 / 2, range := 140, speed := 1, spawnRate := 100 },
    { name := "Shaman", attackStyle := AttackStyle.CORROSION_CLOUD,
      damage := 7 / 5, range := 110, speed := 17 / 10, spawnRate := 100 } ]

/-- `Game.setClassSpawnRate` (game.js 3712-3719) on the entry at position
`index` of the table: the rate is stored as `Math.max(0, rate)`. -/
def setClassSpawnRate (classes : List SteamClass) (index : Nat) (rate : ℚ) :
    List SteamClass :=
  match classes[index]? with
  | some c => classes.set index { c with spawnRate := max 0 rate }
  | none => classes

/-- `Game.disableClassSpawn` (game.js 3739-3741). -/
def disableClassSpawn (classes : List SteamClass) (index : Nat) : List SteamClass :=
  setClassSpawnRate classes index 0

/-- The first loop of `selectWeightedSteamClass`: the sum of the spawn rates. -/
def totalWeight (classes : List SteamClass) : ℚ :=
  classes.foldl (fun total c => total + c.spawnRate) 0

/-- The second loop of `selectWeightedSteamClass`, entered with the weight
accumulated so far: the first class at which `randomValue <= cumulativeWeight`. -/
def selectLoop (randomValue : ℚ) : ℚ → List SteamClass → Option SteamClass
  | _, [] => none
  | cumulativeWeight, c :: rest =>
    if randomValue ≤ cumulativeWeight + c.spawnRate then some c
    else selectLoop randomValue (cumulativeWeight + c.spawnRate) rest

/-- `selectWeightedSteamClass` (game.js 3859-3882) on the table `classes`, with
`r` the value of `Math.random()`; `none` stands for `undefined` (the fallback
on an empty table). -/
def selectWeightedSteamClass (classes : List SteamClass) (r : ℚ) : Option SteamClass :=
  let randomValue := r * totalWeight classes
  match selectLoop randomValue 0 classes with
  | some c => some c
  | none => classes.head?

/-! ## Waves (game.js 2275-2322, 2877-2956) -/

/-- An `EnvironmentElement` (game.js 95-105): an axis-aligned tile with the
speed modifier of its terrain type (1 grass, 0.8 bush, 0.5 forest). -/
structure EnvironmentElement where
  x : ℚ
  y : ℚ
  width : ℚ
  height : ℚ
  speedModifier : ℚ
  deriving DecidableEq

/-- `EnvironmentElement.contains` (game.js 163-166). -/
def EnvironmentElement.contains (e : EnvironmentElement) (x y : ℚ) : Bool :=
  decide (x ≥ e.x ∧ x < e.x + e.width ∧ y ≥ e.y ∧ y < e.y + e.height)

/-- An `Engineer` or `SteamCore` pickup, as far as the game state needs it. -/
structure Pickup where
  x : ℚ
  y : ℚ
  collected : Bool
  steamClass : Option SteamClass := none
  coreType : Option (Fin 3) := none
  deriving DecidableEq

/-- The record `pendingGroupSpawn` written by the group pattern of
`spawnEnemy` (game.js 2457-2463). -/
structure GroupSpawn where
  count : ℤ
  baseX : ℚ
  baseY : ℚ
  type : EnemyType
  spacing : ℚ
  deriving DecidableEq

/-- The fields of `class Game` that the embedded methods read or write.
`currentBoss` is the identity of the boss object, or `none` for `null`;
`gameOverTimers` counts the `setTimeout(() => this.gameOver(), 2000)`
callbacks scheduled so far. The presentation state (camera, screen shake,
flash, particle pools, notifications) is left out. -/
structure Game where
  canvasWidth : ℚ
  canvasHeight : ℚ
  isPlaying : Bool
  score : ℚ
  health : ℚ
  commander : Commander
  followers : List Follower
  engineers : List Pickup
  enemies : List Enemy
  engineerSpawnTimer : ℚ
  enemySpawnTimer : ℚ
  enemySpawnInterval : ℚ
  lastEnemySpawnTime : ℚ
  enemySpawnDelay : ℚ
  steamCores : List Pickup
  steamCoreSpawnTimer : ℚ
  level : Nat
  waveTimer : ℚ
  enemiesDefeated : Nat
  enemiesRequiredForWave : Nat
  waveCompleted : Bool
  waveStatusAlpha : ℚ
  waveStatusText : String
  currentBoss : Option Nat
  bossDefeated : Bool
  environment : List EnvironmentElement := []
  finalScore : ℚ := 0
  finalLevel : Nat := 0
  gameOverTimers : Nat := 0
  pendingGroupSpawn : Option GroupSpawn := none

/-- `Game.startGame` (game.js 2275-2322), without the DOM and game-loop calls. -/
def Game.startGame (g : Game) : Game :=
  { g with
    isPlaying := true
    score := 0
    health := 100
    commander := Commander.new (⌊g.canvasWidth / 2⌋ : ℤ) (⌊g.canvasHeight / 2⌋ : ℤ) true
    followers := []
    engineers := []
    enemies := []
    engineerSpawnTimer := 0
    enemySpawnTimer := 0
    lastEnemySpawnTime := 0
    enemySpawnDelay := 2000
    steamCores := []
    steamCoreSpawnTimer := 0
    level := 1
    waveTimer := 0
    enemiesDefeated := 0
    enemiesRequiredForWave := 10
    waveCompleted := false
    waveStatusAlpha := 1
    waveStatusText := "Wave 1 Started!" }

/-- The upper-case name of a species, for the boss announcement. -/
def EnemyType.upperName : EnemyType → String
  | EnemyType.cultist => "CULTIST"
  | EnemyType.deep_one => "DEEP_ONE"
  | EnemyType.shoggoth => "SHOGGOTH"

/-- `Game.spawnBoss` (game.js 2877-2895). `posIdx` and `typeIdx` are the two
random indices `Math.floor(Math.random() * n)`, `bossId` the identity of the
new enemy object. -/
def Game.spawnBoss (g : Game) (posIdx : Fin 4) (typeIdx : Fin 3) (bossId : Nat) : Game :=
  let spawnPos : ℚ × ℚ :=
    match posIdx with
    | 0 => (g.canvasWidth / 2, -50)
    | 1 => (g.canvasWidth / 2, g.canvasHeight + 50)
    | 2 => (-50, g.canvasHeight / 2)
    | 3 => (g.canvasWidth + 50, g.canvasHeight / 2)
  let type : EnemyType :=
    match typeIdx with
    | 0 => EnemyType.cultist
    | 1 => EnemyType.deep_one
    | 2 => EnemyType.shoggoth
  { g with
    currentBoss := some bossId
    enemies := g.enemies ++ [Enemy.new bossId spawnPos.1 spawnPos.2 type true]
    waveStatusAlpha := 1
    waveStatusText := "BOSS: " ++ type.upperName ++ " COMMANDER" }

/-- `Game.completeWave` (game.js 2918-2956), without the celebration particles. -/
def Game.completeWave (g : Game) : Game :=
  let level := g.level + 1
  { g with
    level := level
    currentBoss := none
    bossDefeated := false
    enemiesRequiredForWave := if level = 2 then 20 else g.enemiesRequiredForWave * 2
    enemySpawnInterval := max 500 (2000 - ((level : ℚ) - 1) * 200)
    waveTimer := 0
    enemiesDefeated := 0
    waveCompleted := false
    score := g.score + (level : ℚ) * 500
    commander := { g.commander with
      health := min g.commander.maxHealth (g.commander.health + 20) }
    followers := g.followers.map
      (fun follower => { follower with health := min follower.maxHealth (follower.health + 10) })
    waveStatusAlpha := 1
    waveStatusText := "Wave " ++ toString level ++ " Started!" }

/-- The condition under which `checkWaveProgress` calls `completeWave`. -/
def Game.waveIsComplete (g : Game) : Bool :=
  decide (g.enemiesDefeated ≥ g.enemiesRequiredForWave) && g.bossDefeated

/-- `Game.checkWaveProgress` (game.js 2897-2916); the three extra arguments are
those of `spawnBoss`. -/
def Game.checkWaveProgress (g : Game) (posIdx : Fin 4) (typeIdx : Fin 3) (bossId : Nat) :
    Game :=
  if g.waveCompleted then g
  else
    let g1 := { g with waveTimer := g.waveTimer + 1667 / 100 }
    let g2 :=
      if g1.currentBoss.isNone && !g1.bossDefeated &&
          decide ((g1.enemiesDefeated : ℚ) ≥ (g1.enemiesRequiredForWave : ℚ) * (3 / 4)) then
        g1.spawnBoss posIdx typeIdx bossId
      else g1
    let g3 := if g2.waveIsComplete then g2.completeWave else g2
    if g3.waveStatusAlpha > 0 then { g3 with waveStatusAlpha := g3.waveStatusAlpha - 1 / 200 }
    else g3

/-- `k` calls of `completeWave` in a row. -/
def Game.completeWaves : Nat → Game → Game
  | 0, g => g
  | k + 1, g => Game.completeWaves k g.completeWave

/-! ## Terrain (game.js 3675-3688) -/

/-- `Game.getEnvironmentSpeedModifier` (game.js 3675-3688). -/
def Game.getEnvironmentSpeedModifier (g : Game) (x y : ℚ) : ℚ :=
  g.environment.foldl
    (fun speedModifier element =>
      if element.contains x y then min speedModifier element.speedModifier else speedModifier)
    1

/-! ## Object pool (game.js 2065-2101) -/

/-- A pooled object: its identity and its state. -/
structure PoolObject (σ : Type) where
  id : Nat
  state : σ

/-- What a pool is built over: `createFn`, and the `reset`, `update` and
`isActive` methods of the pooled class; `α` is the argument list of
`get(...)`. -/
structure PoolClass (α σ : Type) where
  createFn : α → σ
  reset : α → σ → σ
  update : σ → σ
  isActive : σ → Bool

/-- The fields of `class ObjectPool`: `objects` is the free list,
`activeObjects` the active set in insertion order; `nextId` is the identity the
next created object gets. -/
structure ObjectPool (σ : Type) where
  maxSize : Nat
  objects : List (PoolObject σ)
  activeObjects : List (PoolObject σ)
  nextId : Nat

/-- `new ObjectPool(createFn, maxSize)` (game.js 2066-2071). -/
def ObjectPool.new (σ : Type) (maxSize : Nat) : ObjectPool σ :=
  { maxSize := maxSize, objects := [], activeObjects := [], nextId := 0 }

/-- `Set.prototype.add`: an object already in the set (same identity) stays
where it is, a new one goes to the end. -/
def setAdd {σ : Type} (set : List (PoolObject σ)) (obj : PoolObject σ) :
    List (PoolObject σ) :=
  if set.any (fun o => decide (o.id = obj.id)) then
    set.map (fun o => if o.id = obj.id then obj else o)
  else set ++ [obj]

/-- `ObjectPool.get` (game.js 2073-2085): the pool afterwards and the object
returned (`none` for `null`). -/
def ObjectPool.get {α σ : Type} (k : PoolClass α σ) (p : ObjectPool σ) (args : α) :
    ObjectPool σ × Option (PoolObject σ) :=
  match p.objects.getLast? with
  | some popped =>
    let obj : PoolObject σ := { popped with state := k.reset args popped.state }
    ({ p with objects := p.objects.dropLast, activeObjects := setAdd p.activeObjects obj },
      some obj)
  | none =>
    if p.activeObjects.length < p.maxSize then
      let obj : PoolObject σ := { id := p.nextId, state := k.createFn args }
      ({ p with activeObjects := setAdd p.activeObjects obj, nextId := p.nextId + 1 },
        some obj)
    else (p, none)

/-- `ObjectPool.release` (game.js 2087-2092) of the object with identity `id`. -/
def ObjectPool.release {σ : Type} (p : ObjectPool σ) (id : Nat) : ObjectPool σ :=
  match p.activeObjects.find? (fun o => decide (o.id = id)) with
  | some obj =>
    { p with activeObjects := p.activeObjects.filter (fun o => decide (o.id ≠ id))
             objects := p.objects ++ [obj] }
  | none => p

/-- `ObjectPool.update` (game.js 2094-2101): every active object is updated,
and released when it is no longer active. -/
def ObjectPool.update {α σ : Type} (k : PoolClass α σ) (p : ObjectPool σ) : ObjectPool σ :=
  let updated := p.activeObjects.map (fun o => { o with state := k.update o.state })
  { p with activeObjects := updated.filter (fun o => k.isActive o.state)
           objects := p.objects ++ updated.filter (fun o => !k.isActive o.state) }

/-- A call made on a pool. -/
inductive PoolOp (α : Type) where
  | get (args : α) : PoolOp α
  | release (id : Nat) : PoolOp α
  | update : PoolOp α

/-- One call applied to a pool. -/
def ObjectPool.step {α σ : Type} (k : PoolClass α σ) (p : ObjectPool σ) :
    PoolOp α → ObjectPool σ
  | PoolOp.get args => (p.get k args).1
  | PoolOp.release id => p.release id
  | PoolOp.update => p.update k

/-- A sequence of calls applied to a pool, first call first. -/
def ObjectPool.run {α σ : Type} (k : PoolClass α σ) (p : ObjectPool σ) (ops : List (PoolOp α)) :
    ObjectPool σ :=
  ops.foldl (ObjectPool.step k) p

/-! ## Basic attack (game.js 621-668) -/

/-- The search loop of `Follower.updateAttack` (game.js 630-644): the closest
uncollected enemy within `attackRange`, the first one among equally close. -/
def Follower.findClosest (f : Follower) (enemies : List Enemy) : Option Enemy :=
  enemies.foldl
    (fun (closestEnemy : Option Enemy) enemy =>
      if enemy.collected then closestEnemy
      else if f.distLe enemy f.attackRange &&
          (match closestEnemy with
            | none => true
            | some closest => decide (f.distSq enemy < f.distSq closest)) then some enemy
      else closestEnemy)
    none

/-- `Follower.attackEnemy` (game.js 656-668) on the enemy list, with the
damage number it requests when the health went down. -/
def Follower.attackEnemy (f : Follower) (enemies : List Enemy) (enemy : Enemy) :
    List Enemy × List Effect :=
  (applyStrike enemies (enemy.id, f.attackDamage),
    if enemy.health - f.attackDamage < enemy.health then
      [Effect.damageNumber (enemy.health - (enemy.health - f.attackDamage))
        enemy.x enemy.y enemy.size]
    else [])

/-- `Follower.updateAttack` (game.js 621-654): the follower, the enemy list and
the requests made. -/
def Follower.updateAttack (f : Follower) (enemies : List Enemy) (now : ℚ) :
    Follower × List Enemy × List Effect :=
  if now - f.lastAttackTime < f.attackSpeed then (f, enemies, [])
  else
    match f.findClosest enemies with
    | some closestEnemy =>
      let r := f.attackEnemy enemies closestEnemy
      ({ f with attackTarget := some closestEnemy.id, lastAttackTime := now }, r.1, r.2)
    | none => ({ f with attackTarget := none }, enemies, [])

/-- One iteration of a nearest-enemy search loop with range `range`
(`updateAttack`, game.js 633-644, and `performSwordSweepAttack`, game.js
4634-4643): collected enemies are skipped, an enemy within `range` that is
strictly closer than the best so far replaces it. -/
def Follower.nearestStep (f : Follower) (range : ℚ) (closestEnemy : Option Enemy)
    (enemy : Enemy) : Option Enemy :=
  if enemy.collected then closestEnemy
  else if f.distLe enemy range &&
      (match closestEnemy with
        | none => true
        | some closest => decide (f.distSq enemy < f.distSq closest)) then some enemy
  else closestEnemy

/-- What a nearest-enemy search over `seen` may return: `none` when no
uncollected enemy of `seen` is within `range`, otherwise an uncollected enemy
of `seen` within `range` such that no uncollected enemy of `seen` within
`range` is strictly closer. -/
def Follower.IsClosest (f : Follower) (range : ℚ) (seen : List Enemy) : Option Enemy → Prop
  | none => ∀ e ∈ seen, e.collected = false → f.distLe e range = false
  | some c =>
    c ∈ seen ∧ c.collected = false ∧ f.distLe c range = true ∧
      ∀ e ∈ seen, e.collected = false → f.distLe e range = true → f.distSq c ≤ f.distSq e

/-! ## Special attacks (game.js 1501-1557, 4621-4698) -/

/-- What a special attack works on: the enemy list, and everything else it
can reach (the follower's `attackEffects`, the mines, flash and particles of
the game), which is kept abstract. -/
structure SpecialWorld (Ω : Type) where
  enemies : List Enemy
  rest : Ω

/-- The global function `performSwordSweepAttack(attacker, enemies)` (game.js
4621-4698) for a follower as attacker. `sweepArc` stands for the arc loop
(game.js 4647-4695, it works with `Math.atan2`): from the attacker, the
nearest enemy and the current time it gives the world after the sweep. -/
def performSwordSweepAttack {Ω : Type}
    (sweepArc : Follower → Enemy → SpecialWorld Ω → ℚ → SpecialWorld Ω)
    (attacker : Follower) (w : SpecialWorld Ω) (now : ℚ) : Follower × SpecialWorld Ω :=
  if w.enemies = [] then (attacker, w)
  else
    let attackSpeed := if attacker.attackSpeed = 0 then 800 else attacker.attackSpeed
    if now - attacker.lastAttackTime < attackSpeed then (attacker, w)
    else
      let attackRange := if attacker.attackRange = 0 then 80 else attacker.attackRange
      match w.enemies.foldl (attacker.nearestStep attackRange) none with
      | none => (attacker, w)
      | some nearestEnemy =>
        ({ attacker with lastAttackTime := now }, sweepArc attacker nearestEnemy w now)

/-- The cooldown `performSpecialAttack` compares with (game.js 1505-1510). -/
def Follower.specialCooldown (f : Follower) : ℚ :=
  if f.attackStyle = AttackStyle.SWORD_SWEEP then 2000
  else if f.attackStyle = AttackStyle.AETHER_BEAM then 1500
  else f.specialAttackCooldown

/-- `Follower.performSpecialAttack` (game.js 1501-1557). `body style` stands
for the attack method of a style that is not embedded here; for chain
lightning and the corrosion cloud the enemy list comes from the embedding
above and only the rest of the world from `body`. -/
def Follower.performSpecialAttack {Ω : Type}
    (sweepArc : Follower → Enemy → SpecialWorld Ω → ℚ → SpecialWorld Ω)
    (body : AttackStyle → Follower → SpecialWorld Ω → ℚ → SpecialWorld Ω)
    (f : Follower) (w : SpecialWorld Ω) (now : ℚ) : Follower × SpecialWorld Ω :=
  if now - f.specialAttackTimer < f.specialCooldown then (f, w)
  else
    let r : Follower × SpecialWorld Ω :=
      match f.attackStyle with
      | AttackStyle.SWORD_SWEEP => performSwordSweepAttack sweepArc f w now
      | AttackStyle.CHAIN_LIGHTNING =>
        (f, { enemies := f.chainLightningAttack w.enemies
              rest := (body AttackStyle.CHAIN_LIGHTNING f w now).rest })
      | AttackStyle.CORROSION_CLOUD =>
        (f, { enemies := f.corrosionCloudAttack w.enemies now
              rest := (body AttackStyle.CORROSION_CLOUD f w now).rest })
      | style => (f, body style f w now)
    ({ r.1 with specialAttackTimer := now }, r.2)

/-! ## Game over (game.js 2819-2820, 2958-2970, 3471-3509) -/

/-- What a request recorded by `Commander.takeDamage` does to the modelled
game state: the status line is set; flash, screen shake and damage numbers are
presentation. -/
def Game.applyEffect (g : Game) : Effect → Game
  | Effect.waveStatus alpha text => { g with waveStatusAlpha := alpha, waveStatusText := text }
  | _ => g

/-- The call `this.commander.takeDamage(amount)` on the commander of the game. -/
def Game.commanderTakeDamage (g : Game) (amount now : ℚ) : Game :=
  let r := g.commander.takeDamage amount now
  r.2.foldl Game.applyEffect { g with commander := r.1 }

/-- `Game.triggerGameOver` (game.js 3484-3509), without the explosion particles
and the screen shake. -/
def Game.triggerGameOver (g : Game) : Game :=
  { g with
    waveStatusAlpha := 1
    waveStatusText := "GAME OVER"
    finalScore := g.score
    finalLevel := g.level
    gameOverTimers := g.gameOverTimers + 1 }

/-- `Game.gameOver` (game.js 2819-2875), without the DOM overlay. -/
def Game.gameOver (g : Game) : Game :=
  { g with isPlaying := false }

/-- The test `Math.sqrt((x - this.x) ** 2 + (y - this.y) ** 2) < radius` of
`Enemy.performAreaDamage`. -/
def Enemy.withinRadius (e : Enemy) (x y radius : ℚ) : Bool :=
  decide (0 < radius ∧ (x - e.x) ^ 2 + (y - e.y) ^ 2 < radius ^ 2)

/-- `Enemy.performAreaDamage` (game.js 1897-1916) of a boss wired to its game. -/
def Enemy.performAreaDamage (e : Enemy) (g : Game) (radius damage now : ℚ) : Game :=
  let hit := e.withinRadius g.commander.x g.commander.y radius
  let g1 := if hit then g.commanderTakeDamage damage now else g
  if hit && decide (g1.commander.health ≤ 0) then g1.triggerGameOver
  else
    let damaged := g1.followers.map
      (fun follower =>
        if e.withinRadius follower.x follower.y radius then
          (follower.takeDamage damage now).1
        else follower)
    { g1 with followers := damaged }

/-- The `'shoggoth'` case of `Enemy.performSpecialAttack` (game.js 1877-1893). -/
def Enemy.performSpecialAttackShoggoth (e : Enemy) (g : Game) (now : ℚ) : Game :=
  let baseRadius : ℚ := 100
  if e.phase = 1 then e.performAreaDamage g baseRadius (e.damage / 2) now
  else if e.phase = 2 then
    let g1 := e.performAreaDamage g baseRadius (e.damage * (7 / 10)) now
    e.performAreaDamage g1 (baseRadius * (1 / 2)) e.damage now
  else
    let g1 := e.performAreaDamage g (baseRadius * (3 / 2)) (e.damage * (1 / 2)) now
    let g2 := e.performAreaDamage g1 baseRadius (e.damage * (3 / 4)) now
    e.performAreaDamage g2 (baseRadius * (1 / 2)) e.damage now

/-- The movement and regeneration of `Commander.update` (game.js 222-234). -/
def Commander.moveAndRegen (c : Commander) (speedModifier now : ℚ) : Commander :=
  let moved :=
    { c with x := c.x + c.directionX * c.speed * speedModifier
             y := c.y + c.directionY * c.speed * speedModifier }
  if now - moved.lastDamageTime > moved.regenDelay ∧ moved.health < moved.maxHealth then
    { moved with health := min moved.maxHealth (moved.health + moved.regenRate) }
  else moved

/-- The second early return of `performSwordSweepAttack` (game.js 4625-4627):
the attacker's sweep is still cooling down. -/
def Commander.sweepOnCooldown (c : Commander) (now : ℚ) : Bool :=
  decide (now - c.lastAttackTime < (if c.attackSpeed = 0 then 800 else c.attackSpeed))

/-- `Game.update` (game.js 2958-3147). `sweep` stands for
`performSwordSweepAttack` past its two early returns (it works with
`Math.atan2`), `rest` for the part of the frame after the commander-death
check (game.js 2972-3146). -/
def Game.update (sweep : Commander → List Enemy → ℚ → Commander × List Enemy)
    (rest : Game → Game) (g : Game) (now : ℚ) : Game :=
  if !g.isPlaying then g
  else
    let speedModifier := g.getEnvironmentSpeedModifier g.commander.x g.commander.y
    let c1 := g.commander.moveAndRegen speedModifier now
    let swept :=
      if g.enemies = [] ∨ c1.sweepOnCooldown now = true then (c1, g.enemies)
      else sweep c1 g.enemies now
    let g1 := { g with commander := swept.1, enemies := swept.2 }
    if g1.commander.health ≤ 0 then g1.triggerGameOver
    else rest g1

/-! ## Pickup placement (game.js 2342-2407, 2499-2584) -/

/-- The test `distance < 100` between a sampled point and an actor. -/
def tooClose (x y actorX actorY : ℚ) : Bool :=
  decide ((x - actorX) * (x - actorX) + (y - actorY) * (y - actorY) < 100 * 100)

/-- The sampling loop `while (!validPosition && attempts < maxAttempts)` with
`fuel` attempts left out of 50: the accepted point, if any, and the value of
`attempts` at the end. `draws k` is the pair of `Math.random()` values of
attempt `k`. -/
def samplePosition (valid : ℚ → ℚ → Bool) (width height : ℚ) (draws : Nat → ℚ × ℚ) :
    Nat → Nat → Option (ℚ × ℚ) × Nat
  | 0, attempts => (none, attempts)
  | fuel + 1, attempts =>
    let x := (draws attempts).1 * (width - 2 * 40) + 40
    let y := (draws attempts).2 * (height - 2 * 40) + 40
    if valid x y then (some (x, y), attempts + 1)
    else samplePosition valid width height draws fuel (attempts + 1)

/-- The validity test of `Game.spawnEngineer` (game.js 2356-2390). -/
def Game.engineerSpotValid (g : Game) (x y : ℚ) : Bool :=
  g.engineers.all (fun engineer => engineer.collected || !tooClose x y engineer.x engineer.y) &&
    !tooClose x y g.commander.x g.commander.y &&
    g.followers.all (fun follower => !tooClose x y follower.x follower.y)

/-- `Game.spawnEngineer` (game.js 2342-2407); `classes` is the `STEAM_CLASSES`
table and `classDraw` the random value used by the `Engineer` constructor. -/
def Game.spawnEngineer (g : Game) (draws : Nat → ℚ × ℚ) (classes : List SteamClass)
    (classDraw : ℚ) : Game :=
  match (samplePosition g.engineerSpotValid g.canvasWidth g.canvasHeight draws 50 0).1 with
  | some (x, y) =>
    let engineer : Pickup :=
      { x := x, y := y, collected := false
        steamClass := selectWeightedSteamClass classes classDraw }
    { g with engineers := g.engineers ++ [engineer] }
  | none => g

/-- The validity test of `Game.spawnSteamCore` (game.js 2512-2560). -/
def Game.coreSpotValid (g : Game) (x y : ℚ) : Bool :=
  g.steamCores.all (fun core => !tooClose x y core.x core.y) &&
    g.engineers.all (fun engineer => engineer.collected || !tooClose x y engineer.x engineer.y) &&
    !tooClose x y g.commander.x g.commander.y &&
    g.followers.all (fun follower => !tooClose x y follower.x follower.y)

/-- `Game.spawnSteamCore` (game.js 2499-2584); `typeIdx` is the random index
into `['damage', 'range', 'speed']`. -/
def Game.spawnSteamCore (g : Game) (draws : Nat → ℚ × ℚ) (typeIdx : Fin 3) : Game :=
  match (samplePosition g.coreSpotValid g.canvasWidth g.canvasHeight draws 50 0).1 with
  | some (x, y) =>
    let core : Pickup := { x := x, y := y, collected := false, coreType := some typeIdx }
    { g with steamCores := g.steamCores ++ [core] }
  | none => g

/-! ## Follower movement (game.js 583-598) -/

/-- The movement block of `Follower.update` (game.js 586-598) over an ordered
field `K` with a square-root function `sqrt`: the new position of a follower
at `(x, y)` with speed `speed`, terrain modifier `speedModifier` and the given
position history; `followDelay` is 5. -/
def followerMove {K : Type} [LinearOrderedField K] (sqrt : K → K)
    (x y speed speedModifier : K) (positionHistory : List (K × K)) : K × K :=
  if positionHistory.length ≥ 5 then
    match positionHistory[4]? with
    | some targetPos =>
      let dx := targetPos.1 - x
      let dy := targetPos.2 - y
      let distance := sqrt (dx * dx + dy * dy)
      if distance > 1 / 2 then
        let step := min speed (distance * (1 / 2)) * speedModifier
        (x + dx / distance * step, y + dy / distance * step)
      else (x, y)
    | none => (x, y)
  else (x, y)

/-! ## Enemy spawning (game.js 2409-2497) -/

/-- The species chosen by `spawnEnemy` from the draw `rand` at level `level`
(game.js 2418-2426). -/
def spawnEnemyType (level : Nat) (rand : ℚ) : EnemyType :=
  if level ≤ 2 then
    if rand < 7 / 10 then EnemyType.cultist
    else if rand < 9 / 10 then EnemyType.deep_one else EnemyType.shoggoth
  else if level ≤ 5 then
    if rand < 4 / 10 then EnemyType.cultist
    else if rand < 8 / 10 then EnemyType.deep_one else EnemyType.shoggoth
  else
    if rand < 3 / 10 then EnemyType.cultist
    else if rand < 6 / 10 then EnemyType.deep_one else EnemyType.shoggoth

/-- The rank of a species by its base statistics in the `Enemy` constructor
(health 2, 3, 5; damage 10, 15, 20; size 15, 20, 25). -/
def EnemyType.toughness : EnemyType → Nat
  | EnemyType.cultist => 0
  | EnemyType.deep_one => 1
  | EnemyType.shoggoth => 2

/-- The values `Math.random()` returns during one iteration of the loop of
`spawnEnemy`, and the identity of the enemy it creates: `rand` picks the
species, `groupRand` and `cornerRand` are compared with 0.3 and 0.4 when the
level makes the code draw them, `a`, `b`, `c` are the draws made inside the
chosen pattern, in call order. -/
structure SpawnDraws where
  rand : ℚ
  groupRand : ℚ
  cornerRand : ℚ
  a : ℚ
  b : ℚ
  c : ℚ
  enemyId : Nat

/-- One iteration of the loop of `spawnEnemy` (game.js 2417-2490). -/
def Game.spawnOne (g : Game) (d : SpawnDraws) : Game :=
  let type := spawnEnemyType g.level d.rand
  let width := g.canvasWidth
  let height := g.canvasHeight
  let placed : ℚ × ℚ × Option GroupSpawn :=
    if g.level ≥ 5 ∧ d.groupRand < 3 / 10 then
      let baseX : ℚ := if d.a < 1 / 2 then -20 else width + 20
      let baseY : ℚ := d.b * height
      let group : GroupSpawn :=
        { count := ⌊2 + d.c * 3⌋, baseX := baseX, baseY := baseY, type := type, spacing := 40 }
      (baseX, baseY, some group)
    else if g.level ≥ 3 ∧ d.cornerRand < 4 / 10 then
      let corner : ℤ := ⌊d.a * 4⌋
      (if corner % 2 = 0 then -20 else width + 20, if corner < 2 then -20 else height + 20,
        g.pendingGroupSpawn)
    else if d.a < 1 / 2 then
      (if d.b < 1 / 2 then -20 else width + 20, d.c * height, g.pendingGroupSpawn)
    else
      (d.b * width, if d.c < 1 / 2 then -20 else height + 20, g.pendingGroupSpawn)
  let enemy := Enemy.new d.enemyId placed.1 placed.2.1 type false
  let levelMultiplier : ℚ := 1 + ((g.level : ℚ) - 1) * (2 / 10)
  let maxHealth := enemy.maxHealth * levelMultiplier
  let scaled : Enemy :=
    { enemy with
      maxHealth := maxHealth
      health := maxHealth
      damage := enemy.damage * (1 + ((g.level : ℚ) - 1) * (1 / 10))
      speed := enemy.speed * (1 + ((g.level : ℚ) - 1) * (5 / 100)) }
  { g with enemies := g.enemies ++ [scaled], pendingGroupSpawn := placed.2.2 }

/-- The loop of `spawnEnemy`: iterations `i, i + 1, ..` up to `spawnCount`. -/
def Game.spawnLoop (draws : Nat → SpawnDraws) : Nat → Nat → Game → Game
  | 0, _, g => g
  | k + 1, i, g => Game.spawnLoop draws k (i + 1) (g.spawnOne (draws i))

/-- `Game.spawnEnemy` (game.js 2409-2497); `now` is `Date.now()` and
`draws i` the random values of iteration `i`. -/
def Game.spawnEnemy (g : Game) (draws : Nat → SpawnDraws) (now : ℚ) : Game :=
  if now - g.lastEnemySpawnTime < g.enemySpawnDelay then g
  else
    let spawnCount := min g.level 5
    let g1 := Game.spawnLoop draws spawnCount 0 g
    { g1 with
      lastEnemySpawnTime := now
      enemySpawnDelay := max 1000 (5000 - (g1.level : ℚ) * 500) }

/-! ## Boss defeat and the life of a game (game.js 3042-3068, 3150-3176) -/

/-- `Game.handleBossDefeat` (game.js 3150-3176), without the screen shake and
the celebration particles. -/
def Game.handleBossDefeat (g : Game) : Game :=
  { g with
    bossDefeated := true
    score := g.score + (g.level : ℚ) * 1000
    commander := { g.commander with
      health := min g.commander.maxHealth (g.commander.health + 30) }
    followers := g.followers.map
      (fun follower => { follower with health := min follower.maxHealth (follower.health + 20) })
    waveStatusAlpha := 1
    waveStatusText := "BOSS DEFEATED!"
    currentBoss := none }

/-- The removal block of the enemy loop of `Game.update` (game.js 3046-3067)
at index `i`, after `enemy.update` has run. -/
def Game.removeDefeated (g : Game) (i : Nat) : Game :=
  match g.enemies[i]? with
  | none => g
  | some enemy =>
    if enemy.health ≤ 0 then
      let wasBoss := decide (g.currentBoss = some enemy.id)
      let levelMultiplier : ℚ := 1 + ((g.level : ℚ) - 1) * (2 / 10)
      let gain : ℤ :=
        match enemy.type with
        | EnemyType.cultist => ⌊50 * levelMultiplier⌋
        | EnemyType.deep_one => ⌊100 * levelMultiplier⌋
        | EnemyType.shoggoth => ⌊200 * levelMultiplier⌋
      let g1 :=
        { g with
          score := g.score + (gain : ℚ)
          enemiesDefeated := g.enemiesDefeated + 1
          enemies := g.enemies.eraseIdx i }
      if wasBoss then g1.handleBossDefeat else g1
    else g

/-- What can happen to a game between its construction and any later moment,
cut into the pieces that write `enemies`, `currentBoss` or `bossDefeated`:
a (re)start; a call of `spawnEnemy`; the push of one more enemy (the minions
of a boss, game.js 1826-1847, and the group spawn, game.js 3019-3034); any
change to the enemies that are there (movement, damage, phases, corrosion);
the removal block at an index; `checkWaveProgress`; and any change to the
rest of the game. -/
inductive GameEvent where
  | startGame : GameEvent
  | spawnEnemy (draws : Nat → SpawnDraws) (now : ℚ) : GameEvent
  | pushEnemy (enemy : Enemy) : GameEvent
  | touchEnemies (enemies : List Enemy) : GameEvent
  | removeDefeated (index : Nat) : GameEvent
  | checkWaveProgress (posIdx : Fin 4) (typeIdx : Fin 3) (bossId : Nat) : GameEvent
  | elsewhere (change : Game → Game) : GameEvent

/-- The game after an event. -/
def Game.step (g : Game) : GameEvent → Game
  | GameEvent.startGame => g.startGame
  | GameEvent.spawnEnemy draws now => g.spawnEnemy draws now
  | GameEvent.pushEnemy enemy => { g with enemies := g.enemies ++ [enemy] }
  | GameEvent.touchEnemies enemies => { g with enemies := enemies }
  | GameEvent.removeDefeated index => g.removeDefeated index
  | GameEvent.checkWaveProgress posIdx typeIdx bossId =>
    g.checkWaveProgress posIdx typeIdx bossId
  | GameEvent.elsewhere change => change g

/-- The side conditions under which an event is one the program can make:
an object created by `new Enemy` is none of the objects already in the list
and differs from the others created in the same call; the pushed minions and
group members are created with `isBoss = false`; a change to the enemies
keeps their identities and `isBoss` (never assigned outside the constructor);
a change elsewhere leaves the three boss-related fields alone. -/
def GameEvent.Admissible (g : Game) : GameEvent → Prop
  | GameEvent.startGame => True
  | GameEvent.spawnEnemy draws _ =>
    (∀ i : Nat, (draws i).enemyId ∉ g.enemies.map Enemy.id) ∧
      ∀ i j : Nat, (draws i).enemyId = (draws j).enemyId → i = j
  | GameEvent.pushEnemy enemy => enemy.isBoss = false ∧ enemy.id ∉ g.enemies.map Enemy.id
  | GameEvent.touchEnemies enemies =>
    enemies.map (fun e => (e.id, e.isBoss)) = g.enemies.map (fun e => (e.id, e.isBoss))
  | GameEvent.removeDefeated _ => True
  | GameEvent.checkWaveProgress _ _ bossId => bossId ∉ g.enemies.map Enemy.id
  | GameEvent.elsewhere change =>
    (change g).enemies = g.enemies ∧ (change g).currentBoss = g.currentBoss ∧
      (change g).bossDefeated = g.bossDefeated

/-- The games the program can be in: a freshly constructed one (no enemies,
`currentBoss = null`, `bossDefeated = false`, game.js 2180, 2214-2215), and
every game an admissible event leads to from there. -/
inductive Reachable : Game → Prop
  | fresh (g : Game) : g.enemies = [] → g.currentBoss = none → g.bossDefeated = false →
      Reachable g
  | step (g : Game) (ev : GameEvent) : Reachable g → ev.Admissible g → Reachable (g.step ev)

/-- The invariant behind the single boss: the enemies are distinct objects,
every boss among them is the one `currentBoss` refers to, and none is left
once `bossDefeated` is set. -/
def Game.BossInvariant (g : Game) : Prop :=
  (g.enemies.map Enemy.id).Nodup ∧
    (∀ e ∈ g.enemies, e.isBoss = true → g.currentBoss = some e.id) ∧
    (g.bossDefeated = true → ∀ e ∈ g.enemies, e.isBoss = false)

/-! ## Recruitment (game.js 2617-2677) -/

/-- The engineer pickup's `size` (game.js 380). -/
def engineerSize : ℚ := 15

/-- `new Follower(x, y, target, game)` (game.js 505-555): `id` is the
identity of the new object, `randomClass` the class its constructor draws,
which fixes range, damage and speed. -/
def Follower.new (id : Nat) (x y : ℚ) (target : Target) (randomClass : SteamClass) : Follower :=
  { id := id, x := x, y := y, target := target, attackRange := randomClass.range
    attackDamage := randomClass.damage, health := 50, maxHealth := 50, lastDamageTime := 0
    speed := randomClass.speed, attackStyle := randomClass.attackStyle }

/-- What the creation of a follower draws: its identity and the random class
of the constructor. -/
structure RecruitDraws where
  followerId : Nat
  randomClass : SteamClass

/-- The callback of the `forEach` of `checkEngineerCollision` (game.js
2618-2676) at `index`; an index past the end of the list (after a splice) is
skipped, as `forEach` does. The class key is the first class of the table
with the engineer's class name; without one the follower keeps the class of
its constructor. -/
def Game.collectEngineer (g : Game) (index : Nat) (d : RecruitDraws) : Game :=
  match g.engineers[index]? with
  | none => g
  | some engineer =>
    if engineer.collected then g
    else
      let dx := g.commander.x - engineer.x
      let dy := g.commander.y - engineer.y
      let reach := g.commander.size + engineerSize
      if 0 < reach ∧ dx * dx + dy * dy < reach * reach then
        if g.followers.length ≥ 12 then g
        else
          let classKey := engineer.steamClass.bind
            (fun c => STEAM_CLASSES.find? (fun k => decide (k.name = c.name)))
          let created :=
            match g.followers.getLast? with
            | none =>
              Follower.new d.followerId (g.commander.x - g.commander.directionX * 30)
                (g.commander.y - g.commander.directionY * 30) Target.commander d.randomClass
            | some lastFollower =>
              Follower.new d.followerId lastFollower.x lastFollower.y
                (Target.follower lastFollower.id) d.randomClass
          let follower :=
            match classKey with
            | some c => { created with attackStyle := c.attackStyle }
            | none => created
          { g with
            score := g.score + 100
            followers := g.followers ++ [follower]
            engineers := g.engineers.eraseIdx index }
      else g

/-- The `forEach` of `checkEngineerCollision`: indices `index, index + 1, ..`
for `k` more iterations. -/
def Game.engineerLoop (draws : Nat → RecruitDraws) : Nat → Nat → Game → Game
  | 0, _, g => g
  | k + 1, index, g =>
    Game.engineerLoop draws k (index + 1) (g.collectEngineer index (draws index))

/-- `Game.checkEngineerCollision` (game.js 2617-2677): `forEach` visits the
indices below the length the list had at the start. -/
def Game.checkEngineerCollision (g : Game) (draws : Nat → RecruitDraws) : Game :=
  Game.engineerLoop draws g.engineers.length 0 g

/-! ## Collision knock-back (game.js 1701-1712, 2679-2738) -/

/-- The collision test and the knock-back of `checkEnemyCollision` for one
pair (game.js 2684-2705 for the commander, knock-back 30; 2718-2732 for a
follower, knock-back 20) over an ordered field `K` with a square-root
function `sqrt`: a unit at `(ux, uy)` of radius `usize`, an enemy at
`(ex, ey)` of radius `esize`. The result is `none` when the pair does not
collide, `some none` when it collides and the direction `dx / distance` is a
division by zero (the enemy's coordinates become `NaN`), and otherwise the
enemy's new position. -/
def collisionKnockback {K : Type} [LinearOrderedField K] (sqrt : K → K)
    (ux uy usize ex ey esize knockbackDistance : K) : Option (Option (K × K)) :=
  let dx := ux - ex
  let dy := uy - ey
  let distance := sqrt (dx * dx + dy * dy)
  if distance < usize + esize then
    if distance = 0 then some none
    else
      some (some (ex - dx / distance * knockbackDistance, ey - dy / distance * knockbackDistance))
  else none

/-- The chase step of `Enemy.update` (game.js 1701-1712): the enemy at
`(ex, ey)` moves towards the commander at `(cx, cy)`, unless it stands on it. -/
def enemyChase {K : Type} [LinearOrderedField K] (sqrt : K → K)
    (cx cy ex ey speed speedModifier : K) : K × K :=
  let dx := cx - ex
  let dy := cy - ey
  let distance := sqrt (dx * dx + dy * dy)
  if distance > 0 then
    (ex + dx / distance * speed * speedModifier, ey + dy / distance * speed * speedModifier)
  else (ex, ey)

/-- An example game on an 800 x 600 canvas, right after `startGame`. -/
def exampleGame : Game :=
  Game.startGame
    { canvasWidth := 800, canvasHeight := 600, isPlaying := false, score := 0, health := 100,
      commander := Commander.new 0 0 true, followers := [], engineers := [], enemies := [],
      engineerSpawnTimer := 0, enemySpawnTimer := 0, enemySpawnInterval := 2000,
      lastEnemySpawnTime := 0, enemySpawnDelay := 2000, steamCores := [],
      steamCoreSpawnTimer := 0, level := 1, waveTimer := 0, enemiesDefeated := 0,
      enemiesRequiredForWave := 10, waveCompleted := false, waveStatusAlpha := 0,
      waveStatusText := "", currentBoss := none, bossDefeated := false }

/-- The example game with a forest tile and a bush tile overlapping around
the point (50, 50). -/
def exampleTerrain : Game :=
  { exampleGame with
    environment :=
      [{ x := 0, y := 0, width := 200, height := 200, speedModifier := 1 / 2 },
       { x := 40, y := 40, width := 100, height := 100, speedModifier := 4 / 5 }] }

/-- The example game with the commander (at the canvas centre, (400, 300))
down to 30 health, walking to the right, its last sweep made at time 900. -/
def exampleWounded : Game :=
  { exampleGame with
    commander :=
      { exampleGame.commander with health := 30, directionX := 1, lastAttackTime := 900 } }

/-- A shoggoth boss standing on the commander of the example game, just
after its transition to phase 2 (damage 40 * 1.3 = 52). -/
def exampleBoss : Enemy :=
  (Enemy.new 9 400 300 EnemyType.shoggoth true).startPhaseTransition 2

/-- The wounded example game after a phase-1 shoggoth boss (damage 40)
standing on the commander collided with it at time 1000
(`checkEnemyCollision`: `takeDamage(40)`, then `triggerGameOver` as the
commander is at -10). -/
def exampleDead : Game :=
  (Game.commanderTakeDamage
    { exampleWounded with enemies := [Enemy.new 9 400 300 EnemyType.shoggoth true] }
    40 1000).triggerGameOver

/-- The example game with one steam core at (100, 100). -/
def exampleCoreGame : Game :=
  { exampleGame with
    steamCores := [{ x := 100, y := 100, collected := false, coreType := some 0 }] }

/-- An example enemy at distance 10 that already carries a corrosion record
with one second left. -/
def exampleCorroded : Enemy :=
  { id := 1, x := 10, y := 0, type := EnemyType.shoggoth, isBoss := false, size := 25,
    speed := 4 / 5, maxHealth := 5, health := 10, damage := 20, specialAttackTimer := 0,
    specialAttackInterval := 0, phase := 0, phaseTransitioning := false,
    transitionTimer := 0, transitionDuration := 0,
    corrosion := some ⟨1, 1000, 1000, 0⟩ }

/-- An example caster at the origin: attack range 100, attack damage 5 (so the
base damage of a cast is 6). -/
def exampleCaster : Follower :=
  { id := 0, x := 0, y := 0, target := Target.commander, attackRange := 100
    attackDamage := 5, health := 50, maxHealth := 50, lastDamageTime := 0 }

/-- An example enemy on the x axis with health 10. -/
def exampleEnemy (id : Nat) (x : ℚ) : Enemy :=
  { (Enemy.new id x 0 EnemyType.shoggoth false) with health := 10 }

/-- Example draws for `spawnEnemy`: every random value is 1/4, the enemy of
iteration `i` gets the identity `100 + i`. -/
def exampleDraws (i : Nat) : SpawnDraws :=
  { rand := 1 / 4, groupRand := 1 / 4, cornerRand := 1 / 4, a := 1 / 4, b := 1 / 4, c := 1 / 4
    enemyId := 100 + i }

/-- Two enemies within the range of `exampleCaster`: the nearer one (identity
1, distance 10) already at health 0 and not yet removed, the other one
(identity 2, distance 20) alive. -/
def exampleMixedEnemies : List Enemy :=
  [{ exampleEnemy 1 10 with health := 0 }, exampleEnemy 2 20]

/-- The example game with two followers in a chain, the second one at health
0 and not yet pruned. -/
def exampleFallen : Game :=
  { exampleGame with
    followers :=
      [exampleCaster,
       { exampleCaster with id := 1, target := Target.follower 0, health := 0 }] }

/-- One enemy within the range 100 of `exampleCaster` (distance 10) and two
beyond it but within the secondary range 150 (distances 120 and 130). -/
def exampleSpread : List Enemy :=
  [exampleEnemy 1 120, exampleEnemy 2 10, exampleEnemy 3 130]

/-- A Warrior (class statistics of `STEAM_CLASSES.WARRIOR`: range 180, damage
2.5) at the origin that has not attacked yet. -/
def exampleWarrior : Follower :=
  { exampleCaster with
    id := 7, attackStyle := AttackStyle.SWORD_SWEEP, attackRange := 180, attackDamage := 5 / 2
    speed := 8 / 5 }

/-- The change to a game that sets the count of defeated enemies to eight. -/
def exampleLateWave (g : Game) : Game :=
  { g with enemiesDefeated := 8 }

/-- Example draws for a recruitment: the follower created at index `i` gets
the identity `10 + i` and the Warrior statistics. -/
def exampleRecruitDraws (i : Nat) : RecruitDraws :=
  { followerId := 10 + i
    randomClass :=
      { name := "Warrior", attackStyle := AttackStyle.SWORD_SWEEP, damage := 5 / 2
        range := 180, speed := 8 / 5, spawnRate := 100 } }

/-- The example game with three engineers of the first class of the table
within reach of the commander at (400, 300). -/
def exampleRecruits : Game :=
  { exampleGame with
    engineers :=
      [{ x := 400, y := 300, collected := false, steamClass := STEAM_CLASSES.head? },
       { x := 410, y := 300, collected := false, steamClass := STEAM_CLASSES.head? },
       { x := 400, y := 310, collected := false, steamClass := STEAM_CLASSES.head? }] }

/-! ## Theorems -/

theorem relinkGen_zero (prev : Target) (f : Follower) (fs : List Follower) :
    relinkGen prev 0 (f :: fs) =
      match fs with
      | [] => []
      | g :: rest => { g with target := prev } :: rest := by
  cases fs <;> simp [relinkGen]

theorem relinkGen_succ (prev : Target) (j : Nat) (f : Follower) (fs : List Follower) :
    relinkGen prev (j + 1) (f :: fs) = f :: relinkGen (Target.follower f.id) j fs := by
  unfold relinkGen
  simp only [List.eraseIdx_cons_succ, List.length_cons, Nat.add_lt_add_iff_right]
  by_cases hlt : j < (fs.eraseIdx j).length
  · simp only [hlt, if_true, Nat.succ_ne_zero, if_false, Nat.add_sub_cancel,
      List.getElem?_cons_succ]
    cases j with
    | zero =>
      simp only [List.getElem?_cons_zero, if_true]
      cases hsp : (fs.eraseIdx 0)[0]? with
      | none => simp
      | some fi => simp [List.set]
    | succ k =>
      simp only [Nat.succ_ne_zero, if_false, Nat.add_sub_cancel, List.getElem?_cons_succ]
      cases h1 : (fs.eraseIdx (k + 1))[k + 1]? <;>
        cases h2 : (fs.eraseIdx (k + 1))[k]? <;> simp [List.set]
  · simp [hlt]

theorem chainFrom_relinkGen (fs : List Follower) :
    ∀ (prev : Target) (i : Nat), chainFrom prev fs = true →
      chainFrom prev (relinkGen prev i fs) = true := by
  induction fs with
  | nil => intro prev i _; simp [relinkGen, chainFrom]
  | cons f rest ih =>
    intro prev i h
    simp only [chainFrom, Bool.and_eq_true, decide_eq_true_eq] at h
    cases i with
    | zero =>
      rw [relinkGen_zero]
      cases rest with
      | nil => simp [chainFrom]
      | cons g rest2 =>
        simp only [chainFrom, Bool.and_eq_true, decide_eq_true_eq] at h ⊢
        exact ⟨trivial, h.2.2⟩
    | succ j =>
      rw [relinkGen_succ]
      simp only [chainFrom, Bool.and_eq_true, decide_eq_true_eq]
      exact ⟨h.1, ih _ j h.2⟩

theorem pruneStep_followers (i : Nat) (s : PruneState) :
    (pruneStep i s).followers = s.followers ∨
      (pruneStep i s).followers = relinkGen Target.commander i s.followers := by
  unfold pruneStep
  cases hf : s.followers[i]? with
  | none => left; rfl
  | some follower =>
    by_cases hd : follower.isDead = true
    · right; simp [hd, relinkGen]
    · left; simp [hd]

theorem chainFrom_pruneStep (i : Nat) (s : PruneState)
    (h : chainFrom Target.commander s.followers = true) :
    chainFrom Target.commander (pruneStep i s).followers = true := by
  rcases pruneStep_followers i s with e | e
  · rw [e]; exact h
  · rw [e]; exact chainFrom_relinkGen _ _ _ h

theorem chainFrom_pruneLoop (n : Nat) :
    ∀ s : PruneState, chainFrom Target.commander s.followers = true →
      chainFrom Target.commander (pruneLoop n s).followers = true := by
  induction n with
  | zero => intro s h; exact h
  | succ k ih => intro s h; exact ih _ (chainFrom_pruneStep k s h)

theorem chainFromIdx_iff (fs : List Follower) :
    ∀ prev : Target, ChainFromIdx prev fs ↔ chainFrom prev fs = true := by
  induction fs with
  | nil => intro prev; simp [ChainFromIdx, chainFrom]
  | cons f rest ih =>
    intro prev
    simp only [chainFrom, Bool.and_eq_true, decide_eq_true_eq, ← ih]
    constructor
    · intro h
      refine ⟨by simpa using h 0 (by simp), ?_⟩
      intro i hi
      have hs := h (i + 1) (by simpa using hi)
      cases i with
      | zero => simpa using hs
      | succ k => simpa using hs
    · rintro ⟨h0, hr⟩ i hi
      cases i with
      | zero => simp [h0]
      | succ j =>
        have hs := hr j (by simpa using hi)
        cases j with
        | zero => simpa using hs
        | succ k => simpa using hs

theorem chainInvariant_iff (fs : List Follower) :
    ChainInvariant fs ↔ chainFrom Target.commander fs = true :=
  chainFromIdx_iff fs Target.commander

theorem map_eraseIdx_sansTarget (fs : List Follower) :
    ∀ i : Nat, (fs.eraseIdx i).map Follower.sansTarget =
      (fs.map Follower.sansTarget).eraseIdx i := by
  induction fs with
  | nil => intro i; rfl
  | cons f rest ih =>
    intro i
    cases i with
    | zero => rfl
    | succ j => simp [List.eraseIdx_cons_succ, ih j]

theorem map_set_target (fs : List Follower) :
    ∀ (i : Nat) (fi : Follower) (t : Target), fs[i]? = some fi →
      (fs.set i { fi with target := t }).map Follower.sansTarget =
        fs.map Follower.sansTarget := by
  induction fs with
  | nil => intro i fi t h; simp at h
  | cons f rest ih =>
    intro i fi t h
    cases i with
    | zero =>
      simp only [List.getElem?_cons_zero, Option.some.injEq] at h
      subst h
      simp [Follower.sansTarget]
    | succ j =>
      simp only [List.getElem?_cons_succ] at h
      simp [ih j fi t h]

theorem relinkGen_sansTarget (prev : Target) (i : Nat) (fs : List Follower) :
    (relinkGen prev i fs).map Follower.sansTarget =
      (fs.map Follower.sansTarget).eraseIdx i := by
  rw [← map_eraseIdx_sansTarget]
  unfold relinkGen
  simp only
  split_ifs with h1 h2
  · cases h0 : (fs.eraseIdx i)[0]? with
    | none => rfl
    | some f0 => exact map_set_target _ 0 f0 prev h0
  · cases hi : (fs.eraseIdx i)[i]? with
    | none => rfl
    | some fi =>
      cases hp : (fs.eraseIdx i)[i - 1]? with
      | none => rfl
      | some p => exact map_set_target _ i fi _ hi
  · rfl

theorem isDead_sansTarget (f : Follower) : f.sansTarget.isDead = f.isDead := rfl

theorem spliceStep_map (i : Nat) (fs : List Follower) :
    spliceStep i (fs.map Follower.sansTarget) = (spliceStep i fs).map Follower.sansTarget := by
  unfold spliceStep
  rw [List.getElem?_map]
  cases fs[i]? with
  | none => rfl
  | some follower =>
    simp only [Option.map_some', isDead_sansTarget]
    split_ifs
    · exact (map_eraseIdx_sansTarget fs i).symm
    · rfl

theorem pruneStep_sansTarget (i : Nat) (s : PruneState) :
    (pruneStep i s).followers.map Follower.sansTarget =
      spliceStep i (s.followers.map Follower.sansTarget) := by
  rw [spliceStep_map]
  unfold pruneStep spliceStep
  cases hf : s.followers[i]? with
  | none => rfl
  | some follower =>
    by_cases hd : follower.isDead = true
    · have h := relinkGen_sansTarget Target.commander i s.followers
      rw [← map_eraseIdx_sansTarget] at h
      simpa [hd, relinkGen] using h
    · simp [hd]

theorem pruneLoop_sansTarget (n : Nat) :
    ∀ s : PruneState, (pruneLoop n s).followers.map Follower.sansTarget =
      spliceLoop n (s.followers.map Follower.sansTarget) := by
  induction n with
  | zero => intro s; rfl
  | succ k ih =>
    intro s
    simp only [pruneLoop, spliceLoop]
    rw [ih, pruneStep_sansTarget]

/-- Splicing from the back over a prefix `front` keeps its living elements. -/
theorem spliceLoop_append (front : List Follower) :
    ∀ back : List Follower, spliceLoop front.length (front ++ back) =
      front.filter (fun f => !f.isDead) ++ back := by
  induction front using List.reverseRecOn with
  | nil => intro back; rfl
  | append_singleton front a ih =>
    intro back
    have hlen : (front ++ [a]).length = front.length + 1 := by simp
    have hget : (front ++ [a] ++ back)[front.length]? = some a := by
      rw [List.append_assoc, List.getElem?_append_right (le_refl _)]
      simp
    rw [hlen]
    simp only [spliceLoop, spliceStep, hget]
    by_cases hd : a.isDead = true
    · have herase : (front ++ [a] ++ back).eraseIdx front.length = front ++ back := by
        rw [List.append_assoc, List.eraseIdx_append_of_length_le (le_refl _)]
        simp
      simp only [hd, if_true, herase, ih back]
      simp [List.filter_append, hd]
    · have hd2 : a.isDead = false := by simpa using hd
      simp only [hd2, Bool.false_eq_true, if_false]
      rw [List.append_assoc, ih]
      simp [List.filter_append, hd2]

/-- The survivors of a pruning pass are the followers that are not dead, in
their order, each unchanged but for its target. -/
theorem prune_survivors (s : PruneState) :
    (pruneDeadFollowers s).followers.map Follower.sansTarget =
      (s.followers.filter (fun f => !f.isDead)).map Follower.sansTarget := by
  unfold pruneDeadFollowers
  rw [pruneLoop_sansTarget]
  have h := spliceLoop_append (s.followers.map Follower.sansTarget) []
  simp only [List.append_nil, List.length_map] at h
  rw [h, List.filter_map]
  rfl

/-- C1. A death-pruning pass preserves the chain invariant: if before the pass
`followers[0]` targets the commander and every `followers[i]`, `i > 0`,
targets `followers[i-1]`, then the same holds of the list left by the pass,
whichever followers are dead; and that list consists of the followers that
are not dead, in their order, each unchanged but for its target. -/
theorem prune_preserves_chain (s : PruneState) (h : ChainInvariant s.followers) :
    ChainInvariant (pruneDeadFollowers s).followers ∧
      (pruneDeadFollowers s).followers.map Follower.sansTarget =
        (s.followers.filter (fun f => !f.isDead)).map Follower.sansTarget := by
  refine ⟨?_, prune_survivors s⟩
  rw [chainInvariant_iff] at h ⊢
  exact chainFrom_pruneLoop _ s h

/-- Witness for C1: a chain of three followers whose middle one is dead. -/
theorem prune_preserves_chain_witness :
    ChainInvariant
        [({ id := 1, x := 0, y := 0, target := Target.commander, attackRange := 100,
            attackDamage := 2, health := 50, maxHealth := 50, lastDamageTime := 0 } : Follower),
         { id := 2, x := 0, y := 0, target := Target.follower 1, attackRange := 100,
           attackDamage := 2, health := 0, maxHealth := 50, lastDamageTime := 0 },
         { id := 3, x := 0, y := 0, target := Target.follower 2, attackRange := 100,
           attackDamage := 2, health := 7, maxHealth := 50, lastDamageTime := 0 }] ∧
      ChainInvariant (pruneDeadFollowers
        { followers :=
            [{ id := 1, x := 0, y := 0, target := Target.commander, attackRange := 100,
               attackDamage := 2, health := 50, maxHealth := 50, lastDamageTime := 0 },
             { id := 2, x := 0, y := 0, target := Target.follower 1, attackRange := 100,
               attackDamage := 2, health := 0, maxHealth := 50, lastDamageTime := 0 },
             { id := 3, x := 0, y := 0, target := Target.follower 2, attackRange := 100,
               attackDamage := 2, health := 7, maxHealth := 50, lastDamageTime := 0 }]
          score := 20
          effects := [] }).followers :=
  ⟨by decide, (prune_preserves_chain _ (by decide)).1⟩

/-- C2. `Follower.takeDamage` leaves `health = max(0, previous - amount)` and
returns `true` exactly when the resulting health is 0. -/
theorem follower_takeDamage_clamped (f : Follower) (amount now : ℚ) :
    (f.takeDamage amount now).1.health = max 0 (f.health - amount) ∧
      ((f.takeDamage amount now).2.1 = true ↔ (f.takeDamage amount now).1.health = 0) := by
  unfold Follower.takeDamage
  by_cases h : f.health - amount < 0
  · simp [h, max_eq_left (le_of_lt h)]
  · have h' : 0 ≤ f.health - amount := not_lt.mp h
    simp only [h, if_false, max_eq_right h', decide_eq_true_eq, true_and]
    exact ⟨fun hle => le_antisymm hle h', fun he => le_of_eq he⟩

/-- C3 (the code at the failing input). `Commander.takeDamage` subtracts without
clamping: a commander at health 10 hit for 40 is left at health -30, not at
`max(0, 10 - 40) = 0`. -/
theorem commander_takeDamage_unclamped :
    ((Commander.new 0 0 true).takeDamage 490 0).1.health = 10 ∧
      ((((Commander.new 0 0 true).takeDamage 490 0).1).takeDamage 40 1).1.health = -30 ∧
      ((((Commander.new 0 0 true).takeDamage 490 0).1).takeDamage 40 1).1.health
        ≠ max 0 (10 - 40) := by
  norm_num [Commander.takeDamage, Commander.new]

theorem criticalCount_append (a b : List Effect) :
    criticalCount (a ++ b) = criticalCount a + criticalCount b := by
  simp [criticalCount, List.count_append]

theorem criticalCount_shown (hasGame : Bool) (amount x y size : ℚ) :
    criticalCount (if hasGame then [Effect.damageNumber amount x y size] else []) = 0 := by
  cases hasGame <;> simp [criticalCount]

theorem criticalCount_warning : criticalCount criticalWarning = 1 := by
  simp [criticalCount, criticalWarning, List.count_cons]

theorem criticalCount_takeDamage_le (c : Commander) (amount now : ℚ) :
    criticalCount (c.takeDamage amount now).2 ≤ 1 := by
  unfold Commander.takeDamage
  simp only [criticalCount_append, criticalCount_shown, Nat.zero_add]
  split_ifs
  · exact criticalCount_warning.le
  · simp [criticalCount]
  · simp [criticalCount]

theorem criticalCount_takeDamage_low (c : Commander) (amount now : ℚ)
    (h : c.health ≤ c.maxHealth * (1 / 4)) :
    criticalCount (c.takeDamage amount now).2 = 0 := by
  unfold Commander.takeDamage
  simp only [criticalCount_append, criticalCount_shown, Nat.zero_add]
  have hn : ¬ (c.health > c.maxHealth * (1 / 4) ∧
      c.health - amount ≤ c.maxHealth * (1 / 4) ∧ c.health - amount > 0) :=
    fun hc => absurd hc.1 (not_lt.mpr h)
  rw [if_neg hn]
  simp [criticalCount]

theorem criticalCount_seq_low (calls : List (ℚ × ℚ)) :
    ∀ c : Commander, c.health ≤ c.maxHealth * (1 / 4) → (∀ p ∈ calls, 0 ≤ p.1) →
      criticalCount (c.takeDamageSeq calls).2 = 0 := by
  induction calls with
  | nil => intro c _ _; simp [Commander.takeDamageSeq, criticalCount]
  | cons p rest ih =>
    intro c hlow hnn
    obtain ⟨amount, now⟩ := p
    have ha : 0 ≤ amount := hnn (amount, now) (List.mem_cons_self _ _)
    simp only [Commander.takeDamageSeq, criticalCount_append,
      criticalCount_takeDamage_low c amount now hlow, Nat.zero_add]
    apply ih
    · show c.health - amount ≤ c.maxHealth * (1 / 4)
      linarith
    · intro q hq
      exact hnn q (List.mem_cons_of_mem _ hq)

theorem criticalCount_seq_le (calls : List (ℚ × ℚ)) :
    ∀ c : Commander, (∀ p ∈ calls, 0 ≤ p.1) →
      criticalCount (c.takeDamageSeq calls).2 ≤ 1 := by
  induction calls with
  | nil => intro c _; simp [Commander.takeDamageSeq, criticalCount]
  | cons p rest ih =>
    intro c hnn
    obtain ⟨amount, now⟩ := p
    have hrest : ∀ q ∈ rest, 0 ≤ q.1 := fun q hq => hnn q (List.mem_cons_of_mem _ hq)
    simp only [Commander.takeDamageSeq, criticalCount_append]
    by_cases hlow : c.health - amount ≤ c.maxHealth * (1 / 4)
    · have h0 : criticalCount ((c.takeDamage amount now).1.takeDamageSeq rest).2 = 0 :=
        criticalCount_seq_low rest _ hlow hrest
      rw [h0]
      exact criticalCount_takeDamage_le c amount now
    · have h0 : criticalCount (c.takeDamage amount now).2 = 0 := by
        unfold Commander.takeDamage
        simp only [criticalCount_append, criticalCount_shown, Nat.zero_add]
        have hn : ¬ (c.health > c.maxHealth * (1 / 4) ∧
            c.health - amount ≤ c.maxHealth * (1 / 4) ∧ c.health - amount > 0) :=
          fun hc => hlow hc.2.1
        rw [if_neg hn]
        simp [criticalCount]
      rw [h0, Nat.zero_add]
      exact ih _ hrest

/-- C10. With a game attached, `Commander.takeDamage` fires the critical warning
(red flash, "CRITICAL DAMAGE!" status, screen shake 12/20) exactly when the
health before the call is above 25% of `maxHealth` and the health after it is
at or below 25% and still positive; over any run of `takeDamage` calls with
non-negative amounts the warning fires at most once; and a commander at 500 of
500 taking 400 and then any such run fires it exactly once. -/
theorem critical_warning_once (c : Commander) (amount now : ℚ) (calls : List (ℚ × ℚ))
    (hgame : c.hasGame = true) (hnn : ∀ p ∈ calls, 0 ≤ p.1) :
    (c.takeDamage amount now).2 =
        Effect.damageNumber amount c.x c.y c.size ::
          (if c.health > c.maxHealth * (1 / 4) ∧ c.health - amount ≤ c.maxHealth * (1 / 4) ∧
              c.health - amount > 0 then criticalWarning else []) ∧
      (criticalCount (c.takeDamage amount now).2 = 1 ↔
        (c.health > c.maxHealth * (1 / 4) ∧ c.health - amount ≤ c.maxHealth * (1 / 4) ∧
          c.health - amount > 0)) ∧
      criticalCount (c.takeDamageSeq calls).2 ≤ 1 ∧
      criticalCount
        (Commander.takeDamageSeq { c with health := 500, maxHealth := 500 }
          ((400, now) :: calls)).2 = 1 := by
  have hfirst : (c.takeDamage amount now).2 =
        Effect.damageNumber amount c.x c.y c.size ::
          (if c.health > c.maxHealth * (1 / 4) ∧ c.health - amount ≤ c.maxHealth * (1 / 4) ∧
              c.health - amount > 0 then criticalWarning else []) := by
    unfold Commander.takeDamage
    simp only [hgame, if_true]
    split_ifs <;> simp
  refine ⟨hfirst, ?_, criticalCount_seq_le calls c hnn, ?_⟩
  · rw [hfirst]
    by_cases hc : c.health > c.maxHealth * (1 / 4) ∧
        c.health - amount ≤ c.maxHealth * (1 / 4) ∧ c.health - amount > 0
    · simp only [hc, and_self, if_true, iff_true]
      simp [criticalCount, criticalWarning, List.count_cons]
    · simp only [hc, if_false, iff_false]
      simp [criticalCount]
  · simp only [Commander.takeDamageSeq, criticalCount_append]
    have h1 : criticalCount
        (Commander.takeDamage { c with health := 500, maxHealth := 500 } 400 now).2 = 1 := by
      unfold Commander.takeDamage
      simp only [hgame, if_true]
      rw [if_pos (by norm_num)]
      simp [criticalCount, criticalWarning, List.count_cons]
    have h0 : criticalCount
        (Commander.takeDamageSeq
          (Commander.takeDamage { c with health := 500, maxHealth := 500 } 400 now).1 calls).2
          = 0 := by
      apply criticalCount_seq_low calls _ _ hnn
      show (500 : ℚ) - 400 ≤ 500 * (1 / 4)
      norm_num
    rw [h1, h0]

/-- Witness for C10: a fresh commander, a 400-point hit, then two more hits. -/
theorem critical_warning_once_witness :
    (Commander.new 0 0 true).hasGame = true ∧
      (∀ p ∈ [((10 : ℚ), (1 : ℚ)), (20, 2)], 0 ≤ p.1) ∧
      criticalCount
        (Commander.takeDamageSeq
          { Commander.new 0 0 true with health := 500, maxHealth := 500 }
          ((400, 0) :: [(10, 1), (20, 2)])).2 = 1 :=
  ⟨rfl, by simp,
    (critical_warning_once (Commander.new 0 0 true) 400 0 [(10, 1), (20, 2)] rfl
      (by simp)).2.2.2⟩

/-! ### Chain lightning -/

theorem insertByKey_perm (key : Enemy → ℚ) (a : Enemy) (l : List Enemy) :
    (insertByKey key a l).Perm (a :: l) := by
  induction l with
  | nil => exact List.Perm.refl _
  | cons b l ih =>
    unfold insertByKey
    split_ifs
    · exact List.Perm.refl _
    · exact (List.Perm.cons b ih).trans (List.Perm.swap a b l)

theorem sortByKey_perm (key : Enemy → ℚ) (l : List Enemy) : (sortByKey key l).Perm l := by
  induction l with
  | nil => exact List.Perm.refl _
  | cons a l ih =>
    unfold sortByKey
    exact (insertByKey_perm key a _).trans (List.Perm.cons a ih)

/-- Taking a prefix of a sorted filter of a list without repeated identities
yields a list without repeated identities, all of them from the list. -/
theorem ids_take_sort_filter (key : Enemy → ℚ) (p : Enemy → Bool) (k : Nat)
    (enemies : List Enemy) (hnd : (enemies.map Enemy.id).Nodup) :
    (((sortByKey key (enemies.filter p)).take k).map Enemy.id).Nodup ∧
      ∀ e ∈ (sortByKey key (enemies.filter p)).take k, e ∈ enemies ∧ p e = true := by
  constructor
  · have h1 : ((enemies.filter p).map Enemy.id).Nodup :=
      hnd.sublist ((List.filter_sublist enemies).map Enemy.id)
    have h2 : ((sortByKey key (enemies.filter p)).map Enemy.id).Nodup :=
      ((sortByKey_perm key _).map Enemy.id).nodup_iff.mpr h1
    exact h2.sublist ((List.take_sublist k _).map Enemy.id)
  · intro e he
    have h1 : e ∈ sortByKey key (enemies.filter p) := List.mem_of_mem_take he
    have h2 : e ∈ enemies.filter p := (sortByKey_perm key _).mem_iff.mp h1
    exact List.mem_filter.mp h2

/-- The branch loop on targets that are pairwise distinct, not yet hit, and no
more than the remaining jumps: every one of them is struck at 0.8. -/
theorem foldl_branchStep (damage : ℚ) (l : List Enemy) :
    ∀ st : ChainState, (l.map Enemy.id).Nodup → (∀ e ∈ l, e.id ∉ st.hitEnemies) →
      l.length ≤ st.remainingJumps →
      (l.foldl (branchStep damage) st).strikes =
          st.strikes ++ l.map (fun e => (e.id, damage * (4 / 5))) ∧
        (l.foldl (branchStep damage) st).hitEnemies = st.hitEnemies ++ l.map Enemy.id ∧
        (l.foldl (branchStep damage) st).remainingJumps = st.remainingJumps - l.length := by
  induction l with
  | nil => intro st _ _ _; simp
  | cons a l ih =>
    intro st hnd hnot hlen
    simp only [List.map_cons, List.nodup_cons] at hnd
    simp only [List.length_cons] at hlen
    have hpos : st.remainingJumps > 0 := by omega
    have ha : a.id ∉ st.hitEnemies := hnot a (List.mem_cons_self _ _)
    have hstep : branchStep damage st a =
        { hitEnemies := st.hitEnemies ++ [a.id], lastX := a.x, lastY := a.y,
          remainingJumps := st.remainingJumps - 1,
          strikes := st.strikes ++ [(a.id, damage * (4 / 5))] } := by
      simp [branchStep, hpos, ha]
    have hrec := ih (branchStep damage st a) hnd.2
      (by
        intro e he
        rw [hstep]
        simp only [List.mem_append, List.mem_singleton, not_or]
        refine ⟨hnot e (List.mem_cons_of_mem _ he), ?_⟩
        intro heq
        exact hnd.1 (heq ▸ List.mem_map_of_mem Enemy.id he))
      (by rw [hstep]; show l.length ≤ st.remainingJumps - 1; omega)
    simp only [List.foldl_cons]
    rw [hrec.1, hrec.2.1, hrec.2.2, hstep]
    simp only [List.map_cons, List.append_assoc, List.singleton_append, List.length_cons]
    exact ⟨trivial, trivial, by omega⟩

/-- The in-range targets are distinct members of the enemy list, at most 5. -/
theorem chainTargets_props (f : Follower) (enemies : List Enemy)
    (hnd : (enemies.map Enemy.id).Nodup) :
    ((chainTargets f enemies).map Enemy.id).Nodup ∧
      (∀ e ∈ chainTargets f enemies, e ∈ enemies) ∧ (chainTargets f enemies).length ≤ 5 := by
  have h := ids_take_sort_filter f.distSq (fun enemy => f.isInRange enemy f.attackRange) 5
    enemies hnd
  refine ⟨h.1, fun e he => (h.2 e he).1, ?_⟩
  unfold chainTargets
  exact List.length_take_le 5 _

/-- Closed form of the strikes of one cast on a list without repeated entries. -/
theorem chainLightningStrikes_eq (f : Follower) (enemies : List Enemy)
    (hnd : (enemies.map Enemy.id).Nodup) :
    ∃ secondary : List Enemy,
      chainLightningStrikes f enemies =
        (match chainTargets f enemies with
          | [] => []
          | p :: others =>
            (p.id, f.attackDamage * (6 / 5)) ::
              others.map (fun e => (e.id, f.attackDamage * (6 / 5) * (4 / 5)))) ++
          secondary.map (fun e => (e.id, f.attackDamage * (6 / 5) * (3 / 5))) ∧
      (secondary.map Enemy.id).Nodup ∧
      (∀ e ∈ secondary, e ∈ enemies ∧ e.id ∉ (chainTargets f enemies).map Enemy.id) ∧
      (chainTargets f enemies).length + secondary.length ≤ 5 ∧
      (chainTargets f enemies = [] → secondary = []) := by
  obtain ⟨htnd, _, htlen⟩ := chainTargets_props f enemies hnd
  cases hT : chainTargets f enemies with
  | nil => exact ⟨[], by simp [chainLightningStrikes, hT]⟩
  | cons p others =>
    have hcl : chainLightningStrikes f enemies =
        (List.foldl (branchStep (f.attackDamage * (6 / 5)))
          { hitEnemies := [p.id], lastX := p.x, lastY := p.y, remainingJumps := 4,
            strikes := [(p.id, f.attackDamage * (6 / 5))] } others).strikes ++
        secondaryStrikes f enemies (f.attackDamage * (6 / 5))
          (List.foldl (branchStep (f.attackDamage * (6 / 5)))
            { hitEnemies := [p.id], lastX := p.x, lastY := p.y, remainingJumps := 4,
              strikes := [(p.id, f.attackDamage * (6 / 5))] } others) := by
      unfold chainLightningStrikes
      rw [hT]
    rw [hcl]
    rw [hT] at htnd htlen
    simp only [List.map_cons, List.nodup_cons] at htnd
    simp only [List.length_cons] at htlen
    have hfold := foldl_branchStep (f.attackDamage * (6 / 5)) others
      { hitEnemies := [p.id], lastX := p.x, lastY := p.y, remainingJumps := 4,
        strikes := [(p.id, f.attackDamage * (6 / 5))] }
      htnd.2
      (by
        intro e he
        simp only [List.mem_singleton]
        intro heq
        exact htnd.1 (heq ▸ List.mem_map_of_mem Enemy.id he))
      (by show others.length ≤ 4; omega)
    simp only at hfold
    obtain ⟨hs, hh, hr⟩ := hfold
    generalize hst : List.foldl (branchStep (f.attackDamage * (6 / 5)))
      { hitEnemies := [p.id], lastX := p.x, lastY := p.y, remainingJumps := 4,
        strikes := [(p.id, f.attackDamage * (6 / 5))] } others = st1 at hs hh hr ⊢
    have hsec := ids_take_sort_filter
      (fun a => (a.x - st1.lastX) ^ 2 + (a.y - st1.lastY) ^ 2)
      (fun enemy => decide (enemy.id ∉ st1.hitEnemies) &&
        f.distLe enemy (f.attackRange * (3 / 2)))
      st1.remainingJumps enemies hnd
    by_cases hpos : st1.remainingJumps > 0
    · refine ⟨_, ?_, hsec.1, ?_, ?_, by simp⟩
      · simp only [secondaryStrikes, hpos, if_true, hs]
        simp
      · intro e he
        refine ⟨(hsec.2 e he).1, ?_⟩
        have hp := (hsec.2 e he).2
        simp only [Bool.and_eq_true, decide_eq_true_eq] at hp
        rw [hh] at hp
        simpa using hp.1
      · have := List.length_take_le st1.remainingJumps
          (sortByKey (fun a => (a.x - st1.lastX) ^ 2 + (a.y - st1.lastY) ^ 2)
            (enemies.filter (fun enemy => decide (enemy.id ∉ st1.hitEnemies) &&
              f.distLe enemy (f.attackRange * (3 / 2)))))
        simp only [List.length_cons]
        omega
    · refine ⟨[], ?_, by simp, by simp, by simpa using htlen, by simp⟩
      simp only [secondaryStrikes, hpos, if_false, hs]
      simp

theorem healthOf_cons (id : Nat) (e : Enemy) (es : List Enemy) :
    healthOf id (e :: es) = if e.id = id then some e.health else healthOf id es := by
  unfold healthOf
  by_cases h : e.id = id <;> simp [List.find?_cons, h]

theorem healthOf_applyStrike (id : Nat) (strike : Nat × ℚ) (es : List Enemy) :
    healthOf id (applyStrike es strike) =
      if strike.1 = id then (healthOf id es).map (fun h => h - strike.2) else healthOf id es := by
  induction es with
  | nil => simp [applyStrike, healthOf]
  | cons e es ih =>
    have hcons : applyStrike (e :: es) strike =
        (if e.id = strike.1 then { e with health := e.health - strike.2 } else e) ::
          applyStrike es strike := by
      simp [applyStrike]
    rw [hcons, healthOf_cons, healthOf_cons, ih]
    by_cases h1 : e.id = strike.1
    · by_cases h2 : strike.1 = id
      · simp [h1, h2]
      · have h3 : ¬ e.id = id := fun h => h2 (h1 ▸ h)
        simp [h1, h2]
    · by_cases h2 : strike.1 = id
      · have h3 : ¬ e.id = id := fun h => h1 (h.trans h2.symm)
        simp [h1, h2, h3]
      · simp [h1, h2]

theorem healthOf_foldl_not_mem (id : Nat) (strikes : List (Nat × ℚ)) :
    ∀ es : List Enemy, id ∉ strikes.map Prod.fst →
      healthOf id (strikes.foldl applyStrike es) = healthOf id es := by
  induction strikes with
  | nil => intro es _; rfl
  | cons s rest ih =>
    intro es hnot
    simp only [List.map_cons, List.mem_cons, not_or] at hnot
    simp only [List.foldl_cons]
    rw [ih _ hnot.2, healthOf_applyStrike, if_neg (fun h => hnot.1 h.symm)]

theorem healthOf_foldl_mem (id : Nat) (d : ℚ) (strikes : List (Nat × ℚ)) :
    ∀ es : List Enemy, (strikes.map Prod.fst).Nodup → (id, d) ∈ strikes →
      healthOf id (strikes.foldl applyStrike es) = (healthOf id es).map (fun h => h - d) := by
  induction strikes with
  | nil => intro es _ hmem; exact absurd hmem (List.not_mem_nil _)
  | cons s rest ih =>
    intro es hnd hmem
    simp only [List.map_cons, List.nodup_cons] at hnd
    simp only [List.foldl_cons]
    rcases List.mem_cons.mp hmem with heq | hin
    · subst heq
      rw [healthOf_foldl_not_mem _ _ _ hnd.1, healthOf_applyStrike]
      simp
    · have hne : ¬ s.1 = id := by
        intro h
        apply hnd.1
        rw [h]
        exact List.mem_map_of_mem Prod.fst hin
      rw [ih _ hnd.2 hin, healthOf_applyStrike, if_neg hne]

theorem healthOf_mem (e : Enemy) (es : List Enemy) (hnd : (es.map Enemy.id).Nodup)
    (he : e ∈ es) : healthOf e.id es = some e.health := by
  induction es with
  | nil => exact absurd he (List.not_mem_nil _)
  | cons a es ih =>
    simp only [List.map_cons, List.nodup_cons] at hnd
    rw [healthOf_cons]
    rcases List.mem_cons.mp he with heq | hin
    · subst heq; simp
    · have hne : ¬ a.id = e.id := by
        intro h
        apply hnd.1
        rw [h]
        exact List.mem_map_of_mem Enemy.id hin
      rw [if_neg hne]
      exact ih hnd.2 hin

/-- The identities struck in one cast: the in-range targets, then the targets
of the secondary range; no identity twice, all of them in the enemy list. -/
theorem chainLightningStrikes_ids (f : Follower) (enemies : List Enemy)
    (hnd : (enemies.map Enemy.id).Nodup) :
    ((chainLightningStrikes f enemies).map Prod.fst).Nodup ∧
      ∀ s ∈ chainLightningStrikes f enemies, ∃ e ∈ enemies, e.id = s.1 := by
  obtain ⟨htnd, htmem, _⟩ := chainTargets_props f enemies hnd
  obtain ⟨secondary, heq, hsnd, hsmem, _, _⟩ := chainLightningStrikes_eq f enemies hnd
  have hfst : (chainLightningStrikes f enemies).map Prod.fst =
      (chainTargets f enemies).map Enemy.id ++ secondary.map Enemy.id := by
    rw [heq]
    cases chainTargets f enemies <;> simp [Function.comp_def]
  constructor
  · rw [hfst]
    refine List.Nodup.append htnd hsnd ?_
    intro a ha hb
    obtain ⟨e, he, rfl⟩ := List.mem_map.mp hb
    exact (hsmem e he).2 ha
  · intro s hs
    have hs1 : s.1 ∈ (chainLightningStrikes f enemies).map Prod.fst :=
      List.mem_map_of_mem Prod.fst hs
    rw [hfst] at hs1
    rcases List.mem_append.mp hs1 with h | h
    · obtain ⟨e, he, heq⟩ := List.mem_map.mp h
      exact ⟨e, htmem e he, heq⟩
    · obtain ⟨e, he, heq⟩ := List.mem_map.mp h
      exact ⟨e, (hsmem e he).1, heq⟩

/-- C4 (counterexample). Three enemies within `attackRange`: the third enemy
struck loses `0.8 * baseDamage = 24/5`, not `baseDamage * falloff(3) = 18/5`. -/
theorem chainLightning_falloff_counterexample :
    ([exampleEnemy 1 10, exampleEnemy 2 20, exampleEnemy 3 30].map Enemy.id).Nodup ∧
      (chainLightningStrikes exampleCaster
        [exampleEnemy 1 10, exampleEnemy 2 20, exampleEnemy 3 30])[2]? = some (3, 24 / 5) ∧
      healthOf 3 (exampleCaster.chainLightningAttack
        [exampleEnemy 1 10, exampleEnemy 2 20, exampleEnemy 3 30]) = some (10 - 24 / 5) ∧
      (24 / 5 : ℚ) ≠ exampleCaster.attackDamage * (6 / 5) * specFalloff 3 := by
  decide!

/-- C4 (amended). In one cast on a list without repeated entries, the strike
at position `n` (from 0) subtracts `baseDamage * k` from the health of the
enemy it hits, where `baseDamage = attackDamage * 1.2` and `k` is 1 for the
primary target, 0.8 for every other target within `attackRange`, and 0.6 for
every target reached through the secondary range. -/
theorem chainLightning_damage_by_kind (f : Follower) (enemies : List Enemy)
    (hnd : (enemies.map Enemy.id).Nodup) (n : Nat) (s : Nat × ℚ)
    (hs : (chainLightningStrikes f enemies)[n]? = some s) :
    s.2 = f.attackDamage * (6 / 5) * codeFalloff (chainTargets f enemies).length n ∧
      ∃ h : ℚ, healthOf s.1 enemies = some h ∧
        healthOf s.1 (f.chainLightningAttack enemies) = some (h - s.2) := by
  obtain ⟨hids, hmemE⟩ := chainLightningStrikes_ids f enemies hnd
  have hsmem : s ∈ chainLightningStrikes f enemies := List.getElem?_mem hs
  constructor
  · obtain ⟨secondary, heq, _, _, _, hnil⟩ := chainLightningStrikes_eq f enemies hnd
    rw [heq] at hs
    cases hT : chainTargets f enemies with
    | nil =>
      rw [hT] at hs
      rw [hnil hT] at hs
      simp at hs
    | cons p others =>
      rw [hT] at hs
      by_cases hn : n < (p :: others).length
      · rw [List.getElem?_append_left (by simpa using hn)] at hs
        cases n with
        | zero =>
          simp only [List.getElem?_cons_zero, Option.some.injEq] at hs
          subst hs
          simp [codeFalloff]
        | succ k =>
          simp only [List.getElem?_cons_succ, List.getElem?_map, Option.map_eq_some'] at hs
          obtain ⟨e, _, rfl⟩ := hs
          have hk : k + 1 < others.length + 1 := by simpa using hn
          simp [codeFalloff, hk]
      · have hge : (p :: others).length ≤ n := not_lt.mp hn
        rw [List.getElem?_append_right (by simpa using hge)] at hs
        simp only [List.getElem?_map, Option.map_eq_some'] at hs
        obtain ⟨e, _, rfl⟩ := hs
        have hn0 : n ≠ 0 := by
          intro h0
          rw [h0] at hge
          simp at hge
        have hnlt : ¬ n < others.length + 1 := by simpa using hn
        simp [codeFalloff, hn0, hnlt]
  · obtain ⟨e, he, heid⟩ := hmemE s hsmem
    refine ⟨e.health, ?_, ?_⟩
    · rw [← heid]; exact healthOf_mem e enemies hnd he
    · unfold Follower.chainLightningAttack
      rw [healthOf_foldl_mem s.1 s.2 _ enemies hids hsmem, ← heid,
        healthOf_mem e enemies hnd he]
      rfl

/-- Witness for C4 (amended): the third strike of the example cast. -/
theorem chainLightning_damage_by_kind_witness :
    ([exampleEnemy 1 10, exampleEnemy 2 20, exampleEnemy 3 30].map Enemy.id).Nodup ∧
      (chainLightningStrikes exampleCaster
        [exampleEnemy 1 10, exampleEnemy 2 20, exampleEnemy 3 30])[2]? = some (3, 24 / 5) ∧
      ((3, 24 / 5) : Nat × ℚ).2 = exampleCaster.attackDamage * (6 / 5) *
        codeFalloff (chainTargets exampleCaster
          [exampleEnemy 1 10, exampleEnemy 2 20, exampleEnemy 3 30]).length 2 :=
  ⟨by decide!, by decide!,
    (chainLightning_damage_by_kind exampleCaster
      [exampleEnemy 1 10, exampleEnemy 2 20, exampleEnemy 3 30] (by decide!) 2 (3, 24 / 5)
      (by decide!)).1⟩

/-- C5. In one cast on a list without repeated entries no enemy is struck
twice: the identities struck are pairwise distinct, so each enemy is the
target of at most one strike, and its health after the cast is its health
before, less the amount of that one strike if there is one. -/
theorem chainLightning_strikes_once (f : Follower) (enemies : List Enemy)
    (hnd : (enemies.map Enemy.id).Nodup) :
    ((chainLightningStrikes f enemies).map Prod.fst).Nodup ∧
      ∀ e ∈ enemies,
        ((chainLightningStrikes f enemies).map Prod.fst).count e.id ≤ 1 ∧
        (e.id ∉ (chainLightningStrikes f enemies).map Prod.fst →
          healthOf e.id (f.chainLightningAttack enemies) = some e.health) ∧
        (∀ d : ℚ, (e.id, d) ∈ chainLightningStrikes f enemies →
          healthOf e.id (f.chainLightningAttack enemies) = some (e.health - d)) := by
  obtain ⟨hids, _⟩ := chainLightningStrikes_ids f enemies hnd
  refine ⟨hids, ?_⟩
  intro e he
  refine ⟨List.nodup_iff_count_le_one.mp hids e.id, ?_, ?_⟩
  · intro hnot
    unfold Follower.chainLightningAttack
    rw [healthOf_foldl_not_mem _ _ _ hnot, healthOf_mem e enemies hnd he]
  · intro d hd
    unfold Follower.chainLightningAttack
    rw [healthOf_foldl_mem e.id d _ enemies hids hd, healthOf_mem e enemies hnd he]
    rfl

/-- Witness for C5: five enemies, two of them only within the secondary range. -/
theorem chainLightning_strikes_once_witness :
    ([exampleEnemy 1 10, exampleEnemy 2 120, exampleEnemy 3 30, exampleEnemy 4 200,
        exampleEnemy 5 149].map Enemy.id).Nodup ∧
      ((chainLightningStrikes exampleCaster
        [exampleEnemy 1 10, exampleEnemy 2 120, exampleEnemy 3 30, exampleEnemy 4 200,
          exampleEnemy 5 149]).map Prod.fst).Nodup :=
  ⟨by decide, (chainLightning_strikes_once exampleCaster
      [exampleEnemy 1 10, exampleEnemy 2 120, exampleEnemy 3 30, exampleEnemy 4 200,
        exampleEnemy 5 149] (by decide)).1⟩

/-! ### Corrosion -/

/-- C6. When `corrosionCloudAttack` hits an enemy that already carries a
corrosion record, the record it carries afterwards is the same record with
`remainingDuration` reset to 3000: `damagePerTick`, `tickInterval` and
`lastTickTime` are unchanged and there is still one record. -/
theorem corrosion_reapplied_refreshes (f : Follower) (enemies : List Enemy) (now : ℚ)
    (i : Nat) (enemy : Enemy) (c : Corrosion)
    (hi : enemies[i]? = some enemy) (hc : enemy.corrosion = some c)
    (hr : f.isInRange enemy (f.attackRange * (7 / 10)) = true) :
    ∃ after : Enemy, (f.corrosionCloudAttack enemies now)[i]? = some after ∧
      after.corrosion = some
        { damagePerTick := c.damagePerTick, tickInterval := c.tickInterval,
          remainingDuration := 3000, lastTickTime := c.lastTickTime } ∧
      after.health = enemy.health - f.attackDamage * (1 / 2) := by
  refine ⟨corrodeEnemy f now enemy, ?_, ?_, ?_⟩
  · simp [Follower.corrosionCloudAttack, hi]
  · simp [corrodeEnemy, hr, hc]
  · simp only [corrodeEnemy, hr, if_true, hc]

/-- Witness for C6: an enemy at distance 10 with one second of corrosion left. -/
theorem corrosion_reapplied_refreshes_witness :
    [exampleCorroded][0]? = some exampleCorroded ∧
      exampleCorroded.corrosion = some ⟨1, 1000, 1000, 0⟩ ∧
      exampleCaster.isInRange exampleCorroded (exampleCaster.attackRange * (7 / 10)) = true ∧
      ∃ after : Enemy,
        (exampleCaster.corrosionCloudAttack [exampleCorroded] 5000)[0]? = some after ∧
        after.corrosion = some ⟨1, 1000, 3000, 0⟩ ∧
        after.health = exampleCorroded.health - exampleCaster.attackDamage * (1 / 2) :=
  ⟨rfl, rfl, by decide!,
    corrosion_reapplied_refreshes exampleCaster [exampleCorroded] 5000 0 exampleCorroded
      ⟨1, 1000, 1000, 0⟩ rfl rfl (by decide!)⟩

/-! ### Boss phases -/

theorem startPhaseTransition_phase (e : Enemy) (newPhase : Nat) :
    (e.startPhaseTransition newPhase).phase = newPhase := by
  unfold Enemy.startPhaseTransition
  cases e.type <;> simp only <;> split_ifs <;> rfl

theorem updatePhaseTransition_phase (pulseScale : ℚ → ℚ) (e : Enemy) :
    (e.updatePhaseTransition pulseScale).phase = e.phase := by
  unfold Enemy.updatePhaseTransition
  simp only
  split_ifs <;> rfl

/-- One event: the phase either stays, or goes from 1 to 2 with transition 2
started, or from 2 to 3 with transition 3 started. -/
theorem bossStep_cases (pulseScale : ℚ → ℚ) (e : Enemy) (ev : BossEvent) :
    ((bossStep pulseScale e ev).2 = none ∧ (bossStep pulseScale e ev).1.phase = e.phase) ∨
      ((bossStep pulseScale e ev).2 = some 2 ∧ e.phase = 1 ∧
        (bossStep pulseScale e ev).1.phase = 2) ∨
      ((bossStep pulseScale e ev).2 = some 3 ∧ e.phase = 2 ∧
        (bossStep pulseScale e ev).1.phase = 3) := by
  cases ev with
  | mutate changed => left; exact ⟨rfl, rfl⟩
  | update =>
    simp only [bossStep, Enemy.updatePhase]
    split_ifs with h1 h2 h3 h4
    · right; left
      exact ⟨rfl, h3.1, startPhaseTransition_phase e 2⟩
    · right; right
      exact ⟨rfl, h4.1, startPhaseTransition_phase e 3⟩
    · left; exact ⟨rfl, rfl⟩
    · left; exact ⟨rfl, updatePhaseTransition_phase pulseScale e⟩
    · left; exact ⟨rfl, rfl⟩

theorem bossStep_phase_le (pulseScale : ℚ → ℚ) (e : Enemy) (ev : BossEvent) :
    e.phase ≤ (bossStep pulseScale e ev).1.phase := by
  rcases bossStep_cases pulseScale e ev with h | h | h
  · exact le_of_eq h.2.symm
  · rw [h.2.1, h.2.2]; decide
  · rw [h.2.1, h.2.2]; decide

theorem bossRun_phase_le (pulseScale : ℚ → ℚ) (evs : List BossEvent) :
    ∀ e : Enemy, e.phase ≤ (bossRun pulseScale e evs).1.phase := by
  induction evs with
  | nil => intro e; exact le_refl _
  | cons ev rest ih =>
    intro e
    exact le_trans (bossStep_phase_le pulseScale e ev) (ih _)

theorem bossRun_append (pulseScale : ℚ → ℚ) (evs1 evs2 : List BossEvent) :
    ∀ e : Enemy, (bossRun pulseScale e (evs1 ++ evs2)).1 =
      (bossRun pulseScale (bossRun pulseScale e evs1).1 evs2).1 := by
  induction evs1 with
  | nil => intro e; rfl
  | cons ev rest ih => intro e; exact ih _

/-- From phase `k` on, transition `k` is never started again. -/
theorem bossRun_count_zero (pulseScale : ℚ → ℚ) (k : Nat) (hk : k = 2 ∨ k = 3)
    (evs : List BossEvent) :
    ∀ e : Enemy, k ≤ e.phase → (bossRun pulseScale e evs).2.count k = 0 := by
  induction evs with
  | nil => intro e _; rfl
  | cons ev rest ih =>
    intro e he
    have hrest := ih _ (le_trans he (bossStep_phase_le pulseScale e ev))
    simp only [bossRun, List.count_append, hrest, Nat.add_zero]
    rcases bossStep_cases pulseScale e ev with h | h | h
    · rw [h.1]; rfl
    · exfalso; rcases hk with rfl | rfl <;> omega
    · rw [h.1]
      rcases hk with rfl | rfl
      · rfl
      · exfalso; omega

theorem bossRun_count_le_one (pulseScale : ℚ → ℚ) (k : Nat) (hk : k = 2 ∨ k = 3)
    (evs : List BossEvent) :
    ∀ e : Enemy, (bossRun pulseScale e evs).2.count k ≤ 1 := by
  induction evs with
  | nil => intro e; simp [bossRun]
  | cons ev rest ih =>
    intro e
    simp only [bossRun, List.count_append]
    rcases bossStep_cases pulseScale e ev with h | h | h
    · rw [h.1]
      simpa using ih _
    · rw [h.1]
      rcases hk with rfl | rfl
      · have h0 := bossRun_count_zero pulseScale 2 (Or.inl rfl) rest
          (bossStep pulseScale e ev).1 (le_of_eq h.2.2.symm)
        rw [h0]
        simp
      · simpa using ih _
    · rw [h.1]
      rcases hk with rfl | rfl
      · simpa using ih _
      · have h0 := bossRun_count_zero pulseScale 3 (Or.inr rfl) rest
          (bossStep pulseScale e ev).1 (le_of_eq h.2.2.symm)
        rw [h0]
        simp

/-- C7. Over any run of `update` calls interleaved with arbitrary changes of
the boss's health (and of any field other than the phase bookkeeping), the
transition to phase 2 is started at most once, the transition to phase 3 at
most once, and the phase never decreases. -/
theorem boss_phase_transitions_once (pulseScale : ℚ → ℚ) (e : Enemy)
    (evs later : List BossEvent) :
    (bossRun pulseScale e evs).2.count 2 ≤ 1 ∧
      (bossRun pulseScale e evs).2.count 3 ≤ 1 ∧
      (bossRun pulseScale e evs).1.phase ≤ (bossRun pulseScale e (evs ++ later)).1.phase := by
  refine ⟨bossRun_count_le_one pulseScale 2 (Or.inl rfl) evs e,
    bossRun_count_le_one pulseScale 3 (Or.inr rfl) evs e, ?_⟩
  rw [bossRun_append]
  exact bossRun_phase_le pulseScale later _

/-- A run on a fresh shoggoth boss (25 of 25): its health swings around the
70% mark, the one-second transition runs out over 61 updates, and its health
then falls below 30%. The transitions started are 2, then 3, once each. -/
theorem boss_phase_example :
    (bossRun (fun _ => 1) (Enemy.new 1 0 0 EnemyType.shoggoth true)
      ([BossEvent.mutate { (Enemy.new 1 0 0 EnemyType.shoggoth true) with health := 17 },
        BossEvent.update,
        BossEvent.mutate { (Enemy.new 1 0 0 EnemyType.shoggoth true) with health := 18 },
        BossEvent.update,
        BossEvent.mutate { (Enemy.new 1 0 0 EnemyType.shoggoth true) with health := 17 }] ++
       List.replicate 61 BossEvent.update ++
       [BossEvent.mutate { (Enemy.new 1 0 0 EnemyType.shoggoth true) with health := 5 },
        BossEvent.update, BossEvent.update])).2 = [2, 3] := by
  decide!

/-! ### Waves -/

theorem spawnBoss_wave_fields (g : Game) (posIdx : Fin 4) (typeIdx : Fin 3) (bossId : Nat) :
    (g.spawnBoss posIdx typeIdx bossId).level = g.level ∧
      (g.spawnBoss posIdx typeIdx bossId).enemiesDefeated = g.enemiesDefeated ∧
      (g.spawnBoss posIdx typeIdx bossId).enemiesRequiredForWave = g.enemiesRequiredForWave ∧
      (g.spawnBoss posIdx typeIdx bossId).bossDefeated = g.bossDefeated :=
  ⟨rfl, rfl, rfl, rfl⟩

/-- The wave fields after `checkWaveProgress`, by whether the wave is complete. -/
theorem checkWaveProgress_fields (g : Game) (posIdx : Fin 4) (typeIdx : Fin 3) (bossId : Nat)
    (hw : g.waveCompleted = false) :
    (g.waveIsComplete = true →
      (g.checkWaveProgress posIdx typeIdx bossId).level = g.level + 1 ∧
      (g.checkWaveProgress posIdx typeIdx bossId).enemiesRequiredForWave =
        (if g.level + 1 = 2 then 20 else g.enemiesRequiredForWave * 2) ∧
      (g.checkWaveProgress posIdx typeIdx bossId).enemiesDefeated = 0 ∧
      (g.checkWaveProgress posIdx typeIdx bossId).bossDefeated = false ∧
      (g.checkWaveProgress posIdx typeIdx bossId).currentBoss = none) ∧
    (g.waveIsComplete = false →
      (g.checkWaveProgress posIdx typeIdx bossId).level = g.level ∧
      (g.checkWaveProgress posIdx typeIdx bossId).enemiesRequiredForWave =
        g.enemiesRequiredForWave ∧
      (g.checkWaveProgress posIdx typeIdx bossId).enemiesDefeated = g.enemiesDefeated ∧
      (g.checkWaveProgress posIdx typeIdx bossId).bossDefeated = g.bossDefeated) := by
  unfold Game.checkWaveProgress
  simp only [hw, Bool.false_eq_true, if_false]
  constructor
  · intro hc
    split_ifs <;> simp_all [Game.waveIsComplete, Game.completeWave, Game.spawnBoss]
  · intro hc
    split_ifs <;> simp_all [Game.waveIsComplete, Game.completeWave, Game.spawnBoss]

/-- C8. With `waveCompleted` false, `checkWaveProgress` completes the wave
(runs `completeWave`: the level goes up by one, the requirement moves to its
next value, the kill counter and the boss state are reset) if and only if
`enemiesDefeated >= enemiesRequiredForWave` and `bossDefeated`; if either
fails, `level` and `enemiesRequiredForWave` are unchanged. -/
theorem checkWaveProgress_completes_iff (g : Game) (posIdx : Fin 4) (typeIdx : Fin 3)
    (bossId : Nat) (hw : g.waveCompleted = false) :
    ((g.checkWaveProgress posIdx typeIdx bossId).level = g.level + 1 ↔
      (g.enemiesDefeated ≥ g.enemiesRequiredForWave ∧ g.bossDefeated = true)) ∧
    ((g.enemiesDefeated ≥ g.enemiesRequiredForWave ∧ g.bossDefeated = true) →
      (g.checkWaveProgress posIdx typeIdx bossId).enemiesRequiredForWave =
          (if g.level + 1 = 2 then 20 else g.enemiesRequiredForWave * 2) ∧
        (g.checkWaveProgress posIdx typeIdx bossId).enemiesDefeated = 0 ∧
        (g.checkWaveProgress posIdx typeIdx bossId).bossDefeated = false ∧
        (g.checkWaveProgress posIdx typeIdx bossId).currentBoss = none) ∧
    (¬ (g.enemiesDefeated ≥ g.enemiesRequiredForWave ∧ g.bossDefeated = true) →
      (g.checkWaveProgress posIdx typeIdx bossId).level = g.level ∧
        (g.checkWaveProgress posIdx typeIdx bossId).enemiesRequiredForWave =
          g.enemiesRequiredForWave) := by
  have hf := checkWaveProgress_fields g posIdx typeIdx bossId hw
  have hiff : g.waveIsComplete = true ↔
      (g.enemiesDefeated ≥ g.enemiesRequiredForWave ∧ g.bossDefeated = true) := by
    simp [Game.waveIsComplete]
  refine ⟨?_, ?_, ?_⟩
  · constructor
    · intro hl
      by_contra hn
      have hfalse : g.waveIsComplete = false := by
        rw [← Bool.not_eq_true]; exact fun h => hn (hiff.mp h)
      have := (hf.2 hfalse).1
      omega
    · intro hc
      exact (hf.1 (hiff.mpr hc)).1
  · intro hc
    exact (hf.1 (hiff.mpr hc)).2
  · intro hn
    have hfalse : g.waveIsComplete = false := by
      rw [← Bool.not_eq_true]; exact fun h => hn (hiff.mp h)
    exact ⟨(hf.2 hfalse).1, (hf.2 hfalse).2.1⟩

/-- Witness for C8: ten kills of ten and the boss defeated in wave 1. -/
theorem checkWaveProgress_completes_iff_witness :
    ({ exampleGame with enemiesDefeated := 10, bossDefeated := true } : Game).waveCompleted
        = false ∧
      (Game.checkWaveProgress { exampleGame with enemiesDefeated := 10, bossDefeated := true }
        0 0 7).level = 2 :=
  ⟨rfl,
    ((checkWaveProgress_completes_iff
      { exampleGame with enemiesDefeated := 10, bossDefeated := true } 0 0 7 rfl).1).mpr
      ⟨by decide, rfl⟩⟩

theorem completeWaves_from (k : Nat) :
    ∀ (g : Game) (j : Nat), g.level = j + 1 → g.enemiesRequiredForWave = 10 * 2 ^ j →
      (Game.completeWaves k g).level = j + k + 1 ∧
        (Game.completeWaves k g).enemiesRequiredForWave = 10 * 2 ^ (j + k) := by
  induction k with
  | zero => intro g j hl hr; exact ⟨hl, hr⟩
  | succ k ih =>
    intro g j hl hr
    have hl2 : g.completeWave.level = (j + 1) + 1 := by
      simp [Game.completeWave, hl]
    have hr2 : g.completeWave.enemiesRequiredForWave = 10 * 2 ^ (j + 1) := by
      simp only [Game.completeWave, hl, hr]
      cases j with
      | zero => simp
      | succ i =>
        have : ¬ (i + 1 + 1 + 1 = 2) := by omega
        rw [if_neg this]
        ring
    have h := ih g.completeWave (j + 1) hl2 hr2
    simp only [Game.completeWaves]
    refine ⟨by rw [h.1]; omega, ?_⟩
    rw [h.2]
    congr 2
    omega

/-- C9. Starting from the state set by `startGame`, after `k` calls of
`completeWave` the requirement is `10 * 2^k` and the level is `k + 1`. -/
theorem wave_requirement_progression (g : Game) (k : Nat) :
    (Game.completeWaves k g.startGame).enemiesRequiredForWave = 10 * 2 ^ k ∧
      (Game.completeWaves k g.startGame).level = k + 1 := by
  have h := completeWaves_from k g.startGame 0 rfl rfl
  simp only [Nat.zero_add] at h
  exact ⟨h.2, h.1⟩

/-! ### Weighted class selection -/

theorem totalWeight_foldl (classes : List SteamClass) :
    ∀ a : ℚ, classes.foldl (fun total c => total + c.spawnRate) a =
      a + (classes.map SteamClass.spawnRate).sum := by
  induction classes with
  | nil => intro a; simp
  | cons c rest ih =>
    intro a
    simp only [List.foldl_cons, List.map_cons, List.sum_cons, ih]
    ring

theorem totalWeight_eq_sum (classes : List SteamClass) :
    totalWeight classes = (classes.map SteamClass.spawnRate).sum := by
  unfold totalWeight
  rw [totalWeight_foldl]
  ring

/-- The selection loop entered strictly below the drawn value stops at a class
of positive weight, provided the remaining weights reach the drawn value. -/
theorem selectLoop_pos (randomValue : ℚ) (classes : List SteamClass) :
    ∀ cumulativeWeight : ℚ, cumulativeWeight < randomValue →
      randomValue ≤ cumulativeWeight + (classes.map SteamClass.spawnRate).sum →
      ∃ c ∈ classes, selectLoop randomValue cumulativeWeight classes = some c ∧
        0 < c.spawnRate := by
  induction classes with
  | nil =>
    intro cum hlt hle
    simp only [List.map_nil, List.sum_nil, add_zero] at hle
    exact absurd hle (not_le.mpr hlt)
  | cons c rest ih =>
    intro cum hlt hle
    simp only [List.map_cons, List.sum_cons] at hle
    by_cases hc : randomValue ≤ cum + c.spawnRate
    · refine ⟨c, List.mem_cons_self _ _, by simp [selectLoop, hc], ?_⟩
      linarith
    · obtain ⟨d, hd, hsel, hpos⟩ := ih (cum + c.spawnRate) (not_le.mp hc) (by linarith)
      exact ⟨d, List.mem_cons_of_mem _ hd, by simp [selectLoop, hc, hsel], hpos⟩

/-- For a draw strictly between 0 and 1 the class selected has positive
weight, whenever the total weight is positive. -/
theorem selectWeighted_pos_of_pos_draw (classes : List SteamClass) (r : ℚ)
    (htotal : 0 < totalWeight classes) (hr0 : 0 < r) (hr1 : r < 1) :
    ∃ c ∈ classes, selectWeightedSteamClass classes r = some c ∧ 0 < c.spawnRate := by
  have hrv : 0 < r * totalWeight classes := mul_pos hr0 htotal
  have hle : r * totalWeight classes ≤ 0 + (classes.map SteamClass.spawnRate).sum := by
    rw [zero_add, ← totalWeight_eq_sum]
    nlinarith
  obtain ⟨c, hc, hsel, hpos⟩ := selectLoop_pos _ classes 0 hrv hle
  exact ⟨c, hc, by simp [selectWeightedSteamClass, hsel], hpos⟩

/-- C11 (the code at the failing input). With the first class of the table
disabled (`disableClassSpawn`, weight 0) and all others at weight 100, the
draw `Math.random() = 0` selects the disabled class: `0 <= 0` holds at the
first step of the loop. -/
theorem selectWeighted_zero_draw_selects_disabled :
    (∀ c ∈ disableClassSpawn STEAM_CLASSES 0, 0 ≤ c.spawnRate) ∧
      (∃ c ∈ disableClassSpawn STEAM_CLASSES 0, 0 < c.spawnRate) ∧
      (selectWeightedSteamClass (disableClassSpawn STEAM_CLASSES 0) 0).map
        SteamClass.attackStyle = some AttackStyle.SWORD_SWEEP ∧
      (selectWeightedSteamClass (disableClassSpawn STEAM_CLASSES 0) 0).map
        SteamClass.spawnRate = some 0 := by
  decide!

/-! ### Object pool -/

theorem setAdd_length_le {σ : Type} (set : List (PoolObject σ)) (obj : PoolObject σ) :
    (setAdd set obj).length ≤ set.length + 1 := by
  unfold setAdd
  split_ifs <;> simp

/-- Pool invariant: the active and the free objects together number at most
`maxSize`. -/
theorem pool_get_inv {α σ : Type} (k : PoolClass α σ) (p : ObjectPool σ) (args : α)
    (h : p.activeObjects.length + p.objects.length ≤ p.maxSize) :
    (p.get k args).1.activeObjects.length + (p.get k args).1.objects.length ≤
        (p.get k args).1.maxSize ∧ (p.get k args).1.maxSize = p.maxSize := by
  unfold ObjectPool.get
  cases hlast : p.objects.getLast? with
  | none =>
    have hnil : p.objects = [] := List.getLast?_eq_none_iff.mp hlast
    simp only
    split_ifs with hlt
    · have := setAdd_length_le p.activeObjects
        ({ id := p.nextId, state := k.createFn args } : PoolObject σ)
      simp only [hnil, List.length_nil, Nat.add_zero, and_true]
      omega
    · exact ⟨h, rfl⟩
  | some popped =>
    have hne : p.objects ≠ [] := by
      intro hnil
      rw [hnil] at hlast
      simp at hlast
    have hpos : 0 < p.objects.length := List.length_pos.mpr hne
    have := setAdd_length_le p.activeObjects
      ({ popped with state := k.reset args popped.state } : PoolObject σ)
    simp only [List.length_dropLast, and_true]
    omega

theorem pool_release_inv {σ : Type} (p : ObjectPool σ) (id : Nat)
    (h : p.activeObjects.length + p.objects.length ≤ p.maxSize) :
    (p.release id).activeObjects.length + (p.release id).objects.length ≤
        (p.release id).maxSize ∧ (p.release id).maxSize = p.maxSize := by
  unfold ObjectPool.release
  cases hfind : p.activeObjects.find? (fun o => decide (o.id = id)) with
  | none => exact ⟨h, rfl⟩
  | some obj =>
    have hmem : obj ∈ p.activeObjects := List.mem_of_find?_eq_some hfind
    have hid : obj.id = id := by
      have := List.find?_some hfind
      simpa using this
    have hlt : (p.activeObjects.filter (fun o => decide (o.id ≠ id))).length <
        p.activeObjects.length := by
      apply List.length_filter_lt_length_iff_exists.mpr
      exact ⟨obj, hmem, by simp [hid]⟩
    simp only [List.length_append, List.length_singleton, and_true]
    omega

theorem pool_update_inv {α σ : Type} (k : PoolClass α σ) (p : ObjectPool σ)
    (h : p.activeObjects.length + p.objects.length ≤ p.maxSize) :
    (p.update k).activeObjects.length + (p.update k).objects.length ≤
        (p.update k).maxSize ∧ (p.update k).maxSize = p.maxSize := by
  unfold ObjectPool.update
  simp only [List.length_append, and_true]
  have hsplit := List.length_eq_length_filter_add
    (l := p.activeObjects.map (fun o => ({ o with state := k.update o.state } : PoolObject σ)))
    (fun o => k.isActive o.state)
  simp only [List.length_map] at hsplit
  omega

theorem pool_run_inv {α σ : Type} (k : PoolClass α σ) (ops : List (PoolOp α)) :
    ∀ p : ObjectPool σ, p.activeObjects.length + p.objects.length ≤ p.maxSize →
      (p.run k ops).activeObjects.length + (p.run k ops).objects.length ≤ p.maxSize ∧
        (p.run k ops).maxSize = p.maxSize := by
  induction ops with
  | nil => intro p h; exact ⟨h, rfl⟩
  | cons op rest ih =>
    intro p h
    have hstep : (p.step k op).activeObjects.length + (p.step k op).objects.length ≤
        (p.step k op).maxSize ∧ (p.step k op).maxSize = p.maxSize := by
      cases op with
      | get args => exact pool_get_inv k p args h
      | release id => exact pool_release_inv p id h
      | update => exact pool_update_inv k p h
    have hrec := ih (p.step k op) hstep.1
    simp only [ObjectPool.run, List.foldl_cons] at hrec ⊢
    rw [hstep.2] at hrec
    exact hrec

/-- C12. In every pool state reached from a freshly constructed pool of
capacity `maxSize` by `get`, `release` and `update` calls, the number of
active objects is at most `maxSize`, and a `get` issued while the active set
holds `maxSize` objects returns `null` and leaves the pool (active set and
free list) unchanged. -/
theorem pool_capacity {α σ : Type} (k : PoolClass α σ) (maxSize : Nat)
    (ops : List (PoolOp α)) (args : α) :
    ((ObjectPool.new σ maxSize).run k ops).activeObjects.length ≤ maxSize ∧
      (((ObjectPool.new σ maxSize).run k ops).activeObjects.length = maxSize →
        ((ObjectPool.new σ maxSize).run k ops).get k args =
          ((ObjectPool.new σ maxSize).run k ops, none)) := by
  have hinv := pool_run_inv k ops (ObjectPool.new σ maxSize) (Nat.zero_le _)
  have hmax : (ObjectPool.new σ maxSize).maxSize = maxSize := rfl
  rw [hmax] at hinv
  refine ⟨by omega, ?_⟩
  intro hfull
  have hfree : ((ObjectPool.new σ maxSize).run k ops).objects = [] := by
    apply List.eq_nil_of_length_eq_zero
    omega
  unfold ObjectPool.get
  simp [hfree, hfull, hinv.2]

/-! ### Terrain -/

theorem speedFold_le_init (x y : ℚ) (tiles : List EnvironmentElement) :
    ∀ m : ℚ, tiles.foldl
      (fun speedModifier element =>
        if element.contains x y then min speedModifier element.speedModifier
        else speedModifier) m ≤ m := by
  induction tiles with
  | nil => intro m; exact le_refl _
  | cons t rest ih =>
    intro m
    simp only [List.foldl_cons]
    split_ifs
    · exact le_trans (ih _) (min_le_left _ _)
    · exact ih _

theorem speedFold_le_tile (x y : ℚ) (tiles : List EnvironmentElement) :
    ∀ m : ℚ, ∀ t ∈ tiles, t.contains x y = true →
      tiles.foldl
        (fun speedModifier element =>
          if element.contains x y then min speedModifier element.speedModifier
          else speedModifier) m ≤ t.speedModifier := by
  induction tiles with
  | nil => intro m t ht; exact absurd ht (List.not_mem_nil _)
  | cons a rest ih =>
    intro m t ht hc
    simp only [List.foldl_cons]
    rcases List.mem_cons.mp ht with rfl | hin
    · rw [if_pos hc]
      exact le_trans (speedFold_le_init x y rest _) (min_le_right _ _)
    · exact ih _ t hin hc

theorem speedFold_attained (x y : ℚ) (tiles : List EnvironmentElement) :
    ∀ m : ℚ,
      tiles.foldl
        (fun speedModifier element =>
          if element.contains x y then min speedModifier element.speedModifier
          else speedModifier) m = m ∨
      ∃ t ∈ tiles, t.contains x y = true ∧
        tiles.foldl
          (fun speedModifier element =>
            if element.contains x y then min speedModifier element.speedModifier
            else speedModifier) m = t.speedModifier := by
  induction tiles with
  | nil => intro m; left; rfl
  | cons a rest ih =>
    intro m
    simp only [List.foldl_cons]
    by_cases hc : a.contains x y = true
    · rw [if_pos hc]
      rcases ih (min m a.speedModifier) with h | ⟨t, ht, htc, hte⟩
      · rcases min_choice m a.speedModifier with hm | hm
        · left; rw [h, hm]
        · right; exact ⟨a, List.mem_cons_self _ _, hc, by rw [h, hm]⟩
      · right; exact ⟨t, List.mem_cons_of_mem _ ht, htc, hte⟩
    · rw [if_neg hc]
      rcases ih m with h | ⟨t, ht, htc, hte⟩
      · left; exact h
      · right; exact ⟨t, List.mem_cons_of_mem _ ht, htc, hte⟩

/-- C19. With every tile's `speedModifier` at most 1, the terrain modifier at
a point is 1 when no tile contains the point and otherwise the least
`speedModifier` of the tiles containing it (it is the modifier of one of them
and at most that of each); and it does not depend on the order of the tiles. -/
theorem terrain_modifier_is_min (g : Game) (x y : ℚ)
    (h : ∀ t ∈ g.environment, t.speedModifier ≤ 1) :
    ((∀ t ∈ g.environment, t.contains x y = false) →
        g.getEnvironmentSpeedModifier x y = 1) ∧
      ((∃ t ∈ g.environment, t.contains x y = true) →
        (∃ t ∈ g.environment, t.contains x y = true ∧
          g.getEnvironmentSpeedModifier x y = t.speedModifier) ∧
        ∀ t ∈ g.environment, t.contains x y = true →
          g.getEnvironmentSpeedModifier x y ≤ t.speedModifier) ∧
      (∀ g2 : Game, g2.environment.Perm g.environment →
        g2.getEnvironmentSpeedModifier x y = g.getEnvironmentSpeedModifier x y) := by
  refine ⟨?_, ?_, ?_⟩
  · intro hnone
    rcases speedFold_attained x y g.environment 1 with h1 | ⟨t, ht, htc, _⟩
    · exact h1
    · rw [hnone t ht] at htc
      exact absurd htc (by simp)
  · rintro ⟨t0, ht0, hc0⟩
    refine ⟨?_, fun t ht hc => speedFold_le_tile x y g.environment 1 t ht hc⟩
    rcases speedFold_attained x y g.environment 1 with h1 | ⟨t, ht, htc, hte⟩
    · refine ⟨t0, ht0, hc0, ?_⟩
      have hle := speedFold_le_tile x y g.environment 1 t0 ht0 hc0
      have hge : t0.speedModifier ≤ 1 := h t0 ht0
      unfold Game.getEnvironmentSpeedModifier
      rw [h1] at hle ⊢
      exact le_antisymm hle hge
    · exact ⟨t, ht, htc, hte⟩
  · intro g2 hperm
    unfold Game.getEnvironmentSpeedModifier
    apply List.Perm.foldl_eq' hperm
    intro a _ b _ z
    by_cases ha : a.contains x y = true <;> by_cases hb : b.contains x y = true <;>
      simp [ha, hb, min_assoc, min_comm a.speedModifier b.speedModifier]

/-! ### Basic attack range -/

/-- The rational range test is the Euclidean one: `distLe` holds exactly when
the square root of the squared distance is at most the range. -/
theorem distLe_iff_sqrt (f : Follower) (enemy : Enemy) (range : ℚ) :
    f.distLe enemy range = true ↔ Real.sqrt ((f.distSq enemy : ℚ) : ℝ) ≤ (range : ℝ) := by
  unfold Follower.distLe
  rw [decide_eq_true_iff, Real.sqrt_le_iff]
  constructor
  · rintro ⟨h1, h2⟩
    refine ⟨by exact_mod_cast h1, ?_⟩
    rw [pow_two]
    exact_mod_cast h2
  · rintro ⟨h1, h2⟩
    refine ⟨by exact_mod_cast h1, ?_⟩
    rw [pow_two] at h2
    exact_mod_cast h2

theorem findClosest_single (f : Follower) (enemy : Enemy) (hc : enemy.collected = false) :
    f.findClosest [enemy] = if f.distLe enemy f.attackRange then some enemy else none := by
  simp [Follower.findClosest, hc]

/-- C13. `Follower.isInRange(enemy, range)` is true exactly when the Euclidean
distance is at most `range`; and with the cooldown elapsed and a single
uncollected enemy in the list, `updateAttack` attacks the enemy (its health
drops by `attackDamage`, `lastAttackTime` is set) when its distance is at most
`attackRange`, the boundary included, and leaves it alone when its distance
is greater. -/
theorem attack_range_inclusive (f : Follower) (enemy : Enemy) (range now : ℚ)
    (hc : enemy.collected = false) (hcool : ¬ now - f.lastAttackTime < f.attackSpeed) :
    (f.isInRange enemy range = true ↔
        Real.sqrt ((f.distSq enemy : ℚ) : ℝ) ≤ (range : ℝ)) ∧
      (Real.sqrt ((f.distSq enemy : ℚ) : ℝ) ≤ (f.attackRange : ℝ) →
        (f.updateAttack [enemy] now).2.1 =
            [{ enemy with health := enemy.health - f.attackDamage }] ∧
          (f.updateAttack [enemy] now).1.lastAttackTime = now ∧
          (f.updateAttack [enemy] now).1.attackTarget = some enemy.id) ∧
      ((f.attackRange : ℝ) < Real.sqrt ((f.distSq enemy : ℚ) : ℝ) →
        (f.updateAttack [enemy] now).2.1 = [enemy] ∧
          (f.updateAttack [enemy] now).1.lastAttackTime = f.lastAttackTime ∧
          (f.updateAttack [enemy] now).1.attackTarget = none) := by
  refine ⟨distLe_iff_sqrt f enemy range, ?_, ?_⟩
  · intro hin
    have hd : f.distLe enemy f.attackRange = true := (distLe_iff_sqrt f enemy _).mpr hin
    simp [Follower.updateAttack, hcool, findClosest_single f enemy hc, hd,
      Follower.attackEnemy, applyStrike]
  · intro hout
    have hd : f.distLe enemy f.attackRange = false := by
      rw [← Bool.not_eq_true]
      intro h
      exact absurd ((distLe_iff_sqrt f enemy _).mp h) (not_le.mpr hout)
    simp [Follower.updateAttack, hcool, findClosest_single f enemy hc, hd]

/-- Witness for C13: an enemy at distance exactly `attackRange = 100`. -/
theorem attack_range_inclusive_witness :
    (exampleEnemy 1 100).collected = false ∧
      ¬ (5000 - exampleCaster.lastAttackTime < exampleCaster.attackSpeed) ∧
      exampleCaster.isInRange (exampleEnemy 1 100) exampleCaster.attackRange = true ∧
      (exampleCaster.updateAttack [exampleEnemy 1 100] 5000).2.1 =
        [{ exampleEnemy 1 100 with
            health := (exampleEnemy 1 100).health - exampleCaster.attackDamage }] :=
  ⟨rfl, by decide!, by decide!,
    ((attack_range_inclusive exampleCaster (exampleEnemy 1 100) exampleCaster.attackRange 5000
      rfl (by decide!)).2.1
      ((attack_range_inclusive exampleCaster (exampleEnemy 1 100) exampleCaster.attackRange
        5000 rfl (by decide!)).1.mp (by decide!))).1⟩

/-- Witness for C19: the point (50, 50) lies in a forest tile and a bush tile. -/
theorem terrain_modifier_is_min_witness :
    (∀ t ∈ exampleTerrain.environment, t.speedModifier ≤ 1) ∧
      ∀ t ∈ exampleTerrain.environment, t.contains 50 50 = true →
        exampleTerrain.getEnvironmentSpeedModifier 50 50 ≤ t.speedModifier :=
  ⟨by decide!,
    ((terrain_modifier_is_min exampleTerrain 50 50 (by decide!)).2.1
      ⟨{ x := 0, y := 0, width := 200, height := 200, speedModifier := 1 / 2 },
        by decide!, by decide!⟩).2⟩

/-! ### Game over -/

theorem applyEffect_timers (g : Game) (eff : Effect) :
    (g.applyEffect eff).gameOverTimers = g.gameOverTimers ∧
      (g.applyEffect eff).commander = g.commander := by
  cases eff <;> exact ⟨rfl, rfl⟩

theorem foldl_applyEffect_timers (effs : List Effect) :
    ∀ g : Game, (effs.foldl Game.applyEffect g).gameOverTimers = g.gameOverTimers ∧
      (effs.foldl Game.applyEffect g).commander = g.commander := by
  induction effs with
  | nil => intro g; exact ⟨rfl, rfl⟩
  | cons eff rest ih =>
    intro g
    simp only [List.foldl_cons]
    rw [(ih _).1, (ih _).2]
    exact applyEffect_timers g eff

theorem commanderTakeDamage_timers (g : Game) (amount now : ℚ) :
    (g.commanderTakeDamage amount now).gameOverTimers = g.gameOverTimers ∧
      (g.commanderTakeDamage amount now).commander.health = g.commander.health - amount := by
  unfold Game.commanderTakeDamage
  simp only
  rw [(foldl_applyEffect_timers _ _).1, (foldl_applyEffect_timers _ _).2]
  exact ⟨rfl, rfl⟩

theorem triggerGameOver_timers (g : Game) :
    g.triggerGameOver.gameOverTimers = g.gameOverTimers + 1 := rfl

/-- One ring of area damage triggers game over once if it hits the commander
and leaves the commander at or below 0, and not at all otherwise. -/
theorem performAreaDamage_timers (e : Enemy) (g : Game) (radius damage now : ℚ) :
    (e.performAreaDamage g radius damage now).gameOverTimers =
      g.gameOverTimers +
        (if e.withinRadius g.commander.x g.commander.y radius = true ∧
            g.commander.health - damage ≤ 0 then 1 else 0) := by
  unfold Enemy.performAreaDamage
  by_cases hhit : e.withinRadius g.commander.x g.commander.y radius = true
  · simp only [hhit, if_true, Bool.true_and, decide_eq_true_eq, true_and,
      (commanderTakeDamage_timers g damage now).2]
    split_ifs with hdead
    · rw [triggerGameOver_timers, (commanderTakeDamage_timers g damage now).1]
    · simp only [Nat.add_zero]
      exact (commanderTakeDamage_timers g damage now).1
  · simp [hhit]

/-- In phase 1 the special attack of a shoggoth boss makes a single ring, so
game over is triggered at most once by it. -/
theorem shoggoth_phase1_game_over_once (e : Enemy) (g : Game) (now : ℚ) (hp : e.phase = 1) :
    (e.performSpecialAttackShoggoth g now).gameOverTimers =
      g.gameOverTimers +
        (if e.withinRadius g.commander.x g.commander.y 100 = true ∧
            g.commander.health - e.damage / 2 ≤ 0 then 1 else 0) := by
  unfold Enemy.performSpecialAttackShoggoth
  simp only [hp, if_true]
  exact performAreaDamage_timers e g 100 (e.damage / 2) now

/-- C14 (the code at the failing input). A phase-2 shoggoth boss standing on a
commander with 30 health: the first ring (0.7 * 52) takes the commander below
0 and triggers game over, and the second ring hits the commander again and
triggers game over a second time. -/
theorem shoggoth_phase2_double_game_over :
    exampleBoss.phase = 2 ∧ exampleBoss.type = EnemyType.shoggoth ∧
      exampleBoss.isBoss = true ∧ exampleWounded.commander.health = 30 ∧
      (exampleBoss.performSpecialAttackShoggoth exampleWounded 1000).commander.health ≤ 0 ∧
      (exampleBoss.performSpecialAttackShoggoth exampleWounded 1000).gameOverTimers =
        exampleWounded.gameOverTimers + 2 := by
  decide!

/-- A frame on a playing game whose sweep does not run and whose commander is
at or below 0 after its own update: the commander has moved, game over is
triggered, and the rest of the frame is skipped. -/
theorem update_of_dead (sweep : Commander → List Enemy → ℚ → Commander × List Enemy)
    (rest : Game → Game) (g : Game) (now : ℚ) (hp : g.isPlaying = true)
    (hs : g.enemies = [] ∨
      (g.commander.moveAndRegen
        (g.getEnvironmentSpeedModifier g.commander.x g.commander.y) now).sweepOnCooldown now
          = true)
    (hh : (g.commander.moveAndRegen
      (g.getEnvironmentSpeedModifier g.commander.x g.commander.y) now).health ≤ 0) :
    Game.update sweep rest g now =
      Game.triggerGameOver
        { g with
          commander := g.commander.moveAndRegen
            (g.getEnvironmentSpeedModifier g.commander.x g.commander.y) now
          enemies := g.enemies } := by
  unfold Game.update
  simp only [hp, Bool.not_true, Bool.false_eq_true, if_false, hs, if_true, hh]

/-- Once `gameOver` has run, a frame changes nothing. -/
theorem update_after_gameOver (sweep : Commander → List Enemy → ℚ → Commander × List Enemy)
    (rest : Game → Game) (g : Game) (now : ℚ) :
    Game.update sweep rest g.gameOver now = g.gameOver := by
  simp [Game.update, Game.gameOver]

/-- C15 (the code at the failing input). After game over has been triggered
for a commander at -10 health, the next frame (16 ms later, the sweep still
cooling down) still runs: `isPlaying` is still true, the commander moves two
units to the right, and game over is triggered again. -/
theorem update_after_trigger_still_runs
    (sweep : Commander → List Enemy → ℚ → Commander × List Enemy) (rest : Game → Game) :
    exampleDead.commander.health = -10 ∧ exampleDead.gameOverTimers = 1 ∧
      exampleDead.isPlaying = true ∧
      (Game.update sweep rest exampleDead 1016).commander.x = exampleDead.commander.x + 2 ∧
      (Game.update sweep rest exampleDead 1016).gameOverTimers = 2 := by
  rw [update_of_dead sweep rest exampleDead 1016 (by decide!) (Or.inr (by decide!))
    (by decide!)]
  decide!

/-! ### Restart -/

/-- What `startGame` does reset: the level, the wave counters and the lists. -/
theorem startGame_resets (g : Game) :
    g.startGame.level = 1 ∧ g.startGame.enemiesDefeated = 0 ∧
      g.startGame.enemiesRequiredForWave = 10 ∧ g.startGame.waveCompleted = false ∧
      g.startGame.followers = [] ∧ g.startGame.enemies = [] ∧
      g.startGame.engineers = [] ∧ g.startGame.steamCores = [] ∧
      g.startGame.currentBoss = g.currentBoss ∧ g.startGame.bossDefeated = g.bossDefeated :=
  ⟨rfl, rfl, rfl, rfl, rfl, rfl, rfl, rfl, rfl, rfl⟩

/-- C16 (the code at the failing input). A game whose boss has been spawned
(`currentBoss` set) keeps that reference through `startGame`, although the
enemy list is emptied; and a game with `bossDefeated` true keeps it true.
After such a restart ten kills of ten neither spawn a boss nor complete the
wave. -/
theorem startGame_keeps_boss_state :
    (exampleGame.spawnBoss 0 2 7).currentBoss = some 7 ∧
      (Game.startGame (exampleGame.spawnBoss 0 2 7)).currentBoss = some 7 ∧
      (Game.startGame (exampleGame.spawnBoss 0 2 7)).enemies = [] ∧
      (Game.startGame { exampleGame with bossDefeated := true }).bossDefeated = true ∧
      (Game.checkWaveProgress
        { Game.startGame (exampleGame.spawnBoss 0 2 7) with enemiesDefeated := 10 }
        0 2 8).enemies = [] ∧
      (Game.checkWaveProgress
        { Game.startGame (exampleGame.spawnBoss 0 2 7) with enemiesDefeated := 10 }
        0 2 8).level = 1 := by
  decide!

/-! ### Pickup placement -/

theorem samplePosition_attempts (valid : ℚ → ℚ → Bool) (width height : ℚ)
    (draws : Nat → ℚ × ℚ) (fuel : Nat) :
    ∀ attempts : Nat,
      (samplePosition valid width height draws fuel attempts).2 ≤ attempts + fuel := by
  induction fuel with
  | zero => intro attempts; simp [samplePosition]
  | succ n ih =>
    intro attempts
    unfold samplePosition
    simp only
    split_ifs
    · simp
    · have := ih (attempts + 1)
      omega

/-- An accepted point passed the validity test and comes from one of the
draws of the loop. -/
theorem samplePosition_some (valid : ℚ → ℚ → Bool) (width height : ℚ)
    (draws : Nat → ℚ × ℚ) (fuel : Nat) :
    ∀ (attempts : Nat) (x y : ℚ),
      (samplePosition valid width height draws fuel attempts).1 = some (x, y) →
      valid x y = true ∧
        ∃ k : Nat, attempts ≤ k ∧ k < attempts + fuel ∧
          x = (draws k).1 * (width - 2 * 40) + 40 ∧
          y = (draws k).2 * (height - 2 * 40) + 40 := by
  induction fuel with
  | zero => intro attempts x y h; simp [samplePosition] at h
  | succ n ih =>
    intro attempts x y h
    unfold samplePosition at h
    simp only at h
    split_ifs at h with hv
    · simp only [Option.some.injEq, Prod.mk.injEq] at h
      obtain ⟨hx, hy⟩ := h
      subst hx hy
      exact ⟨hv, attempts, le_refl _, by omega, rfl, rfl⟩
    · obtain ⟨hval, k, hk1, hk2, hx, hy⟩ := ih (attempts + 1) x y h
      exact ⟨hval, k, by omega, by omega, hx, hy⟩

/-- No accepted point: every draw of the loop was rejected. -/
theorem samplePosition_none (valid : ℚ → ℚ → Bool) (width height : ℚ)
    (draws : Nat → ℚ × ℚ) (fuel : Nat) :
    ∀ attempts : Nat,
      (samplePosition valid width height draws fuel attempts).1 = none →
      ∀ k : Nat, attempts ≤ k → k < attempts + fuel →
        valid ((draws k).1 * (width - 2 * 40) + 40)
          ((draws k).2 * (height - 2 * 40) + 40) = false := by
  induction fuel with
  | zero => intro attempts _ k h1 h2; omega
  | succ n ih =>
    intro attempts h k h1 h2
    unfold samplePosition at h
    simp only at h
    split_ifs at h with hv
    by_cases hk : k = attempts
    · subst hk
      simpa using hv
    · exact ih (attempts + 1) h k (by omega) (by omega)

/-- A point that is not `tooClose` to an actor is at Euclidean distance at
least 100 from it. -/
theorem not_tooClose_iff (x y actorX actorY : ℚ) :
    tooClose x y actorX actorY = false ↔
      (100 : ℝ) ≤ Real.sqrt
        (((x - actorX) * (x - actorX) + (y - actorY) * (y - actorY) : ℚ) : ℝ) := by
  unfold tooClose
  rw [decide_eq_false_iff_not, not_lt, Real.le_sqrt' (by norm_num)]
  constructor
  · intro h
    have : ((100 * 100 : ℚ) : ℝ) ≤
        (((x - actorX) * (x - actorX) + (y - actorY) * (y - actorY) : ℚ) : ℝ) := by
      exact_mod_cast h
    calc (100 : ℝ) ^ 2 = ((100 * 100 : ℚ) : ℝ) := by norm_num
      _ ≤ _ := this
  · intro h
    have h2 : ((100 * 100 : ℚ) : ℝ) ≤
        (((x - actorX) * (x - actorX) + (y - actorY) * (y - actorY) : ℚ) : ℝ) := by
      calc ((100 * 100 : ℚ) : ℝ) = (100 : ℝ) ^ 2 := by norm_num
        _ ≤ _ := h
    exact_mod_cast h2

/-- Where `spawnEngineer` puts an engineer, it is at distance at least 100
from the commander, every follower and every uncollected engineer. -/
theorem engineer_placement_checked (g : Game) (draws : Nat → ℚ × ℚ)
    (classes : List SteamClass) (classDraw : ℚ) (x y : ℚ)
    (h : (samplePosition g.engineerSpotValid g.canvasWidth g.canvasHeight draws 50 0).1 =
      some (x, y)) :
    (g.spawnEngineer draws classes classDraw).engineers =
        g.engineers ++ [{ x := x, y := y, collected := false,
                          steamClass := selectWeightedSteamClass classes classDraw }] ∧
      tooClose x y g.commander.x g.commander.y = false ∧
      (∀ f ∈ g.followers, tooClose x y f.x f.y = false) ∧
      (∀ e ∈ g.engineers, e.collected = false → tooClose x y e.x e.y = false) := by
  have hv := (samplePosition_some _ _ _ _ 50 0 x y h).1
  simp only [Game.engineerSpotValid, Bool.and_eq_true, List.all_eq_true, Bool.or_eq_true,
    Bool.not_eq_true'] at hv
  refine ⟨by simp [Game.spawnEngineer, h], hv.1.2, hv.2, ?_⟩
  intro e he hc
  rcases hv.1.1 e he with h1 | h1
  · rw [hc] at h1; exact absurd h1 (by simp)
  · exact h1

/-- C17 (the code at the failing input). With a steam core at (100, 100) and
draws that sample the point (100, 100), `spawnEngineer` puts the engineer on
the core: steam cores are not among the actors it checks, while
`spawnSteamCore` rejects the same point. -/
theorem engineer_spawns_on_steam_core :
    ((exampleCoreGame.spawnEngineer (fun _ => (1 / 12, 3 / 26)) STEAM_CLASSES (1 / 2)).engineers.map
        (fun e => (e.x, e.y))) = [(100, 100)] ∧
      exampleCoreGame.steamCores.map (fun c => (c.x, c.y)) = [(100, 100)] ∧
      tooClose 100 100 100 100 = true ∧
      (exampleCoreGame.spawnSteamCore (fun _ => (1 / 12, 3 / 26)) 0).steamCores =
        exampleCoreGame.steamCores := by
  decide!

theorem sample_margin (r size : ℚ) (hsize : 80 ≤ size) (h0 : 0 ≤ r) (h1 : r < 1) :
    40 ≤ r * (size - 2 * 40) + 40 ∧ r * (size - 2 * 40) + 40 ≤ size - 40 := by
  have hpos : 0 ≤ size - 2 * 40 := by linarith
  constructor
  · have := mul_nonneg h0 hpos
    linarith
  · have : r * (size - 2 * 40) ≤ 1 * (size - 2 * 40) :=
      mul_le_mul_of_nonneg_right (le_of_lt h1) hpos
    linarith

/-- C18. On a canvas of at least 80 x 80 and with draws in [0, 1),
`spawnSteamCore` makes at most 50 sampling attempts and then either adds no
core, every sampled point having been rejected, or adds exactly one core,
which lies within the 40-unit margin and at distance at least 100 from every
existing steam core, every uncollected engineer, the commander and every
follower. -/
theorem steamCore_placement (g : Game) (draws : Nat → ℚ × ℚ) (typeIdx : Fin 3)
    (hw : 80 ≤ g.canvasWidth) (hh : 80 ≤ g.canvasHeight)
    (hd : ∀ k : Nat, 0 ≤ (draws k).1 ∧ (draws k).1 < 1 ∧ 0 ≤ (draws k).2 ∧ (draws k).2 < 1) :
    (samplePosition g.coreSpotValid g.canvasWidth g.canvasHeight draws 50 0).2 ≤ 50 ∧
      (((g.spawnSteamCore draws typeIdx).steamCores = g.steamCores ∧
          ∀ k : Nat, k < 50 →
            g.coreSpotValid ((draws k).1 * (g.canvasWidth - 2 * 40) + 40)
              ((draws k).2 * (g.canvasHeight - 2 * 40) + 40) = false) ∨
        ∃ core : Pickup,
          (g.spawnSteamCore draws typeIdx).steamCores = g.steamCores ++ [core] ∧
          40 ≤ core.x ∧ core.x ≤ g.canvasWidth - 40 ∧
          40 ≤ core.y ∧ core.y ≤ g.canvasHeight - 40 ∧
          (∀ c ∈ g.steamCores, (100 : ℝ) ≤ Real.sqrt
            (((core.x - c.x) * (core.x - c.x) + (core.y - c.y) * (core.y - c.y) : ℚ) : ℝ)) ∧
          (∀ e ∈ g.engineers, e.collected = false → (100 : ℝ) ≤ Real.sqrt
            (((core.x - e.x) * (core.x - e.x) + (core.y - e.y) * (core.y - e.y) : ℚ) : ℝ)) ∧
          (100 : ℝ) ≤ Real.sqrt
            (((core.x - g.commander.x) * (core.x - g.commander.x) +
              (core.y - g.commander.y) * (core.y - g.commander.y) : ℚ) : ℝ) ∧
          (∀ f ∈ g.followers, (100 : ℝ) ≤ Real.sqrt
            (((core.x - f.x) * (core.x - f.x) + (core.y - f.y) * (core.y - f.y) : ℚ) : ℝ))) := by
  refine ⟨by simpa using samplePosition_attempts g.coreSpotValid _ _ draws 50 0, ?_⟩
  cases hres : (samplePosition g.coreSpotValid g.canvasWidth g.canvasHeight draws 50 0).1 with
  | none =>
    left
    refine ⟨by simp [Game.spawnSteamCore, hres], ?_⟩
    intro k hk
    exact samplePosition_none _ _ _ _ 50 0 hres k (Nat.zero_le _) (by omega)
  | some pt =>
    obtain ⟨x, y⟩ := pt
    right
    obtain ⟨hv, k, _, _, hx, hy⟩ := samplePosition_some _ _ _ _ 50 0 x y hres
    simp only [Game.coreSpotValid, Bool.and_eq_true, List.all_eq_true, Bool.or_eq_true,
      Bool.not_eq_true'] at hv
    obtain ⟨⟨⟨hcores, hengs⟩, hcmd⟩, hfol⟩ := hv
    have hmx := sample_margin (draws k).1 g.canvasWidth hw (hd k).1 (hd k).2.1
    have hmy := sample_margin (draws k).2 g.canvasHeight hh (hd k).2.2.1 (hd k).2.2.2
    rw [← hx] at hmx
    rw [← hy] at hmy
    refine ⟨{ x := x, y := y, collected := false, coreType := some typeIdx },
      by simp [Game.spawnSteamCore, hres], hmx.1, hmx.2, hmy.1, hmy.2, ?_, ?_, ?_, ?_⟩
    · intro c hc
      exact (not_tooClose_iff x y c.x c.y).mp (hcores c hc)
    · intro e he hcol
      rcases hengs e he with h1 | h1
      · rw [hcol] at h1; exact absurd h1 (by simp)
      · exact (not_tooClose_iff x y e.x e.y).mp h1
    · exact (not_tooClose_iff x y _ _).mp hcmd
    · intro f hf
      exact (not_tooClose_iff x y f.x f.y).mp (hfol f hf)

/-- Witness for C18: the example game with one core, every draw at (1/2, 1/10). -/
theorem steamCore_placement_witness :
    (80 ≤ exampleCoreGame.canvasWidth ∧ 80 ≤ exampleCoreGame.canvasHeight) ∧
      (∀ k : Nat, 0 ≤ ((fun _ => ((1 / 2 : ℚ), (1 / 10 : ℚ))) k : ℚ × ℚ).1 ∧
        ((fun _ => ((1 / 2 : ℚ), (1 / 10 : ℚ))) k : ℚ × ℚ).1 < 1 ∧
        0 ≤ ((fun _ => ((1 / 2 : ℚ), (1 / 10 : ℚ))) k : ℚ × ℚ).2 ∧
        ((fun _ => ((1 / 2 : ℚ), (1 / 10 : ℚ))) k : ℚ × ℚ).2 < 1) ∧
      (samplePosition exampleCoreGame.coreSpotValid exampleCoreGame.canvasWidth
        exampleCoreGame.canvasHeight (fun _ => (1 / 2, 1 / 10)) 50 0).2 ≤ 50 :=
  ⟨by decide!, fun _ => by norm_num,
    (steamCore_placement exampleCoreGame (fun _ => (1 / 2, 1 / 10)) 0 (by decide!) (by decide!)
      (fun _ => by norm_num)).1⟩

/-! ### Follower movement -/

/-- C20. In the movement block of `Follower.update`, with `d` the distance to
the delayed target position `(tx, ty)` (the root that `sqrt` returns): when the history holds at least `followDelay = 5` entries and
`d > 0.5`, the follower moves along the line to the target by exactly
`min(speed, d * 0.5) * terrainModifier`; for a terrain modifier in (0, 1] that
step is at most `d / 2`, at least half of the way is left, and the target is
not reached; when `d <= 0.5` or the history is shorter, the position is
unchanged. -/
theorem follower_step {K : Type} [LinearOrderedField K] (sqrt : K → K)
    (x y speed speedModifier tx ty d : K) (positionHistory : List (K × K))
    (hsqrt : sqrt ((tx - x) * (tx - x) + (ty - y) * (ty - y)) = d)
    (hdd : d * d = (tx - x) * (tx - x) + (ty - y) * (ty - y)) :
    (positionHistory[4]? = some (tx, ty) → 1 / 2 < d →
      followerMove sqrt x y speed speedModifier positionHistory =
          (x + (tx - x) / d * (min speed (d * (1 / 2)) * speedModifier),
           y + (ty - y) / d * (min speed (d * (1 / 2)) * speedModifier)) ∧
        ((followerMove sqrt x y speed speedModifier positionHistory).1 - x) ^ 2 +
            ((followerMove sqrt x y speed speedModifier positionHistory).2 - y) ^ 2 =
          (min speed (d * (1 / 2)) * speedModifier) ^ 2 ∧
        (0 < speedModifier → speedModifier ≤ 1 →
          min speed (d * (1 / 2)) * speedModifier ≤ d / 2 ∧
          tx - (followerMove sqrt x y speed speedModifier positionHistory).1 =
            (1 - min speed (d * (1 / 2)) * speedModifier / d) * (tx - x) ∧
          ty - (followerMove sqrt x y speed speedModifier positionHistory).2 =
            (1 - min speed (d * (1 / 2)) * speedModifier / d) * (ty - y) ∧
          1 / 2 ≤ 1 - min speed (d * (1 / 2)) * speedModifier / d ∧
          followerMove sqrt x y speed speedModifier positionHistory ≠ (tx, ty))) ∧
      (positionHistory[4]? = some (tx, ty) → d ≤ 1 / 2 →
        followerMove sqrt x y speed speedModifier positionHistory = (x, y)) ∧
      (positionHistory.length < 5 →
        followerMove sqrt x y speed speedModifier positionHistory = (x, y)) := by
  refine ⟨?_, ?_, ?_⟩
  · intro ht hd
    have hlen : positionHistory.length ≥ 5 := by
      have := (List.getElem?_eq_some.mp ht).1
      omega
    have hdpos : 0 < d := lt_trans (by norm_num) hd
    have hdne : d ≠ 0 := ne_of_gt hdpos
    have hmove : followerMove sqrt x y speed speedModifier positionHistory =
        (x + (tx - x) / d * (min speed (d * (1 / 2)) * speedModifier),
         y + (ty - y) / d * (min speed (d * (1 / 2)) * speedModifier)) := by
      unfold followerMove
      simp only [hlen, if_true, ht, hsqrt]
      rw [if_pos hd]
    rw [hmove]
    refine ⟨rfl, ?_, ?_⟩
    · simp only [add_sub_cancel_left]
      have : ((tx - x) / d * (min speed (d * (1 / 2)) * speedModifier)) ^ 2 +
          ((ty - y) / d * (min speed (d * (1 / 2)) * speedModifier)) ^ 2 =
          ((tx - x) * (tx - x) + (ty - y) * (ty - y)) / (d * d) *
            (min speed (d * (1 / 2)) * speedModifier) ^ 2 := by
        field_simp
        ring
      rw [this, ← hdd, div_self (mul_ne_zero hdne hdne), one_mul]
    · intro hm0 hm1
      have hstep : min speed (d * (1 / 2)) * speedModifier ≤ d / 2 := by
        have hmin : min speed (d * (1 / 2)) ≤ d / 2 := by
          have := min_le_right speed (d * (1 / 2))
          linarith
        by_cases hneg : min speed (d * (1 / 2)) ≤ 0
        · have : min speed (d * (1 / 2)) * speedModifier ≤ 0 :=
            mul_nonpos_of_nonpos_of_nonneg hneg (le_of_lt hm0)
          linarith
        · have hpos : 0 ≤ min speed (d * (1 / 2)) := le_of_lt (not_le.mp hneg)
          have : min speed (d * (1 / 2)) * speedModifier ≤ min speed (d * (1 / 2)) * 1 :=
            mul_le_mul_of_nonneg_left hm1 hpos
          linarith
      have hfrac : min speed (d * (1 / 2)) * speedModifier / d ≤ 1 / 2 := by
        rw [div_le_iff₀ hdpos]
        linarith
      have hfac : 1 / 2 ≤ 1 - min speed (d * (1 / 2)) * speedModifier / d := by linarith
      refine ⟨hstep, by field_simp; ring, by field_simp; ring, hfac, ?_⟩
      intro heq
      simp only [Prod.mk.injEq] at heq
      have hx0 : (1 - min speed (d * (1 / 2)) * speedModifier / d) * (tx - x) = 0 := by
        have : tx - (x + (tx - x) / d * (min speed (d * (1 / 2)) * speedModifier)) = 0 := by
          rw [heq.1]; ring
        rw [← this]
        field_simp
        ring
      have hy0 : (1 - min speed (d * (1 / 2)) * speedModifier / d) * (ty - y) = 0 := by
        have : ty - (y + (ty - y) / d * (min speed (d * (1 / 2)) * speedModifier)) = 0 := by
          rw [heq.2]; ring
        rw [← this]
        field_simp
        ring
      have hfne : (1 - min speed (d * (1 / 2)) * speedModifier / d) ≠ 0 := by
        intro h0
        rw [h0] at hfac
        exact absurd hfac (by norm_num)
      have hdx : tx - x = 0 := (mul_eq_zero.mp hx0).resolve_left hfne
      have hdy : ty - y = 0 := (mul_eq_zero.mp hy0).resolve_left hfne
      rw [hdx, hdy] at hdd
      simp only [mul_zero, add_zero] at hdd
      exact hdne (mul_self_eq_zero.mp hdd)
  · intro ht hd
    have hlen : positionHistory.length ≥ 5 := by
      have := (List.getElem?_eq_some.mp ht).1
      omega
    unfold followerMove
    simp only [hlen, if_true, ht, hsqrt]
    rw [if_neg (not_lt.mpr hd)]
  · intro hlen
    unfold followerMove
    rw [if_neg (by omega)]

/-- Witness for C20: over the reals with `Real.sqrt`, a follower at the origin
with speed 2 on open ground, its delayed target at (3, 4), distance 5. -/
theorem follower_step_witness :
    Real.sqrt ((3 - 0) * (3 - 0) + (4 - 0) * (4 - 0)) = 5 ∧
      (5 : ℝ) * 5 = (3 - 0) * (3 - 0) + (4 - 0) * (4 - 0) ∧
      followerMove Real.sqrt 0 0 2 1 [(0, 0), (0, 0), (0, 0), (0, 0), (3, 4)] =
        (0 + (3 - 0) / 5 * (min 2 (5 * (1 / 2)) * 1),
         0 + (4 - 0) / 5 * (min 2 (5 * (1 / 2)) * 1)) :=
  ⟨by
      rw [show ((3 : ℝ) - 0) * (3 - 0) + (4 - 0) * (4 - 0) = 5 * 5 by norm_num]
      exact Real.sqrt_mul_self (by norm_num),
    by norm_num,
    ((follower_step Real.sqrt 0 0 2 1 3 4 5 [(0, 0), (0, 0), (0, 0), (0, 0), (3, 4)]
      (by
        rw [show ((3 : ℝ) - 0) * (3 - 0) + (4 - 0) * (4 - 0) = 5 * 5 by norm_num]
        exact Real.sqrt_mul_self (by norm_num))
      (by norm_num)).1 rfl (by norm_num)).1⟩

/-! ## Enemy spawning -/

/-- One iteration of the spawn loop changes neither the level nor the two
timing fields. -/
theorem spawnOne_keeps (g : Game) (d : SpawnDraws) :
    (g.spawnOne d).level = g.level ∧
    (g.spawnOne d).lastEnemySpawnTime = g.lastEnemySpawnTime ∧
    (g.spawnOne d).enemySpawnDelay = g.enemySpawnDelay ∧
    (g.spawnOne d).enemies.length = g.enemies.length + 1 := by
  simp [Game.spawnOne]

/-- The spawn loop keeps the level and adds one enemy per iteration. -/
theorem spawnLoop_keeps (draws : Nat → SpawnDraws) (k i : Nat) (g : Game) :
    (Game.spawnLoop draws k i g).level = g.level ∧
    (Game.spawnLoop draws k i g).enemies.length = g.enemies.length + k := by
  induction k generalizing i g with
  | zero => simp [Game.spawnLoop]
  | succ k ih =>
    simp only [Game.spawnLoop]
    obtain ⟨h1, h2⟩ := ih (i + 1) (g.spawnOne (draws i))
    obtain ⟨k1, -, -, k4⟩ := spawnOne_keeps g (draws i)
    rw [h1, h2, k1, k4]
    exact ⟨rfl, by omega⟩

/-- The spawn delay written by a call of `spawnEnemy` that passes the gate. -/
theorem spawnEnemy_delay_eq (g : Game) (draws : Nat → SpawnDraws) (now : ℚ)
    (h : ¬ now - g.lastEnemySpawnTime < g.enemySpawnDelay) :
    (g.spawnEnemy draws now).enemySpawnDelay = max 1000 (5000 - 500 * (g.level : ℚ)) := by
  simp only [Game.spawnEnemy, if_neg h]
  rw [(spawnLoop_keeps draws (min g.level 5) 0 g).1, mul_comm]

/-- C25. A call of `spawnEnemy` that is still inside the spawn delay
returns the game unchanged (no enemy added, no field written). A call that
passes the gate leaves `enemySpawnDelay = max(1000, 5000 - 500 * level)`: at
least 1000, exactly 1000 from level 8 on, and not larger at a higher level;
it stamps `lastEnemySpawnTime` and adds `min(level, 5)` enemies. -/
theorem spawnEnemy_delay (g : Game) (draws : Nat → SpawnDraws) (now : ℚ) :
    (now - g.lastEnemySpawnTime < g.enemySpawnDelay → g.spawnEnemy draws now = g) ∧
    (¬ now - g.lastEnemySpawnTime < g.enemySpawnDelay →
      (g.spawnEnemy draws now).enemySpawnDelay = max 1000 (5000 - 500 * (g.level : ℚ)) ∧
      1000 ≤ (g.spawnEnemy draws now).enemySpawnDelay ∧
      (8 ≤ g.level → (g.spawnEnemy draws now).enemySpawnDelay = 1000) ∧
      (g.spawnEnemy draws now).lastEnemySpawnTime = now ∧
      (g.spawnEnemy draws now).level = g.level ∧
      (g.spawnEnemy draws now).enemies.length = g.enemies.length + min g.level 5 ∧
      ∀ (g2 : Game) (draws2 : Nat → SpawnDraws) (now2 : ℚ),
        ¬ now2 - g2.lastEnemySpawnTime < g2.enemySpawnDelay → g.level ≤ g2.level →
        (g2.spawnEnemy draws2 now2).enemySpawnDelay ≤ (g.spawnEnemy draws now).enemySpawnDelay) := by
  refine ⟨fun h => by simp [Game.spawnEnemy, h], fun h => ?_⟩
  have hd := spawnEnemy_delay_eq g draws now h
  refine ⟨hd, ?_, ?_, ?_, ?_, ?_, ?_⟩
  · rw [hd]; exact le_max_left _ _
  · intro h8
    rw [hd]
    have : (8 : ℚ) ≤ (g.level : ℚ) := by exact_mod_cast h8
    exact max_eq_left (by linarith)
  · simp [Game.spawnEnemy, if_neg h]
  · simp only [Game.spawnEnemy, if_neg h]
    exact (spawnLoop_keeps draws (min g.level 5) 0 g).1
  · simp only [Game.spawnEnemy, if_neg h]
    exact (spawnLoop_keeps draws (min g.level 5) 0 g).2
  · intro g2 draws2 now2 h2 hle
    rw [hd, spawnEnemy_delay_eq g2 draws2 now2 h2]
    have : (g.level : ℚ) ≤ (g2.level : ℚ) := by exact_mod_cast hle
    exact max_le_max le_rfl (by linarith)

/-- A two-threshold choice among the three species, read back from its result. -/
theorem tier_iff (t1 t2 rand : ℚ) (h12 : t1 ≤ t2) :
    ((if rand < t1 then EnemyType.cultist
        else if rand < t2 then EnemyType.deep_one else EnemyType.shoggoth) = EnemyType.cultist ↔
      rand < t1) ∧
    ((if rand < t1 then EnemyType.cultist
        else if rand < t2 then EnemyType.deep_one else EnemyType.shoggoth) = EnemyType.deep_one ↔
      t1 ≤ rand ∧ rand < t2) ∧
    ((if rand < t1 then EnemyType.cultist
        else if rand < t2 then EnemyType.deep_one else EnemyType.shoggoth) = EnemyType.shoggoth ↔
      t2 ≤ rand) := by
  by_cases a : rand < t1
  · have b : rand < t2 := lt_of_lt_of_le a h12
    simp only [if_pos a]
    refine ⟨by simp [a], ?_, ?_⟩
    · constructor
      · intro h; cases h
      · rintro ⟨h, -⟩; exact absurd a (not_lt.mpr h)
    · constructor
      · intro h; cases h
      · intro h; exact absurd b (not_lt.mpr h)
  · by_cases b : rand < t2
    · simp only [if_neg a, if_pos b]
      refine ⟨?_, ?_, ?_⟩
      · constructor
        · intro h; cases h
        · intro h; exact absurd h a
      · simp [not_lt.mp a, b]
      · constructor
        · intro h; cases h
        · intro h; exact absurd b (not_lt.mpr h)
    · simp only [if_neg a, if_neg b]
      refine ⟨?_, ?_, ?_⟩
      · constructor
        · intro h; cases h
        · intro h; exact absurd h a
      · constructor
        · intro h; cases h
        · rintro ⟨-, h⟩; exact absurd h b
      · simp [not_lt.mp b]

/-- C28. The species `spawnEnemy` gives the enemy it pushes is decided
by the draw `rand` and the level: cultist below 0.7, deep_one below 0.9,
shoggoth otherwise at levels up to 2; thresholds 0.4 and 0.8 at levels 3 to 5;
thresholds 0.3 and 0.6 from level 6 on. For a fixed draw the species never
gets weaker when the level goes up. -/
theorem spawnEnemyType_tiers (g : Game) (d : SpawnDraws) :
    ((g.spawnOne d).enemies.getLast?.map (fun e => e.type) =
      some (spawnEnemyType g.level d.rand)) ∧
    (∀ (level : Nat) (rand : ℚ),
      (level ≤ 2 →
        (spawnEnemyType level rand = EnemyType.cultist ↔ rand < 7 / 10) ∧
        (spawnEnemyType level rand = EnemyType.deep_one ↔ 7 / 10 ≤ rand ∧ rand < 9 / 10) ∧
        (spawnEnemyType level rand = EnemyType.shoggoth ↔ 9 / 10 ≤ rand)) ∧
      (3 ≤ level ∧ level ≤ 5 →
        (spawnEnemyType level rand = EnemyType.cultist ↔ rand < 4 / 10) ∧
        (spawnEnemyType level rand = EnemyType.deep_one ↔ 4 / 10 ≤ rand ∧ rand < 8 / 10) ∧
        (spawnEnemyType level rand = EnemyType.shoggoth ↔ 8 / 10 ≤ rand)) ∧
      (6 ≤ level →
        (spawnEnemyType level rand = EnemyType.cultist ↔ rand < 3 / 10) ∧
        (spawnEnemyType level rand = EnemyType.deep_one ↔ 3 / 10 ≤ rand ∧ rand < 6 / 10) ∧
        (spawnEnemyType level rand = EnemyType.shoggoth ↔ 6 / 10 ≤ rand)) ∧
      ∀ k : Nat, (spawnEnemyType level rand).toughness ≤
        (spawnEnemyType (level + k) rand).toughness) := by
  refine ⟨by simp [Game.spawnOne, Enemy.new], fun level rand => ⟨?_, ?_, ?_, ?_⟩⟩
  · intro h
    unfold spawnEnemyType
    rw [if_pos h]
    exact tier_iff (7 / 10) (9 / 10) rand (by norm_num)
  · rintro ⟨h3, h5⟩
    unfold spawnEnemyType
    rw [if_neg (by omega), if_pos h5]
    exact tier_iff (4 / 10) (8 / 10) rand (by norm_num)
  · intro h6
    unfold spawnEnemyType
    rw [if_neg (by omega), if_neg (by omega)]
    exact tier_iff (3 / 10) (6 / 10) rand (by norm_num)
  · intro k
    unfold spawnEnemyType
    split_ifs <;> simp only [EnemyType.toughness, le_refl, Nat.zero_le, Nat.one_le_ofNat] <;>
      first | omega | linarith

/-! ### Basic attack targeting -/

theorem findClosest_eq_foldl (f : Follower) (enemies : List Enemy) :
    f.findClosest enemies = enemies.foldl (f.nearestStep f.attackRange) none := rfl

/-- One search step keeps the search invariant. -/
theorem isClosest_step (f : Follower) (range : ℚ) (seen : List Enemy) (acc : Option Enemy)
    (enemy : Enemy) (h : f.IsClosest range seen acc) :
    f.IsClosest range (seen ++ [enemy]) (f.nearestStep range acc enemy) := by
  unfold Follower.nearestStep
  by_cases hc : enemy.collected = true
  · rw [if_pos hc]
    cases acc with
    | none =>
      intro e he hce
      rcases List.mem_append.mp he with h1 | h1
      · exact h e h1 hce
      · rw [List.mem_singleton] at h1
        rw [h1, hc] at hce
        cases hce
    | some c =>
      obtain ⟨h1, h2, h3, h4⟩ := h
      refine ⟨List.mem_append_left _ h1, h2, h3, ?_⟩
      intro e he hce hre
      rcases List.mem_append.mp he with h5 | h5
      · exact h4 e h5 hce hre
      · rw [List.mem_singleton] at h5
        rw [h5, hc] at hce
        cases hce
  · rw [if_neg hc]
    have hc2 : enemy.collected = false := by simpa using hc
    by_cases hr : f.distLe enemy range = true
    · cases acc with
      | none =>
        simp only [hr, Bool.and_self, if_true]
        refine ⟨List.mem_append_right _ (List.mem_singleton.mpr rfl), hc2, hr, ?_⟩
        intro e he hce hre
        rcases List.mem_append.mp he with h5 | h5
        · rw [h e h5 hce] at hre
          cases hre
        · rw [List.mem_singleton] at h5
          rw [h5]
      | some c =>
        obtain ⟨h1, h2, h3, h4⟩ := h
        by_cases hlt : f.distSq enemy < f.distSq c
        · simp only [hr, hlt, decide_True, Bool.and_self, if_true]
          refine ⟨List.mem_append_right _ (List.mem_singleton.mpr rfl), hc2, hr, ?_⟩
          intro e he hce hre
          rcases List.mem_append.mp he with h5 | h5
          · exact le_trans (le_of_lt hlt) (h4 e h5 hce hre)
          · rw [List.mem_singleton] at h5
            rw [h5]
        · simp only [hr, hlt, decide_False, Bool.and_false, Bool.false_eq_true, if_false]
          refine ⟨List.mem_append_left _ h1, h2, h3, ?_⟩
          intro e he hce hre
          rcases List.mem_append.mp he with h5 | h5
          · exact h4 e h5 hce hre
          · rw [List.mem_singleton] at h5
            rw [h5]
            exact not_lt.mp hlt
    · have hr2 : f.distLe enemy range = false := by simpa using hr
      simp only [hr2, Bool.false_and, Bool.false_eq_true, if_false]
      cases acc with
      | none =>
        intro e he hce
        rcases List.mem_append.mp he with h1 | h1
        · exact h e h1 hce
        · rw [List.mem_singleton] at h1
          rw [h1]
          exact hr2
      | some c =>
        obtain ⟨h1, h2, h3, h4⟩ := h
        refine ⟨List.mem_append_left _ h1, h2, h3, ?_⟩
        intro e he hce hre
        rcases List.mem_append.mp he with h5 | h5
        · exact h4 e h5 hce hre
        · rw [List.mem_singleton] at h5
          rw [h5, hr2] at hre
          cases hre

/-- The search loop keeps the search invariant. -/
theorem isClosest_foldl (f : Follower) (range : ℚ) (l : List Enemy) :
    ∀ (seen : List Enemy) (acc : Option Enemy), f.IsClosest range seen acc →
      f.IsClosest range (seen ++ l) (l.foldl (f.nearestStep range) acc) := by
  induction l with
  | nil => intro seen acc h; simpa using h
  | cons a l ih =>
    intro seen acc h
    have := ih (seen ++ [a]) _ (isClosest_step f range seen acc a h)
    simpa using this

/-- The search loop of `updateAttack` returns a nearest uncollected enemy
within `attackRange`, or nothing when there is none. -/
theorem findClosest_isClosest (f : Follower) (enemies : List Enemy) :
    f.IsClosest f.attackRange enemies (f.findClosest enemies) := by
  have h := isClosest_foldl f f.attackRange enemies [] none
    (by intro e he; exact absurd he (List.not_mem_nil _))
  simpa [findClosest_eq_foldl] using h


/-- C21 (counterexample). With the cooldown elapsed and two
uncollected enemies in range, the nearer one already at health 0,
`updateAttack` strikes the one at health 0 (its health goes to -5) and leaves
the living one alone; and with only an enemy at health 0 in range the attack
still fires and stamps `lastAttackTime`. -/
theorem updateAttack_attacks_dead_counterexample :
    ¬ (5000 - exampleCaster.lastAttackTime < exampleCaster.attackSpeed) ∧
      exampleMixedEnemies.map (fun e => (e.id, e.health, e.collected)) =
        [(1, 0, false), (2, 10, false)] ∧
      exampleMixedEnemies.map (fun e => exampleCaster.isInRange e exampleCaster.attackRange) =
        [true, true] ∧
      (exampleCaster.updateAttack exampleMixedEnemies 5000).2.1.map
        (fun e => (e.id, e.health)) = [(1, -5), (2, 10)] ∧
      exampleCaster.lastAttackTime = 0 ∧
      (exampleCaster.updateAttack [{ exampleEnemy 1 10 with health := 0 }] 5000).1.lastAttackTime
        = 5000 := by
  decide!

/-- C21 (amended). With the cooldown elapsed and an enemy list without
repeated entries, `updateAttack` looks at the uncollected enemies within
`attackRange`, whatever their health. If there is one, it strikes exactly one
enemy `c`: `c` is uncollected, within `attackRange`, no uncollected enemy
within `attackRange` is strictly closer, the health of `c` drops by
`attackDamage`, every other enemy is untouched, and `lastAttackTime` becomes
the current time. If there is none, the enemy list and `lastAttackTime` are
unchanged. -/
theorem updateAttack_targets_nearest (f : Follower) (enemies : List Enemy) (now : ℚ)
    (hcool : ¬ now - f.lastAttackTime < f.attackSpeed)
    (hnd : (enemies.map Enemy.id).Nodup) :
    ((∃ e ∈ enemies, e.collected = false ∧ f.distLe e f.attackRange = true) →
      ∃ c ∈ enemies, c.collected = false ∧ f.distLe c f.attackRange = true ∧
        (∀ e ∈ enemies, e.collected = false → f.distLe e f.attackRange = true →
          ¬ f.distSq e < f.distSq c) ∧
        (f.updateAttack enemies now).2.1 = enemies.map
          (fun e => if e.id = c.id then { e with health := e.health - f.attackDamage } else e) ∧
        healthOf c.id (f.updateAttack enemies now).2.1 = some (c.health - f.attackDamage) ∧
        (∀ e ∈ enemies, e.id ≠ c.id →
          healthOf e.id (f.updateAttack enemies now).2.1 = some e.health) ∧
        (f.updateAttack enemies now).1.lastAttackTime = now) ∧
    ((∀ e ∈ enemies, e.collected = false → f.distLe e f.attackRange = false) →
      (f.updateAttack enemies now).2.1 = enemies ∧
      (f.updateAttack enemies now).1.lastAttackTime = f.lastAttackTime) := by
  have hspec := findClosest_isClosest f enemies
  unfold Follower.updateAttack
  rw [if_neg hcool]
  cases hfc : f.findClosest enemies with
  | none =>
    rw [hfc] at hspec
    constructor
    · rintro ⟨e, he, hce, hre⟩
      rw [hspec e he hce] at hre
      cases hre
    · intro _
      exact ⟨rfl, rfl⟩
  | some c =>
    rw [hfc] at hspec
    obtain ⟨h1, h2, h3, h4⟩ := hspec
    constructor
    · intro _
      refine ⟨c, h1, h2, h3, fun e he hce hre => not_lt.mpr (h4 e he hce hre), rfl, ?_, ?_, rfl⟩
      · show healthOf c.id (applyStrike enemies (c.id, f.attackDamage)) = _
        rw [healthOf_applyStrike, if_pos rfl, healthOf_mem c enemies hnd h1]
        rfl
      · intro e he hne
        show healthOf e.id (applyStrike enemies (c.id, f.attackDamage)) = _
        rw [healthOf_applyStrike, if_neg (fun h => hne h.symm), healthOf_mem e enemies hnd he]
    · intro hnone
      rw [hnone c h1 h2] at h3
      cases h3

/-- Witness for C21: the example caster facing an enemy at health 0 at
distance 10 and a living enemy at distance 20. -/
theorem updateAttack_targets_nearest_witness :
    ¬ (5000 - exampleCaster.lastAttackTime < exampleCaster.attackSpeed) ∧
      (exampleMixedEnemies.map Enemy.id).Nodup ∧
      ∃ c ∈ exampleMixedEnemies, c.collected = false ∧
        exampleCaster.distLe c exampleCaster.attackRange = true ∧
        (∀ e ∈ exampleMixedEnemies, e.collected = false →
          exampleCaster.distLe e exampleCaster.attackRange = true →
          ¬ exampleCaster.distSq e < exampleCaster.distSq c) ∧
        (exampleCaster.updateAttack exampleMixedEnemies 5000).2.1 = exampleMixedEnemies.map
          (fun e =>
            if e.id = c.id then { e with health := e.health - exampleCaster.attackDamage }
            else e) ∧
        healthOf c.id (exampleCaster.updateAttack exampleMixedEnemies 5000).2.1 =
          some (c.health - exampleCaster.attackDamage) ∧
        (∀ e ∈ exampleMixedEnemies, e.id ≠ c.id →
          healthOf e.id (exampleCaster.updateAttack exampleMixedEnemies 5000).2.1 =
            some e.health) ∧
        (exampleCaster.updateAttack exampleMixedEnemies 5000).1.lastAttackTime = 5000 :=
  ⟨by decide!, by decide!,
    (updateAttack_targets_nearest exampleCaster exampleMixedEnemies 5000
      (by decide!) (by decide!)).1 ⟨exampleEnemy 2 20, by decide!, by decide!⟩⟩

/-! ### Wave-completion heal -/

/-- C26 (counterexample). A follower at health 0 that is still in
the list when the wave completes comes out of `completeWave` with health 10. -/
theorem completeWave_heals_dead_counterexample :
    ChainInvariant exampleFallen.followers ∧
      exampleFallen.followers.map (fun f => (f.health, f.isDead)) = [(50, false), (0, true)] ∧
      exampleFallen.completeWave.followers.map (fun f => (f.health, f.isDead)) =
        [(50, false), (10, false)] := by
  decide!

/-- C26 (amended). `completeWave` sets the commander's health to
`min(maxHealth, health + 20)` and the health of every follower in the list,
living or not, to `min(maxHealth, health + 10)`; nothing else of a follower
changes and the list keeps its order. In particular a follower at health 0
with `maxHealth` at least 10 leaves the call with health 10. -/
theorem completeWave_heals_all (g : Game) :
    g.completeWave.commander.health = min g.commander.maxHealth (g.commander.health + 20) ∧
    g.completeWave.followers.length = g.followers.length ∧
    ∀ (i : Nat) (f : Follower), g.followers[i]? = some f →
      g.completeWave.followers[i]? =
          some { f with health := min f.maxHealth (f.health + 10) } ∧
        (f.health = 0 → 10 ≤ f.maxHealth →
          (g.completeWave.followers[i]?).map Follower.health = some 10) := by
  refine ⟨rfl, by simp [Game.completeWave], ?_⟩
  intro i f hf
  have h1 : g.completeWave.followers[i]? =
      some { f with health := min f.maxHealth (f.health + 10) } := by
    simp [Game.completeWave, List.getElem?_map, hf]
  refine ⟨h1, ?_⟩
  intro h0 hmax
  rw [h1, h0]
  simp [hmax]

/-! ### Chain-lightning fallback -/

/-- The identities struck by a cast with at least one target in range: the
in-range targets, then as many not-yet-struck enemies of the secondary range
as the remaining jump budget allows. -/
theorem chainLightningStrikes_fallback (f : Follower) (enemies : List Enemy)
    (hnd : (enemies.map Enemy.id).Nodup) (hT : chainTargets f enemies ≠ []) :
    ∃ secondary : List Enemy,
      (chainLightningStrikes f enemies).map Prod.fst =
        (chainTargets f enemies).map Enemy.id ++ secondary.map Enemy.id ∧
      secondary.length = min (5 - (chainTargets f enemies).length)
        (enemies.filter (fun e => decide (e.id ∉ (chainTargets f enemies).map Enemy.id) &&
          f.distLe e (f.attackRange * (3 / 2)))).length ∧
      ∀ e ∈ secondary, e ∈ enemies.filter
        (fun e => decide (e.id ∉ (chainTargets f enemies).map Enemy.id) &&
          f.distLe e (f.attackRange * (3 / 2))) := by
  obtain ⟨htnd, _, htlen⟩ := chainTargets_props f enemies hnd
  cases hT2 : chainTargets f enemies with
  | nil => exact absurd hT2 hT
  | cons p others =>
    have hcl : chainLightningStrikes f enemies =
        (List.foldl (branchStep (f.attackDamage * (6 / 5)))
          { hitEnemies := [p.id], lastX := p.x, lastY := p.y, remainingJumps := 4,
            strikes := [(p.id, f.attackDamage * (6 / 5))] } others).strikes ++
        secondaryStrikes f enemies (f.attackDamage * (6 / 5))
          (List.foldl (branchStep (f.attackDamage * (6 / 5)))
            { hitEnemies := [p.id], lastX := p.x, lastY := p.y, remainingJumps := 4,
              strikes := [(p.id, f.attackDamage * (6 / 5))] } others) := by
      unfold chainLightningStrikes
      rw [hT2]
    rw [hcl]
    rw [hT2] at htnd htlen
    simp only [List.map_cons, List.nodup_cons] at htnd
    simp only [List.length_cons] at htlen
    have hfold := foldl_branchStep (f.attackDamage * (6 / 5)) others
      { hitEnemies := [p.id], lastX := p.x, lastY := p.y, remainingJumps := 4,
        strikes := [(p.id, f.attackDamage * (6 / 5))] }
      htnd.2
      (by
        intro e he
        simp only [List.mem_singleton]
        intro heq
        exact htnd.1 (heq ▸ List.mem_map_of_mem Enemy.id he))
      (by show others.length ≤ 4; omega)
    simp only at hfold
    obtain ⟨hs, hh, hr⟩ := hfold
    generalize hst : List.foldl (branchStep (f.attackDamage * (6 / 5)))
      { hitEnemies := [p.id], lastX := p.x, lastY := p.y, remainingJumps := 4,
        strikes := [(p.id, f.attackDamage * (6 / 5))] } others = st1 at hs hh hr ⊢
    have hids : [p.id] ++ List.map Enemy.id others = List.map Enemy.id (p :: others) := rfl
    rw [hids] at hh
    by_cases hpos : st1.remainingJumps > 0
    · refine ⟨(sortByKey (fun a => (a.x - st1.lastX) ^ 2 + (a.y - st1.lastY) ^ 2)
          (enemies.filter (fun e => decide (e.id ∉ List.map Enemy.id (p :: others)) &&
            f.distLe e (f.attackRange * (3 / 2))))).take st1.remainingJumps, ?_, ?_, ?_⟩
      · simp only [secondaryStrikes, hpos, if_true, hs, hh]
        simp [Function.comp_def]
      · rw [List.length_take, (sortByKey_perm _ _).length_eq, hr]
        simp only [List.length_cons]
        congr 1
        omega
      · intro e he
        exact (sortByKey_perm _ _).mem_iff.mp (List.mem_of_mem_take he)
    · refine ⟨[], ?_, ?_, by simp⟩
      · simp only [secondaryStrikes, hpos, if_false, hs]
        simp [Function.comp_def]
      · have h0 : 5 - (p :: others).length = 0 := by
          simp only [List.length_cons]
          omega
        rw [h0]
        simp

/-- C27 (counterexample). No enemy is within `attackRange` (so
fewer than 5 are), one unstruck enemy is within 1.5 times `attackRange`, and
the cast strikes nothing. -/
theorem chainLightning_fallback_counterexample :
    ([exampleEnemy 1 120].filter
        (fun e => exampleCaster.isInRange e exampleCaster.attackRange)).length = 0 ∧
      exampleCaster.distLe (exampleEnemy 1 120) (exampleCaster.attackRange * (3 / 2)) = true ∧
      chainLightningStrikes exampleCaster [exampleEnemy 1 120] = [] ∧
      exampleCaster.chainLightningAttack [exampleEnemy 1 120] = [exampleEnemy 1 120] := by
  decide!

/-- C27 (amended). On an enemy list without repeated entries: a cast
never strikes more than 5 enemies; with no enemy within `attackRange` it
strikes nothing, whatever lies in the secondary range; with at least one and
fewer than 5 enemies within `attackRange` it strikes every one of them and
then enemies beyond `attackRange` but within 1.5 times `attackRange`, until 5
enemies have been struck in total or none of those remains. -/
theorem chainLightning_fallback (f : Follower) (enemies : List Enemy)
    (hnd : (enemies.map Enemy.id).Nodup) :
    (chainLightningStrikes f enemies).length ≤ 5 ∧
    (enemies.filter (fun e => f.isInRange e f.attackRange) = [] →
      chainLightningStrikes f enemies = []) ∧
    (1 ≤ (enemies.filter (fun e => f.isInRange e f.attackRange)).length →
      (enemies.filter (fun e => f.isInRange e f.attackRange)).length < 5 →
      (chainLightningStrikes f enemies).length =
        min 5 ((enemies.filter (fun e => f.isInRange e f.attackRange)).length +
          (enemies.filter (fun e => !f.isInRange e f.attackRange &&
            f.distLe e (f.attackRange * (3 / 2)))).length) ∧
      (∀ e ∈ enemies, f.isInRange e f.attackRange = true →
        e.id ∈ (chainLightningStrikes f enemies).map Prod.fst) ∧
      (∀ s ∈ chainLightningStrikes f enemies, ∃ e ∈ enemies, e.id = s.1 ∧
        (f.isInRange e f.attackRange = true ∨
          f.distLe e (f.attackRange * (3 / 2)) = true))) := by
  refine ⟨?_, ?_, ?_⟩
  · obtain ⟨secondary, heq, -, -, hlen, -⟩ := chainLightningStrikes_eq f enemies hnd
    rw [heq]
    revert hlen
    cases chainTargets f enemies with
    | nil => intro hlen; simpa using hlen
    | cons p others =>
      intro hlen
      simp only [List.length_cons, List.length_append, List.length_map] at hlen ⊢
      omega
  · intro hnil
    simp [chainLightningStrikes, chainTargets, hnil, sortByKey]
  · intro h1 h5
    have hsorted : chainTargets f enemies =
        sortByKey f.distSq (enemies.filter (fun e => f.isInRange e f.attackRange)) := by
      unfold chainTargets
      apply List.take_of_length_le
      rw [(sortByKey_perm _ _).length_eq]
      omega
    have hmemT : ∀ e, e ∈ chainTargets f enemies ↔
        e ∈ enemies ∧ f.isInRange e f.attackRange = true := by
      intro e
      rw [hsorted, (sortByKey_perm _ _).mem_iff, List.mem_filter]
    have hlenT : (chainTargets f enemies).length =
        (enemies.filter (fun e => f.isInRange e f.attackRange)).length := by
      rw [hsorted, (sortByKey_perm _ _).length_eq]
    have hne : chainTargets f enemies ≠ [] := by
      intro h
      rw [h] at hlenT
      simp only [List.length_nil] at hlenT
      omega
    have hpred : ∀ e ∈ enemies,
        (decide (e.id ∉ (chainTargets f enemies).map Enemy.id) &&
          f.distLe e (f.attackRange * (3 / 2))) =
        (!f.isInRange e f.attackRange && f.distLe e (f.attackRange * (3 / 2))) := by
      intro e he
      congr 1
      by_cases hin : f.isInRange e f.attackRange = true
      · have : e.id ∈ (chainTargets f enemies).map Enemy.id :=
          List.mem_map_of_mem Enemy.id ((hmemT e).mpr ⟨he, hin⟩)
        simp [this, hin]
      · have : e.id ∉ (chainTargets f enemies).map Enemy.id := by
          intro hmem
          obtain ⟨t, ht, hid⟩ := List.mem_map.mp hmem
          have ht2 := (hmemT t).mp ht
          have hte : t = e := List.inj_on_of_nodup_map hnd ht2.1 he hid
          rw [hte] at ht2
          exact hin ht2.2
        simp [this, hin]
    obtain ⟨secondary, hidsEq, hslen, hsmem⟩ := chainLightningStrikes_fallback f enemies hnd hne
    rw [List.filter_congr hpred] at hslen hsmem
    refine ⟨?_, ?_, ?_⟩
    · have hl : (chainLightningStrikes f enemies).length =
          (chainTargets f enemies).length + secondary.length := by
        have := congrArg List.length hidsEq
        simpa using this
      rw [hl, hslen, hlenT]
      omega
    · intro e he hin
      rw [hidsEq]
      exact List.mem_append_left _ (List.mem_map_of_mem Enemy.id ((hmemT e).mpr ⟨he, hin⟩))
    · intro s hs
      have hs1 : s.1 ∈ (chainLightningStrikes f enemies).map Prod.fst :=
        List.mem_map_of_mem Prod.fst hs
      rw [hidsEq] at hs1
      rcases List.mem_append.mp hs1 with h | h
      · obtain ⟨t, ht, hid⟩ := List.mem_map.mp h
        have ht2 := (hmemT t).mp ht
        exact ⟨t, ht2.1, hid, Or.inl ht2.2⟩
      · obtain ⟨t, ht, hid⟩ := List.mem_map.mp h
        have ht2 := List.mem_filter.mp (hsmem t ht)
        have ht3 := ht2.2
        simp only [Bool.and_eq_true] at ht3
        exact ⟨t, ht2.1, hid, Or.inr ht3.2⟩

/-- Witness for C27: one enemy in range and two in the secondary range; the
cast strikes all three, the in-range one first. -/
theorem chainLightning_fallback_witness :
    (exampleSpread.map Enemy.id).Nodup ∧
      (exampleSpread.filter
        (fun e => exampleCaster.isInRange e exampleCaster.attackRange)).length = 1 ∧
      (chainLightningStrikes exampleCaster exampleSpread).map Prod.fst = [2, 1, 3] ∧
      (chainLightningStrikes exampleCaster exampleSpread).length =
        min 5 ((exampleSpread.filter
            (fun e => exampleCaster.isInRange e exampleCaster.attackRange)).length +
          (exampleSpread.filter (fun e => !exampleCaster.isInRange e exampleCaster.attackRange &&
            exampleCaster.distLe e (exampleCaster.attackRange * (3 / 2)))).length) :=
  ⟨by decide!, by decide!, by decide!,
    ((chainLightning_fallback exampleCaster exampleSpread (by decide!)).2.2
      (by decide!) (by decide!)).1⟩

/-! ### Special attacks -/

/-- The basic attack never writes the special-attack timer. -/
theorem updateAttack_keeps_specialTimer (f : Follower) (enemies : List Enemy) (now : ℚ) :
    (f.updateAttack enemies now).1.specialAttackTimer = f.specialAttackTimer := by
  unfold Follower.updateAttack
  split_ifs
  · rfl
  · cases f.findClosest enemies <;> rfl

/-- For every style but the sword sweep the special attack leaves the
basic-attack timer alone. -/
theorem performSpecialAttack_keeps_basicTimer {Ω : Type}
    (sweepArc : Follower → Enemy → SpecialWorld Ω → ℚ → SpecialWorld Ω)
    (body : AttackStyle → Follower → SpecialWorld Ω → ℚ → SpecialWorld Ω)
    (f : Follower) (w : SpecialWorld Ω) (now : ℚ)
    (hstyle : f.attackStyle ≠ AttackStyle.SWORD_SWEEP) :
    (f.performSpecialAttack sweepArc body w now).1.lastAttackTime = f.lastAttackTime := by
  unfold Follower.performSpecialAttack
  split_ifs
  · rfl
  · cases hs : f.attackStyle <;> first | exact absurd hs hstyle | rfl

/-- The sword sweep as a special attack writes the basic-attack timer when it
lands and is skipped while the basic attack is cooling down. -/
theorem swordSweep_cases {Ω : Type}
    (sweepArc : Follower → Enemy → SpecialWorld Ω → ℚ → SpecialWorld Ω)
    (attacker : Follower) (w : SpecialWorld Ω) (now : ℚ) :
    (now - attacker.lastAttackTime <
        (if attacker.attackSpeed = 0 then 800 else attacker.attackSpeed) →
      performSwordSweepAttack sweepArc attacker w now = (attacker, w)) ∧
    (∀ nearestEnemy : Enemy, w.enemies ≠ [] →
      ¬ now - attacker.lastAttackTime <
        (if attacker.attackSpeed = 0 then 800 else attacker.attackSpeed) →
      w.enemies.foldl
        (attacker.nearestStep (if attacker.attackRange = 0 then 80 else attacker.attackRange))
        none = some nearestEnemy →
      performSwordSweepAttack sweepArc attacker w now =
        ({ attacker with lastAttackTime := now }, sweepArc attacker nearestEnemy w now)) ∧
    (w.enemies.foldl
        (attacker.nearestStep (if attacker.attackRange = 0 then 80 else attacker.attackRange))
        none = none →
      performSwordSweepAttack sweepArc attacker w now = (attacker, w)) := by
  refine ⟨?_, ?_, ?_⟩
  · intro h
    unfold performSwordSweepAttack
    by_cases he : w.enemies = []
    · rw [if_pos he]
    · rw [if_neg he]
      exact if_pos h
  · intro nearestEnemy hne hcool hnear
    unfold performSwordSweepAttack
    rw [if_neg hne]
    refine (if_neg hcool).trans ?_
    simp only [hnear]
  · intro hnear
    unfold performSwordSweepAttack
    by_cases he : w.enemies = []
    · rw [if_pos he]
    · rw [if_neg he]
      by_cases hc : now - attacker.lastAttackTime <
          (if attacker.attackSpeed = 0 then 800 else attacker.attackSpeed)
      · exact if_pos hc
      · refine (if_neg hc).trans ?_
        simp only [hnear]

/-- C22 (the code at the failing input). A Warrior facing one enemy at
distance 10, with the special attack due at time 5000. If the Warrior has not
attacked yet, the special attack lands and moves `lastAttackTime` from 0 to
5000. If its last basic attack was at time 4500, the special attack is
skipped (the world is unchanged) although `specialAttackTimer` is still
stamped: whether the sweep fires depends on when the last basic attack
happened. -/
theorem swordSweep_special_uses_basic_timer {Ω : Type}
    (sweepArc : Follower → Enemy → SpecialWorld Ω → ℚ → SpecialWorld Ω)
    (body : AttackStyle → Follower → SpecialWorld Ω → ℚ → SpecialWorld Ω) (rest : Ω) :
    exampleWarrior.lastAttackTime = 0 ∧
    exampleWarrior.performSpecialAttack sweepArc body ⟨[exampleEnemy 1 10], rest⟩ 5000 =
      ({ exampleWarrior with lastAttackTime := 5000, specialAttackTimer := 5000 },
        sweepArc exampleWarrior (exampleEnemy 1 10) ⟨[exampleEnemy 1 10], rest⟩ 5000) ∧
    Follower.performSpecialAttack sweepArc body { exampleWarrior with lastAttackTime := 4500 }
        ⟨[exampleEnemy 1 10], rest⟩ 5000 =
      ({ exampleWarrior with lastAttackTime := 4500, specialAttackTimer := 5000 },
        ⟨[exampleEnemy 1 10], rest⟩) := by
  refine ⟨rfl, ?_, ?_⟩
  · have hgate : ¬ ((5000 : ℚ) - exampleWarrior.specialAttackTimer <
        exampleWarrior.specialCooldown) := by decide!
    have hsweep := (swordSweep_cases sweepArc exampleWarrior
      ⟨[exampleEnemy 1 10], rest⟩ 5000).2.1 (exampleEnemy 1 10)
      (by simp) (by decide!)
      (by
        show List.foldl
          (exampleWarrior.nearestStep
            (if exampleWarrior.attackRange = 0 then 80 else exampleWarrior.attackRange))
          none [exampleEnemy 1 10] = some (exampleEnemy 1 10)
        decide!)
    unfold Follower.performSpecialAttack
    rw [if_neg hgate]
    show ({ (performSwordSweepAttack sweepArc exampleWarrior
      ⟨[exampleEnemy 1 10], rest⟩ 5000).1 with specialAttackTimer := 5000 },
      (performSwordSweepAttack sweepArc exampleWarrior ⟨[exampleEnemy 1 10], rest⟩ 5000).2) = _
    rw [hsweep]
  · have hgate : ¬ ((5000 : ℚ) -
        ({ exampleWarrior with lastAttackTime := 4500 } : Follower).specialAttackTimer <
        ({ exampleWarrior with lastAttackTime := 4500 } : Follower).specialCooldown) := by
      decide!
    have hsweep := (swordSweep_cases sweepArc { exampleWarrior with lastAttackTime := 4500 }
      ⟨[exampleEnemy 1 10], rest⟩ 5000).1 (by decide!)
    unfold Follower.performSpecialAttack
    rw [if_neg hgate]
    show ({ (performSwordSweepAttack sweepArc { exampleWarrior with lastAttackTime := 4500 }
      ⟨[exampleEnemy 1 10], rest⟩ 5000).1 with specialAttackTimer := 5000 },
      (performSwordSweepAttack sweepArc { exampleWarrior with lastAttackTime := 4500 }
        ⟨[exampleEnemy 1 10], rest⟩ 5000).2) = _
    rw [hsweep]

/-- The special attack of a sword-sweep follower past its own gate is the
global sweep function followed by the stamp of `specialAttackTimer`. -/
theorem performSpecialAttack_sweep {Ω : Type}
    (sweepArc : Follower → Enemy → SpecialWorld Ω → ℚ → SpecialWorld Ω)
    (body : AttackStyle → Follower → SpecialWorld Ω → ℚ → SpecialWorld Ω)
    (f : Follower) (w : SpecialWorld Ω) (now : ℚ)
    (hstyle : f.attackStyle = AttackStyle.SWORD_SWEEP)
    (hgate : ¬ now - f.specialAttackTimer < f.specialCooldown) :
    f.performSpecialAttack sweepArc body w now =
      ({ (performSwordSweepAttack sweepArc f w now).1 with specialAttackTimer := now },
        (performSwordSweepAttack sweepArc f w now).2) := by
  unfold Follower.performSpecialAttack
  rw [if_neg hgate]
  simp only [hstyle]

/-- Inside `Follower.update` the basic attack runs just before the special
attack, at the same time. For a sword-sweep follower (attack speed and range
as the constructor sets them, non-zero) the special attack then never reaches
its arc: either the basic attack has just stamped `lastAttackTime`, or it is
itself cooling down, or no enemy is in range; the world stays as the basic
attack left it. -/
theorem swordSweep_special_never_lands {Ω : Type}
    (sweepArc : Follower → Enemy → SpecialWorld Ω → ℚ → SpecialWorld Ω)
    (body : AttackStyle → Follower → SpecialWorld Ω → ℚ → SpecialWorld Ω)
    (f : Follower) (enemies : List Enemy) (rest : Ω) (now : ℚ)
    (hstyle : f.attackStyle = AttackStyle.SWORD_SWEEP) (hspeed : 0 < f.attackSpeed)
    (hrange : f.attackRange ≠ 0) :
    (Follower.performSpecialAttack sweepArc body (f.updateAttack enemies now).1
      ⟨(f.updateAttack enemies now).2.1, rest⟩ now).2 =
      ⟨(f.updateAttack enemies now).2.1, rest⟩ := by
  have hstyle2 : (f.updateAttack enemies now).1.attackStyle = AttackStyle.SWORD_SWEEP := by
    rw [← hstyle]
    unfold Follower.updateAttack
    split_ifs
    · rfl
    · cases f.findClosest enemies <;> rfl
  have hsp : (f.updateAttack enemies now).1.attackSpeed = f.attackSpeed := by
    unfold Follower.updateAttack
    split_ifs
    · rfl
    · cases f.findClosest enemies <;> rfl
  by_cases hgate : now - (f.updateAttack enemies now).1.specialAttackTimer <
      (f.updateAttack enemies now).1.specialCooldown
  · unfold Follower.performSpecialAttack
    rw [if_pos hgate]
  · rw [performSpecialAttack_sweep sweepArc body _ _ now hstyle2 hgate]
    show (performSwordSweepAttack sweepArc (f.updateAttack enemies now).1
      ⟨(f.updateAttack enemies now).2.1, rest⟩ now).2 = _
    have hcases := swordSweep_cases sweepArc (f.updateAttack enemies now).1
      ⟨(f.updateAttack enemies now).2.1, rest⟩ now
    rw [hsp, if_neg (ne_of_gt hspeed)] at hcases
    by_cases hcool : now - f.lastAttackTime < f.attackSpeed
    · have hu : f.updateAttack enemies now = (f, enemies, []) := by
        unfold Follower.updateAttack
        rw [if_pos hcool]
      rw [hu] at hcases ⊢
      rw [hcases.1 hcool]
    · cases hfc : f.findClosest enemies with
      | some c =>
        have hu : (f.updateAttack enemies now).1.lastAttackTime = now := by
          unfold Follower.updateAttack
          rw [if_neg hcool, hfc]
        rw [hcases.1 (by rw [hu, sub_self]; exact hspeed)]
      | none =>
        have hu : f.updateAttack enemies now =
            ({ f with attackTarget := none }, enemies, []) := by
          unfold Follower.updateAttack
          rw [if_neg hcool, hfc]
        rw [hu] at hcases ⊢
        have hnear : List.foldl
            (Follower.nearestStep { f with attackTarget := none }
              (if ({ f with attackTarget := none } : Follower).attackRange = 0 then 80
                else ({ f with attackTarget := none } : Follower).attackRange))
            none enemies = none := by
          rw [if_neg hrange]
          exact hfc
        rw [hcases.2.2 hnear]

/-- C23. With the constructor's `specialAttackCooldown` of 5000, the
cooldown of `performSpecialAttack` is 2000 for SWORD_SWEEP, 1500 for
AETHER_BEAM and 5000 for every other style. A call at a time `now` with
`now - specialAttackTimer` below the cooldown returns the follower and the
world (enemies, effects, mines) exactly as they were; any other call leaves
`specialAttackTimer = now`. -/
theorem performSpecialAttack_gate {Ω : Type}
    (sweepArc : Follower → Enemy → SpecialWorld Ω → ℚ → SpecialWorld Ω)
    (body : AttackStyle → Follower → SpecialWorld Ω → ℚ → SpecialWorld Ω)
    (f : Follower) (w : SpecialWorld Ω) (now : ℚ)
    (hcd : f.specialAttackCooldown = 5000) :
    (f.specialCooldown =
      match f.attackStyle with
      | AttackStyle.SWORD_SWEEP => 2000
      | AttackStyle.AETHER_BEAM => 1500
      | _ => 5000) ∧
    (now - f.specialAttackTimer < f.specialCooldown →
      f.performSpecialAttack sweepArc body w now = (f, w)) ∧
    (¬ now - f.specialAttackTimer < f.specialCooldown →
      (f.performSpecialAttack sweepArc body w now).1.specialAttackTimer = now) := by
  refine ⟨?_, ?_, ?_⟩
  · unfold Follower.specialCooldown
    cases hs : f.attackStyle <;> simp [hcd]
  · intro h
    unfold Follower.performSpecialAttack
    rw [if_pos h]
  · intro h
    unfold Follower.performSpecialAttack
    rw [if_neg h]

/-- Witness for C23: the example caster (chain lightning, cooldown 5000,
last special attack at time 0) called at time 3000 and nothing changes. -/
theorem performSpecialAttack_gate_witness :
    exampleCaster.specialAttackCooldown = 5000 ∧
      exampleCaster.specialCooldown = 5000 ∧
      exampleCaster.performSpecialAttack (fun _ _ w _ => w)
          (fun _ _ (w : SpecialWorld Unit) _ => w) ⟨[exampleEnemy 1 10], ()⟩ 3000 =
        (exampleCaster, ⟨[exampleEnemy 1 10], ()⟩) :=
  ⟨rfl,
    (performSpecialAttack_gate (fun _ _ w _ => w) (fun _ _ (w : SpecialWorld Unit) _ => w)
      exampleCaster ⟨[exampleEnemy 1 10], ()⟩ 3000 rfl).1,
    (performSpecialAttack_gate (fun _ _ w _ => w) (fun _ _ (w : SpecialWorld Unit) _ => w)
      exampleCaster ⟨[exampleEnemy 1 10], ()⟩ 3000 rfl).2.1 (by decide!)⟩

/-! ### Collision knock-back -/

/-- A colliding pair whose centres are apart gets a defined knock-back. -/
theorem collisionKnockback_defined {K : Type} [LinearOrderedField K] (sqrt : K → K)
    (ux uy usize ex ey esize knockbackDistance : K)
    (hne : sqrt ((ux - ex) * (ux - ex) + (uy - ey) * (uy - ey)) ≠ 0)
    (hhit : sqrt ((ux - ex) * (ux - ex) + (uy - ey) * (uy - ey)) < usize + esize) :
    collisionKnockback sqrt ux uy usize ex ey esize knockbackDistance =
      some (some
        (ex - (ux - ex) / sqrt ((ux - ex) * (ux - ex) + (uy - ey) * (uy - ey)) *
            knockbackDistance,
          ey - (uy - ey) / sqrt ((ux - ex) * (ux - ex) + (uy - ey) * (uy - ey)) *
            knockbackDistance)) := by
  unfold collisionKnockback
  simp only [hhit, if_true, hne, if_false]

/-- The chase step of `Enemy.update` is guarded: an enemy standing on the
commander stays where it is. -/
theorem enemyChase_on_target (cx cy speed speedModifier : ℝ) :
    enemyChase Real.sqrt cx cy cx cy speed speedModifier = (cx, cy) := by
  simp [enemyChase]

/-- C30 (the code at the failing input). The knock-back of
`checkEnemyCollision` for an enemy standing exactly on the unit it collides
with. A shoggoth (size 25, damage 20) on the commander of the example game
(at (400, 300), size 20): the pair collides, the commander survives the hit,
and the direction is `0 / 0`. The same for a follower (size 15) at the origin
with knock-back 20. -/
theorem knockback_divides_by_zero :
    (exampleGame.commander.x, exampleGame.commander.y, exampleGame.commander.size) =
        (400, 300, 20) ∧
      0 < (exampleGame.commander.takeDamage
        (Enemy.new 9 400 300 EnemyType.shoggoth false).damage 1000).1.health ∧
      (Enemy.new 9 400 300 EnemyType.shoggoth false).size = 25 ∧
      collisionKnockback Real.sqrt 400 300 20 400 300 25 30 = some none ∧
      collisionKnockback Real.sqrt 0 0 15 0 0 25 20 = some none := by
  refine ⟨by decide!, by decide!, by decide!, ?_, ?_⟩
  · simp [collisionKnockback]
    norm_num
  · simp [collisionKnockback]
    norm_num

/-! ### Recruitment -/

/-- The target a follower appended to `fs` must have for the chain to go on. -/
theorem chainFrom_append (f : Follower) (fs : List Follower) :
    ∀ prev : Target, chainFrom prev (fs ++ [f]) =
      (chainFrom prev fs &&
        decide (f.target =
          match fs.getLast? with
          | none => prev
          | some lastFollower => Target.follower lastFollower.id)) := by
  induction fs with
  | nil => intro prev; simp [chainFrom]
  | cons a rest ih =>
    intro prev
    cases rest with
    | nil => simp [chainFrom]
    | cons b rest2 =>
      have hrec := ih (Target.follower a.id)
      cases hl : (b :: rest2).getLast? with
      | none =>
        rw [List.getLast?_eq_none_iff] at hl
        cases hl
      | some lastFollower =>
        rw [hl] at hrec
        rw [List.cons_append, List.getLast?_cons_cons, hl]
        unfold chainFrom
        rw [hrec, Bool.and_assoc]

/-- One visit of the recruitment loop either leaves the followers alone or
appends one follower that targets the previously last one (the commander for
an empty list); it never removes more engineers than it adds followers. -/
theorem collectEngineer_followers (g : Game) (index : Nat) (d : RecruitDraws) :
    (g.collectEngineer index d).followers = g.followers ∨
      ∃ f : Follower, (g.collectEngineer index d).followers = g.followers ++ [f] ∧
        g.followers.length < 12 ∧
        f.id = d.followerId ∧
        f.target =
          match g.followers.getLast? with
          | none => Target.commander
          | some lastFollower => Target.follower lastFollower.id := by
  unfold Game.collectEngineer
  cases hE : g.engineers[index]? with
  | none => exact Or.inl rfl
  | some engineer =>
    simp only
    split_ifs with h1 h2 h3
    · exact Or.inl rfl
    · exact Or.inl rfl
    · right
      refine ⟨_, rfl, by omega, ?_, ?_⟩
      · cases engineer.steamClass.bind
          (fun c => STEAM_CLASSES.find? (fun k => decide (k.name = c.name))) <;>
          cases g.followers.getLast? <;> rfl
      · cases engineer.steamClass.bind
          (fun c => STEAM_CLASSES.find? (fun k => decide (k.name = c.name))) <;>
          cases g.followers.getLast? <;> rfl
    · exact Or.inl rfl

/-- One visit of the recruitment loop keeps the chain. -/
theorem collectEngineer_chain (g : Game) (index : Nat) (d : RecruitDraws)
    (h : chainFrom Target.commander g.followers = true) :
    chainFrom Target.commander (g.collectEngineer index d).followers = true := by
  rcases collectEngineer_followers g index d with h1 | ⟨f, h1, -, -, h2⟩
  · rw [h1]; exact h
  · rw [h1, chainFrom_append, h, h2]
    simp

/-- The recruitment loop keeps the chain and only appends. -/
theorem engineerLoop_chain (draws : Nat → RecruitDraws) (k : Nat) :
    ∀ (index : Nat) (g : Game), chainFrom Target.commander g.followers = true →
      chainFrom Target.commander (Game.engineerLoop draws k index g).followers = true ∧
        ∃ added : List Follower,
          (Game.engineerLoop draws k index g).followers = g.followers ++ added ∧
            added.length ≤ k ∧
            (added ≠ [] → g.followers.length + added.length ≤ 12) := by
  induction k with
  | zero =>
    intro index g h
    exact ⟨h, [], by simp [Game.engineerLoop], le_refl _, fun hne => absurd rfl hne⟩
  | succ k ih =>
    intro index g h
    have hstep := collectEngineer_chain g index (draws index) h
    obtain ⟨hc, added, hadd, hlen, hcap⟩ :=
      ih (index + 1) (g.collectEngineer index (draws index)) hstep
    refine ⟨hc, ?_⟩
    rcases collectEngineer_followers g index (draws index) with h1 | ⟨f, h1, h12, -, -⟩
    · rw [h1] at hadd hcap
      exact ⟨added, hadd, by omega, hcap⟩
    · rw [h1] at hadd hcap
      refine ⟨f :: added, by simpa using hadd, by simp; omega, ?_⟩
      intro _
      by_cases hnil : added = []
      · rw [hnil]
        simp only [List.length_cons, List.length_nil]
        omega
      · have := hcap hnil
        simp only [List.length_append, List.length_cons, List.length_nil] at this ⊢
        omega

/-- The chain check on an extended list: the old part is chained, and the
new part is chained behind the last old follower (behind `prev` when there
is none). -/
theorem chainFrom_append_list (added fs : List Follower) :
    ∀ prev : Target, chainFrom prev (fs ++ added) =
      (chainFrom prev fs &&
        chainFrom
          (match fs.getLast? with
            | none => prev
            | some lastFollower => Target.follower lastFollower.id) added) := by
  induction fs with
  | nil => intro prev; simp [chainFrom]
  | cons a rest ih =>
    intro prev
    cases rest with
    | nil => simp [chainFrom]
    | cons b rest2 =>
      have hrec := ih (Target.follower a.id)
      cases hl : (b :: rest2).getLast? with
      | none =>
        rw [List.getLast?_eq_none_iff] at hl
        cases hl
      | some lastFollower =>
        rw [hl] at hrec
        rw [List.cons_append, List.getLast?_cons_cons, hl]
        have e1 : chainFrom prev (a :: (b :: rest2 ++ added)) =
            (decide (a.target = prev) &&
              chainFrom (Target.follower a.id) (b :: rest2 ++ added)) := rfl
        have e2 : chainFrom prev (a :: b :: rest2) =
            (decide (a.target = prev) && chainFrom (Target.follower a.id) (b :: rest2)) := rfl
        rw [e1, e2, hrec, Bool.and_assoc]

/-- C29. If the follower list is a chain before
`checkEngineerCollision`, it is one afterwards, however many engineers the
call collects. The followers that were there stay in place unchanged (targets
included); the new ones are appended at the end, at most one per engineer and
never past a team of 12, and they are chained behind the previously last
follower: the first new one targets it (or the commander when the list was
empty), every further one targets the new follower before it. -/
theorem recruit_preserves_chain (g : Game) (draws : Nat → RecruitDraws)
    (h : ChainInvariant g.followers) :
    ChainInvariant (g.checkEngineerCollision draws).followers ∧
      ∃ added : List Follower,
        (g.checkEngineerCollision draws).followers = g.followers ++ added ∧
          added.length ≤ g.engineers.length ∧
          (added ≠ [] → g.followers.length + added.length ≤ 12) ∧
          ChainFromIdx
            (match g.followers.getLast? with
              | none => Target.commander
              | some lastFollower => Target.follower lastFollower.id) added := by
  rw [chainInvariant_iff] at h ⊢
  obtain ⟨hc, added, hadd, hlen, hcap⟩ :=
    engineerLoop_chain draws g.engineers.length 0 g h
  refine ⟨hc, added, hadd, hlen, hcap, ?_⟩
  rw [chainFromIdx_iff]
  have hc2 : chainFrom Target.commander (g.followers ++ added) = true := by
    have := hc
    rw [hadd] at this
    exact this
  rw [chainFrom_append_list, Bool.and_eq_true] at hc2
  exact hc2.2

/-- The example recruitment: of three engineers within reach the loop
collects the first and the third (the splice shifts the second one under the
index just visited); the two new followers are chained behind the commander. -/
theorem recruit_example :
    (exampleRecruits.checkEngineerCollision exampleRecruitDraws).followers.map
        (fun f => (f.id, f.target)) =
      [(10, Target.commander), (11, Target.follower 10)] ∧
    (exampleRecruits.checkEngineerCollision exampleRecruitDraws).engineers.map
        (fun e => (e.x, e.y)) = [(410, 300)] := by
  decide!

/-- Witness for C29: the example game with three engineers within reach and
no follower yet. -/
theorem recruit_preserves_chain_witness :
    ChainInvariant exampleRecruits.followers ∧
      ChainInvariant (exampleRecruits.checkEngineerCollision exampleRecruitDraws).followers :=
  ⟨by decide, (recruit_preserves_chain exampleRecruits exampleRecruitDraws (by decide)).1⟩

/-! ### Single boss -/

/-- The boss invariant only looks at three fields. -/
theorem bossInvariant_congr (g g2 : Game) (he : g2.enemies = g.enemies)
    (hc : g2.currentBoss = g.currentBoss) (hb : g2.bossDefeated = g.bossDefeated)
    (h : g.BossInvariant) : g2.BossInvariant := by
  unfold Game.BossInvariant at h ⊢
  rw [he, hc, hb]
  exact h

/-- Pushing a fresh enemy that is no boss keeps the boss invariant. -/
theorem bossInvariant_push (g g2 : Game) (e : Enemy) (he : g2.enemies = g.enemies ++ [e])
    (hc : g2.currentBoss = g.currentBoss) (hb : g2.bossDefeated = g.bossDefeated)
    (hboss : e.isBoss = false) (hfresh : e.id ∉ g.enemies.map Enemy.id)
    (h : g.BossInvariant) : g2.BossInvariant := by
  obtain ⟨h1, h2, h3⟩ := h
  unfold Game.BossInvariant
  rw [he, hc, hb]
  refine ⟨?_, ?_, ?_⟩
  · rw [List.map_append, List.map_singleton]
    refine List.Nodup.append h1 (List.nodup_singleton _) ?_
    intro a ha hb2
    rw [List.mem_singleton] at hb2
    exact hfresh (hb2 ▸ ha)
  · intro a ha hab
    rcases List.mem_append.mp ha with h4 | h4
    · exact h2 a h4 hab
    · rw [List.mem_singleton] at h4
      rw [h4, hboss] at hab
      cases hab
  · intro hd a ha
    rcases List.mem_append.mp ha with h4 | h4
    · exact h3 hd a h4
    · rw [List.mem_singleton] at h4
      rw [h4]
      exact hboss

/-- What one iteration of the spawn loop does to the three boss fields. -/
theorem spawnOne_boss_fields (g : Game) (d : SpawnDraws) :
    (∃ e : Enemy, (g.spawnOne d).enemies = g.enemies ++ [e] ∧ e.id = d.enemyId ∧
      e.isBoss = false) ∧
    (g.spawnOne d).currentBoss = g.currentBoss ∧
    (g.spawnOne d).bossDefeated = g.bossDefeated :=
  ⟨⟨_, rfl, rfl, rfl⟩, rfl, rfl⟩

/-- The spawn loop keeps the boss invariant when the created enemies are new
objects. -/
theorem spawnLoop_bossInvariant (draws : Nat → SpawnDraws)
    (hinj : ∀ i j : Nat, (draws i).enemyId = (draws j).enemyId → i = j) (k : Nat) :
    ∀ (i : Nat) (g : Game), g.BossInvariant →
      (∀ j : Nat, i ≤ j → (draws j).enemyId ∉ g.enemies.map Enemy.id) →
      (Game.spawnLoop draws k i g).BossInvariant ∧
        (Game.spawnLoop draws k i g).currentBoss = g.currentBoss ∧
        (Game.spawnLoop draws k i g).bossDefeated = g.bossDefeated := by
  induction k with
  | zero => intro i g h _; exact ⟨h, rfl, rfl⟩
  | succ k ih =>
    intro i g h hfresh
    obtain ⟨⟨e, he, hid, hboss⟩, hc, hb⟩ := spawnOne_boss_fields g (draws i)
    have hinv : (g.spawnOne (draws i)).BossInvariant :=
      bossInvariant_push g _ e he hc hb hboss (hid ▸ hfresh i (le_refl _)) h
    have hfresh2 : ∀ j : Nat, i + 1 ≤ j →
        (draws j).enemyId ∉ (g.spawnOne (draws i)).enemies.map Enemy.id := by
      intro j hj
      rw [he, List.map_append, List.map_singleton, List.mem_append, List.mem_singleton, hid]
      rintro (h1 | h1)
      · exact hfresh j (by omega) h1
      · have := hinj j i h1
        omega
    obtain ⟨r1, r2, r3⟩ := ih (i + 1) _ hinv hfresh2
    exact ⟨r1, r2.trans hc, r3.trans hb⟩

/-- In a list of distinct objects the entries left after removing one differ
from the removed one. -/
theorem eraseIdx_id_ne (l : List Enemy) (hnd : (l.map Enemy.id).Nodup) :
    ∀ (i : Nat) (a : Enemy), l[i]? = some a → ∀ b ∈ l.eraseIdx i, b.id ≠ a.id := by
  induction l with
  | nil => intro i a h; simp at h
  | cons c l ih =>
    intro i a h b hb
    simp only [List.map_cons, List.nodup_cons] at hnd
    cases i with
    | zero =>
      simp only [List.getElem?_cons_zero, Option.some.injEq] at h
      simp only [List.eraseIdx_cons_zero] at hb
      intro heq
      apply hnd.1
      rw [h, ← heq]
      exact List.mem_map_of_mem Enemy.id hb
    | succ j =>
      simp only [List.getElem?_cons_succ] at h
      simp only [List.eraseIdx_cons_succ, List.mem_cons] at hb
      rcases hb with hb | hb
      · intro heq
        apply hnd.1
        rw [← hb, heq]
        exact List.mem_map_of_mem Enemy.id (List.getElem?_mem h)
      · exact ih hnd.2 j a h b hb

/-- The removal block keeps the boss invariant. -/
theorem removeDefeated_bossInvariant (g : Game) (i : Nat) (h : g.BossInvariant) :
    (g.removeDefeated i).BossInvariant := by
  obtain ⟨h1, h2, h3⟩ := h
  unfold Game.removeDefeated
  cases hE : g.enemies[i]? with
  | none => exact ⟨h1, h2, h3⟩
  | some enemy =>
    simp only
    have hsub : (g.enemies.eraseIdx i).Sublist g.enemies := List.eraseIdx_sublist _ _
    have hnd : ((g.enemies.eraseIdx i).map Enemy.id).Nodup := h1.sublist (hsub.map Enemy.id)
    split_ifs with hdead hwas
    · refine ⟨hnd, ?_, ?_⟩
      · intro e he hb
        have hcur := h2 e (hsub.subset he) hb
        have hwas2 : g.currentBoss = some enemy.id := by simpa using hwas
        rw [hwas2] at hcur
        exact absurd (Option.some.inj hcur).symm (eraseIdx_id_ne g.enemies h1 i enemy hE e he)
      · intro _ e he
        cases hb : e.isBoss with
        | false => rfl
        | true =>
          have hcur := h2 e (hsub.subset he) hb
          have hwas2 : g.currentBoss = some enemy.id := by simpa using hwas
          rw [hwas2] at hcur
          exact absurd (Option.some.inj hcur).symm
            (eraseIdx_id_ne g.enemies h1 i enemy hE e he)
    · exact ⟨hnd, fun e he hb => h2 e (hsub.subset he) hb,
        fun hd e he => h3 hd e (hsub.subset he)⟩
    · exact ⟨h1, h2, h3⟩

/-- `checkWaveProgress` keeps the boss invariant when the boss it may create
is a new object. -/
theorem checkWaveProgress_bossInvariant (g : Game) (posIdx : Fin 4) (typeIdx : Fin 3)
    (bossId : Nat) (hfresh : bossId ∉ g.enemies.map Enemy.id) (h : g.BossInvariant) :
    (g.checkWaveProgress posIdx typeIdx bossId).BossInvariant := by
  have hfade : ∀ g3 : Game, g3.BossInvariant →
      (if g3.waveStatusAlpha > 0 then
        { g3 with waveStatusAlpha := g3.waveStatusAlpha - 1 / 200 } else g3).BossInvariant := by
    intro g3 h3
    split_ifs
    · exact bossInvariant_congr g3 _ rfl rfl rfl h3
    · exact h3
  have hcomplete : ∀ g2 : Game, g2.BossInvariant →
      (if g2.waveIsComplete = true then g2.completeWave else g2).BossInvariant := by
    intro g2 hg2
    split_ifs with hwc
    · obtain ⟨k1, k2, k3⟩ := hg2
      have hbd : g2.bossDefeated = true := by
        unfold Game.waveIsComplete at hwc
        simp only [Bool.and_eq_true] at hwc
        exact hwc.2
      refine ⟨k1, ?_, ?_⟩
      · intro e he hb
        have := k3 hbd e he
        rw [this] at hb
        cases hb
      · intro hd
        cases hd
    · exact hg2
  have hspawnInv : g.currentBoss = none → g.bossDefeated = false →
      (Game.spawnBoss { g with waveTimer := g.waveTimer + 1667 / 100 }
        posIdx typeIdx bossId).BossInvariant := by
    intro hnone hnd
    obtain ⟨k1, k2, k3⟩ := h
    refine ⟨?_, ?_, ?_⟩
    · show ((g.enemies ++ [_]).map Enemy.id).Nodup
      rw [List.map_append, List.map_singleton]
      refine List.Nodup.append k1 (List.nodup_singleton _) ?_
      intro a ha hb2
      rw [List.mem_singleton] at hb2
      apply hfresh
      rw [hb2] at ha
      exact ha
    · intro e he hb
      have he2 : e ∈ g.enemies ++ [_] := he
      rcases List.mem_append.mp he2 with h4 | h4
      · have hcur := k2 e h4 hb
        rw [hnone] at hcur
        cases hcur
      · rw [List.mem_singleton] at h4
        rw [h4]
        rfl
    · intro hd
      have hd2 : g.bossDefeated = true := hd
      rw [hnd] at hd2
      cases hd2
  have h1 : ({ g with waveTimer := g.waveTimer + 1667 / 100 } : Game).BossInvariant :=
    bossInvariant_congr g _ rfl rfl rfl h
  have hg2 : (if (g.currentBoss.isNone && !g.bossDefeated &&
        decide ((g.enemiesDefeated : ℚ) ≥ (g.enemiesRequiredForWave : ℚ) * (3 / 4))) = true then
      Game.spawnBoss { g with waveTimer := g.waveTimer + 1667 / 100 } posIdx typeIdx bossId
      else { g with waveTimer := g.waveTimer + 1667 / 100 }).BossInvariant := by
    split_ifs with hspawn
    · simp only [Bool.and_eq_true, Option.isNone_iff_eq_none, Bool.not_eq_true',
        decide_eq_true_eq] at hspawn
      exact hspawnInv hspawn.1.1 hspawn.1.2
    · exact h1
  unfold Game.checkWaveProgress
  by_cases hw : g.waveCompleted = true
  · rw [if_pos hw]
    exact h
  · rw [if_neg hw]
    exact hfade _ (hcomplete _ hg2)

/-- Every admissible event keeps the boss invariant. -/
theorem step_bossInvariant (g : Game) (ev : GameEvent) (hadm : ev.Admissible g)
    (h : g.BossInvariant) : (g.step ev).BossInvariant := by
  cases ev with
  | startGame =>
    refine ⟨?_, ?_, ?_⟩
    · show (([] : List Enemy).map Enemy.id).Nodup
      exact List.nodup_nil
    · intro e he
      exact absurd he (List.not_mem_nil _)
    · intro _ e he
      exact absurd he (List.not_mem_nil _)
  | spawnEnemy draws now =>
    obtain ⟨hfresh, hinj⟩ := hadm
    show (g.spawnEnemy draws now).BossInvariant
    unfold Game.spawnEnemy
    split_ifs
    · exact h
    · obtain ⟨r1, r2, r3⟩ := spawnLoop_bossInvariant draws hinj (min g.level 5) 0 g h
        (fun j _ => hfresh j)
      exact bossInvariant_congr _ _ rfl rfl rfl r1
  | pushEnemy enemy =>
    exact bossInvariant_push g _ enemy rfl rfl rfl hadm.1 hadm.2 h
  | touchEnemies enemies =>
    obtain ⟨h1, h2, h3⟩ := h
    have hadm2 : enemies.map (fun e => (e.id, e.isBoss)) =
        g.enemies.map (fun e => (e.id, e.isBoss)) := hadm
    have hids : enemies.map Enemy.id = g.enemies.map Enemy.id := by
      have := congrArg (List.map Prod.fst) hadm2
      simpa [List.map_map, Function.comp_def] using this
    have hsame : ∀ e ∈ enemies, ∃ e2 ∈ g.enemies, e2.id = e.id ∧ e2.isBoss = e.isBoss := by
      intro e he
      have hm : (e.id, e.isBoss) ∈ g.enemies.map (fun e => (e.id, e.isBoss)) := by
        rw [← hadm2]
        exact List.mem_map_of_mem (fun e => (e.id, e.isBoss)) he
      obtain ⟨e2, he2, heq⟩ := List.mem_map.mp hm
      simp only [Prod.mk.injEq] at heq
      exact ⟨e2, he2, heq.1, heq.2⟩
    refine ⟨?_, ?_, ?_⟩
    · show (enemies.map Enemy.id).Nodup
      rw [hids]
      exact h1
    · intro e he hb
      obtain ⟨e2, he2, hid, hbo⟩ := hsame e he
      have := h2 e2 he2 (hbo.trans hb)
      rw [hid] at this
      exact this
    · intro hd e he
      obtain ⟨e2, he2, -, hbo⟩ := hsame e he
      rw [← hbo]
      exact h3 hd e2 he2
  | removeDefeated index => exact removeDefeated_bossInvariant g index h
  | checkWaveProgress posIdx typeIdx bossId =>
    exact checkWaveProgress_bossInvariant g posIdx typeIdx bossId hadm h
  | elsewhere change =>
    exact bossInvariant_congr g _ hadm.1 hadm.2.1 hadm.2.2 h

/-- Every reachable game satisfies the boss invariant. -/
theorem reachable_bossInvariant (g : Game) (h : Reachable g) : g.BossInvariant := by
  induction h with
  | fresh g he hc hb =>
    refine ⟨?_, ?_, ?_⟩
    · rw [he]; exact List.nodup_nil
    · intro e hmem
      rw [he] at hmem
      exact absurd hmem (List.not_mem_nil _)
    · intro _ e hmem
      rw [he] at hmem
      exact absurd hmem (List.not_mem_nil _)
  | step g ev _ hadm ih => exact step_bossInvariant g ev hadm ih

/-- Distinct objects that all carry the same identity are at most one. -/
theorem length_le_one_of_same_id (l : List Enemy) (b : Nat) (hnd : (l.map Enemy.id).Nodup)
    (hall : ∀ e ∈ l, e.id = b) : l.length ≤ 1 := by
  match l, hnd, hall with
  | [], _, _ => simp
  | [_], _, _ => simp
  | a :: c :: rest, hnd, hall =>
    exfalso
    simp only [List.map_cons, List.nodup_cons, List.mem_cons, not_or] at hnd
    apply hnd.1.1
    rw [hall a (List.mem_cons_self _ _), hall c (List.mem_cons_of_mem _ (List.mem_cons_self _ _))]

/-- C24. In every game reachable from a freshly constructed one through
starts, restarts and the steps of `update`, the enemy list holds at most one
enemy with `isBoss = true`, and that one is the enemy `currentBoss` refers to.
`handleBossDefeat` leaves `currentBoss = null` and `bossDefeated = true`; when
the removal block calls it for the defeated boss, no boss is left in the
list. -/
theorem single_boss (g : Game) (h : Reachable g) :
    (g.enemies.filter (fun e => e.isBoss)).length ≤ 1 ∧
    (∀ e ∈ g.enemies, e.isBoss = true → g.currentBoss = some e.id) ∧
    g.handleBossDefeat.currentBoss = none ∧
    g.handleBossDefeat.bossDefeated = true ∧
    (∀ (i : Nat) (boss : Enemy), g.enemies[i]? = some boss → boss.health ≤ 0 →
      g.currentBoss = some boss.id →
      (g.removeDefeated i).currentBoss = none ∧ (g.removeDefeated i).bossDefeated = true ∧
        (g.removeDefeated i).enemies.filter (fun e => e.isBoss) = []) := by
  have hinv := reachable_bossInvariant g h
  obtain ⟨h1, h2, h3⟩ := hinv
  refine ⟨?_, h2, rfl, rfl, ?_⟩
  · cases hcb : g.currentBoss with
    | none =>
      have hnil : g.enemies.filter (fun e => e.isBoss) = [] := by
        rw [List.filter_eq_nil_iff]
        intro e he hb
        have := h2 e he hb
        rw [hcb] at this
        cases this
      rw [hnil]
      simp
    | some b =>
      apply length_le_one_of_same_id _ b
      · exact h1.sublist ((List.filter_sublist g.enemies).map Enemy.id)
      · intro e he
        obtain ⟨he1, he2⟩ := List.mem_filter.mp he
        have := h2 e he1 he2
        rw [hcb] at this
        exact (Option.some.inj this).symm
  · intro i boss hE hdead hcur
    have hinv2 := removeDefeated_bossInvariant g i ⟨h1, h2, h3⟩
    have hform : g.removeDefeated i =
        Game.handleBossDefeat
          { g with
            score := g.score + (((match boss.type with
              | EnemyType.cultist => ⌊50 * (1 + ((g.level : ℚ) - 1) * (2 / 10))⌋
              | EnemyType.deep_one => ⌊100 * (1 + ((g.level : ℚ) - 1) * (2 / 10))⌋
              | EnemyType.shoggoth => ⌊200 * (1 + ((g.level : ℚ) - 1) * (2 / 10))⌋ : ℤ)) : ℚ)
            enemiesDefeated := g.enemiesDefeated + 1
            enemies := g.enemies.eraseIdx i } := by
      unfold Game.removeDefeated
      rw [hE]
      simp only [hdead, if_true, hcur, decide_True]
    have hbd : (g.removeDefeated i).bossDefeated = true := by rw [hform]; rfl
    refine ⟨by rw [hform]; rfl, hbd, ?_⟩
    rw [List.filter_eq_nil_iff]
    intro e he hb
    have := hinv2.2.2 hbd e he
    rw [this] at hb
    cases hb

/-- The example game after eight defeated enemies and a call of
`checkWaveProgress` (boss identity 7): exactly one boss is in the list. -/
theorem single_boss_example :
    (((exampleGame.step (GameEvent.elsewhere exampleLateWave)).step
        (GameEvent.checkWaveProgress 0 0 7)).enemies.map (fun e => (e.id, e.isBoss))) =
        [(7, true)] ∧
      ((exampleGame.step (GameEvent.elsewhere exampleLateWave)).step
        (GameEvent.checkWaveProgress 0 0 7)).currentBoss = some 7 := by
  decide!

/-- The example game after eight defeated enemies and the boss spawn of
`checkWaveProgress` is reachable. -/
theorem single_boss_example_reachable :
    Reachable ((exampleGame.step (GameEvent.elsewhere exampleLateWave)).step
        (GameEvent.checkWaveProgress 0 0 7)) := by
  have h0 : Reachable exampleGame := Reachable.fresh exampleGame rfl rfl rfl
  have a1 : (GameEvent.elsewhere exampleLateWave).Admissible exampleGame := by
    show (exampleLateWave exampleGame).enemies = exampleGame.enemies ∧
      (exampleLateWave exampleGame).currentBoss = exampleGame.currentBoss ∧
      (exampleLateWave exampleGame).bossDefeated = exampleGame.bossDefeated
    exact ⟨rfl, rfl, rfl⟩
  have h1 : Reachable (exampleGame.step (GameEvent.elsewhere exampleLateWave)) :=
    Reachable.step exampleGame (GameEvent.elsewhere exampleLateWave) h0 a1
  have a2 : (GameEvent.checkWaveProgress 0 0 7).Admissible
      (exampleGame.step (GameEvent.elsewhere exampleLateWave)) := by
    show (7 : Nat) ∉
      List.map Enemy.id (exampleGame.step (GameEvent.elsewhere exampleLateWave)).enemies
    decide!
  exact Reachable.step _ (GameEvent.checkWaveProgress 0 0 7) h1 a2

/-- Witness for C24: the example game after eight defeated enemies and the
boss spawn of `checkWaveProgress`. -/
theorem single_boss_witness :
    Reachable ((exampleGame.step (GameEvent.elsewhere exampleLateWave)).step
        (GameEvent.checkWaveProgress 0 0 7)) ∧
      (((exampleGame.step (GameEvent.elsewhere exampleLateWave)).step
        (GameEvent.checkWaveProgress 0 0 7)).enemies.filter (fun e => e.isBoss)).length ≤ 1 :=
  ⟨single_boss_example_reachable, (single_boss _ single_boss_example_reachable).1⟩

end DungeonRunner
